import Mathlib

/-! ## Shell "foot" generator for contacts: a shallow embedding

The script `ShellFootGeneratorForContacts.js` builds a band of new shell
elements (a "foot") along an edge of a shell component.  This file embeds the
script in two layers:

* The whole script (`run` and what it calls) in exact rational arithmetic:
  JavaScript numbers are rationals, and `Math.sqrt` is a parameter
  `sqrt : ℚ → ℚ` of every definition that calls it.  When `footNum` is 0 the
  recomputed `footWidth` is `Infinity` or `NaN`; the script goes on, and so
  does `run`, with nodes whose coordinates are `NaN` (`NaNState`).
* The numeric lines of the script in an arbitrary arithmetic `Arith`
  (`footSetupR`, `mergeTolR`, `offsetNodeR`, `edgeCheckR`, ...), of which
  `doubleArith` is IEEE 754 binary64, the arithmetic the script runs in, and
  `exactArith` gives the definitions of the first layer back.

The mesh database of the host is an explicit `Model` value threaded through
the code; flags allocated by the script are lists of ids.
-/

namespace ShellFoot

/-! ## Numbers -/

/-- JavaScript `Math.round` on an exact rational: the nearest integer, a tie
going to the larger one. -/
def jsRound (q : ℚ) : ℤ := ⌊q + 1 / 2⌋

/-- The plane and mid-surface tolerance `0.000001` of lines 150 and 283. -/
def planeTol : ℚ := 1 / 1000000

/-! ## Foot width and layer count (lines 70, 76-87) -/

/-- Values left by lines 70-87: `footNum`, the recomputed `footWidth`
(`none` when the division `thick / footNum` is a division by zero, which
JavaScript evaluates to `Infinity` or `NaN`), and `halfThk`. -/
structure FootSetup where
  footNum : ℤ
  footWidth : Option ℚ
  halfThk : ℚ
deriving DecidableEq

/-- Lines 70 and 77-87.  `thick` is the resolved thickness, `width` the number
returned by `Window.GetNumber`. -/
def footSetup (thick width : ℚ) : FootSetup :=
  let halfThk := thick / 2
  if width = 0 then
    { footNum := 2, footWidth := some halfThk, halfThk := halfThk }
  else
    let footNum := jsRound (halfThk / width) * 2
    { footNum := footNum,
      footWidth := if footNum = 0 then none else some (thick / (footNum : ℚ)),
      halfThk := halfThk }

/-- The offset `x * footWidth - halfThk` of lines 150 and 157. -/
def armOffset (footWidth halfThk : ℚ) (x : ℕ) : ℚ := (x : ℚ) * footWidth - halfThk

/-! ## Mesh database -/

/-- A mesh node: label and coordinates. -/
structure Node where
  nid : ℕ
  x : ℚ
  y : ℚ
  z : ℚ
deriving DecidableEq

/-- A shell element: label, part id and the four corner node labels. -/
structure Shell where
  eid : ℕ
  pid : ℕ
  n1 : ℕ
  n2 : ℕ
  n3 : ℕ
  n4 : ℕ
deriving DecidableEq

/-- A part.  `layers` lists `GetCompositeData(k)[1]` for `k < nip`. -/
structure Part where
  pid : ℕ
  composite : Bool
  layers : List ℚ
  secid : ℕ
deriving DecidableEq

/-- A section with its thickness `t1`. -/
structure Section where
  secid : ℕ
  t1 : ℚ
deriving DecidableEq

/-- A set of type `Set.NODE`: label and the node labels added to it. -/
structure NodeSet where
  sid : ℕ
  nodes : List ℕ
deriving DecidableEq

/-- A nodal rigid body `new NodalRigidBody(m, nsid, pid)`. -/
structure NodalRigidBody where
  nsid : ℕ
  pid : ℕ
deriving DecidableEq

/-- The model `m` of the host. -/
structure Model where
  nodes : List Node
  shells : List Shell
  parts : List Part
  sections : List Section
  sets : List NodeSet
  nrbs : List NodalRigidBody
deriving DecidableEq

/-- The ways the script stops early. -/
inductive Err where
  /-- Line 19: no model selected, `Exit()`. -/
  | noModel
  /-- Line 33: "Must Pick at least two edge nodes". -/
  | edgeNodes
  /-- Line 236: "Arrays too short". -/
  | arraysTooShort
  /-- Line 251: "Arrays different lengths". -/
  | arraysDifferentLengths
  /-- A property read on `null` or `undefined` (JavaScript `TypeError`). -/
  | typeError
deriving DecidableEq

deriving instance DecidableEq for Except

/-- The element of `l` with the largest key, the first such one; `none` for
the empty list. -/
def lastBy {α : Type} (key : α → ℕ) : List α → Option α
  | [] => none
  | a :: l =>
    match lastBy key l with
    | none => some a
    | some b => if key a < key b then some b else some a

/-- Host primitive `Node.GetFromID`. -/
def Node.GetFromID (m : Model) (id : ℕ) : Option Node :=
  m.nodes.find? (fun n => n.nid = id)

/-- Host primitive `Part.GetFromID`. -/
def Part.GetFromID (m : Model) (id : ℕ) : Option Part :=
  m.parts.find? (fun p => p.pid = id)

/-- Host primitive `Section.GetFromID`. -/
def Section.GetFromID (m : Model) (id : ℕ) : Option Section :=
  m.sections.find? (fun p => p.secid = id)

/-- Host primitive `Node.Last`: the node of largest label. -/
def Node.Last (m : Model) : Option Node := lastBy Node.nid m.nodes

/-- Host primitive `Shell.Last`: the shell of largest label. -/
def Shell.Last (m : Model) : Option Shell := lastBy Shell.eid m.shells

/-- Host primitive `Set.Last(m, Set.NODE)`: the node set of largest label. -/
def NodeSet.Last (m : Model) : Option NodeSet := lastBy NodeSet.sid m.sets

/-- Host primitive `NodalRigidBody.Last`: the rigid body of largest part id. -/
def NodalRigidBody.Last (m : Model) : Option NodalRigidBody :=
  lastBy NodalRigidBody.pid m.nrbs

/-- Host primitive `Node.GetFlagged` for a flag given as a list of labels. -/
def Node.GetFlagged (m : Model) (flag : List ℕ) : List Node :=
  m.nodes.filter (fun n => decide (n.nid ∈ flag))

/-- Host primitive `Part.GetFlagged` for a flag given as a list of labels. -/
def Part.GetFlagged (m : Model) (flag : List ℕ) : List Part :=
  m.parts.filter (fun p => decide (p.pid ∈ flag))

/-- Host primitive `new Node(m, nid, x, y, z)`. -/
def Model.addNode (m : Model) (n : Node) : Model := { m with nodes := m.nodes ++ [n] }

/-- Host primitive `new Shell(m, eid, pid, n1, n2, n3, n4)`. -/
def Model.addShell (m : Model) (s : Shell) : Model := { m with shells := m.shells ++ [s] }

/-- Host primitive `new Set(m, sid, Set.NODE)` followed by its `Add` calls. -/
def Model.addSet (m : Model) (s : NodeSet) : Model := { m with sets := m.sets ++ [s] }

/-- Host primitive `new NodalRigidBody(m, nsid, pid)`. -/
def Model.addNRB (m : Model) (r : NodalRigidBody) : Model := { m with nrbs := m.nrbs ++ [r] }

/-- Host primitive `Set.Add`: a set holds a label once. -/
def setAdd (l : List ℕ) (id : ℕ) : List ℕ := if id ∈ l then l else l ++ [id]

/-! ## Vector functions (lines 229-284) -/

/-- The function `CrossProduct` (lines 230-244) called with two arguments. -/
def CrossProduct (a b : List ℚ) : Except Err (List ℚ) :=
  if a.length < 3 ∨ b.length < 3 then
    .error Err.arraysTooShort
  else
    .ok [a.getD 1 0 * b.getD 2 0 - b.getD 1 0 * a.getD 2 0,
         b.getD 0 0 * a.getD 2 0 - a.getD 0 0 * b.getD 2 0,
         a.getD 0 0 * b.getD 1 0 - b.getD 0 0 * a.getD 1 0]

/-- The function `DotProduct` (lines 247-263). -/
def DotProduct (a b : List ℚ) : Except Err ℚ :=
  if a.length ≠ b.length then
    .error Err.arraysDifferentLengths
  else
    .ok ((List.zipWith (fun p q => p * q) a b).foldl (fun dp t => dp + t) 0)

/-- The function `vec_norm` (lines 266-274).  The result is `none` when its
components are not finite: `mag` is zero, or `v` has fewer than three
components. -/
def vec_norm (sqrt : ℚ → ℚ) (v : List ℚ) : Option (List ℚ) :=
  let mag := sqrt (v.getD 0 0 ^ 2 + v.getD 1 0 ^ 2 + v.getD 2 0 ^ 2)
  if v.length < 3 ∨ mag = 0 then none
  else some [v.getD 0 0 / mag, v.getD 1 0 / mag, v.getD 2 0 / mag]

/-- The function `edgeCheck` (lines 277-284), with the globals it reads as
arguments.  A `footNormalVec` with components that are not finite makes
`Dist` not finite, and the comparison `Dist < 0.000001` false. -/
def edgeCheck (m : Model) (EdgeNode1 : Node) (footNormalVec : Option (List ℚ))
    (nodeID : ℕ) : Except Err Bool :=
  match Node.GetFromID m nodeID with
  | none => .error Err.typeError
  | some node =>
    let w := [node.x - EdgeNode1.x, node.y - EdgeNode1.y, node.z - EdgeNode1.z]
    match footNormalVec with
    | none => .ok false
    | some f =>
      match DotProduct w f with
      | .error e => .error e
      | .ok d => .ok (decide (|d| < planeTol))

/-! ## The main loop (lines 95-216) -/

/-- A vector of three components, as returned by the host query
`NormalVector()`. -/
structure Vec3 where
  x : ℚ
  y : ℚ
  z : ℚ
deriving DecidableEq

/-- The array form of a three-component vector. -/
def Vec3.toList (v : Vec3) : List ℚ := [v.x, v.y, v.z]

/-- What one pass of the loop body used and built, kept for stating
properties: the shell, `LclNodes[0]`, `LclNodes[1]` and the two arms.  The
code never reads it. -/
structure ElemRecord where
  eid : ℕ
  nodeA : Node
  nodeB : Node
  aArm : List Node
  bArm : List Node
deriving DecidableEq

/-- The variables that live across iterations of the main loop.  `LclNodes`
has the four slots the loop can write; `footNormalVec` is `none` while it is
still `undefined`; the two flags hold the labels of the flagged nodes. -/
structure LoopState where
  m : Model
  LclNodes : List (Option Node)
  footNormalVec : Option (Option (List ℚ))
  minEdgeLen : ℚ
  NRBNodeFlag : List ℕ
  WallFootFlag : List ℕ
  log : List ElemRecord
deriving DecidableEq

/-- The values fixed before the main loop starts. -/
structure Env where
  sqrt : ℚ → ℚ
  NormalVector : Shell → Vec3
  EdgeNode1 : Node
  edgeVec : List ℚ
  footNum : ℤ
  footWidth : ℚ
  halfThk : ℚ
  footPart : List Part
  bShellSet : List ℕ

/-- Lines 111-115: the vector computed when `footNormalVec` is still unset. -/
def footNormalOf (sqrt : ℚ → ℚ) (edgeVec : List ℚ) (normalVec : Vec3) :
    Except Err (Option (List ℚ)) :=
  match CrossProduct edgeVec normalVec.toList with
  | .error e => .error e
  | .ok c => .ok (vec_norm sqrt c)

/-- One of the four blocks of lines 118-137: test a corner, store it in
`LclNodes[n]` and advance `n` when it is on the plane. -/
def classifyCorner (m : Model) (EdgeNode1 : Node) (fnv : Option (List ℚ))
    (acc : List (Option Node) × ℕ) (id : ℕ) : Except Err (List (Option Node) × ℕ) :=
  match edgeCheck m EdgeNode1 fnv id with
  | .error e => .error e
  | .ok false => .ok acc
  | .ok true => .ok (acc.1.set acc.2 (Node.GetFromID m id), acc.2 + 1)

/-- Lines 116-137: the four corners in the order `n1`, `n2`, `n3`, `n4`.
Returns the updated `LclNodes` and the final `n`. -/
def classify (m : Model) (EdgeNode1 : Node) (fnv : Option (List ℚ))
    (LclNodes : List (Option Node)) (sh : Shell) : Except Err (List (Option Node) × ℕ) :=
  match classifyCorner m EdgeNode1 fnv (LclNodes, 0) sh.n1 with
  | .error e => .error e
  | .ok a1 =>
    match classifyCorner m EdgeNode1 fnv a1 sh.n2 with
    | .error e => .error e
    | .ok a2 =>
      match classifyCorner m EdgeNode1 fnv a2 sh.n3 with
      | .error e => .error e
      | .ok a3 => classifyCorner m EdgeNode1 fnv a3 sh.n4

/-- The length computed on line 174. -/
def edgeLen (sqrt : ℚ → ℚ) (a b : Node) : ℚ :=
  sqrt ((a.x - b.x) ^ 2 + (a.y - b.y) ^ 2 + (a.z - b.z) ^ 2)

/-- The variables of the node-building loop (lines 146-176).  The arms are
rebuilt from index 0 for every shell, so each is a list whose position `x` is
`aArm[x]`, resp. `bArm[x]`. -/
structure ArmState where
  m : Model
  nid : ℕ
  aArm : List Node
  bArm : List Node
  WallFootFlag : List ℕ
  minEdgeLen : ℚ
deriving DecidableEq

/-- The node created on lines 157-161 (and 164-167) at offset `c` from `p`. -/
def offsetNode (nid : ℕ) (p : Node) (normalVec : Vec3) (c : ℚ) : Node :=
  { nid := nid, x := p.x + normalVec.x * c, y := p.y + normalVec.y * c,
    z := p.z + normalVec.z * c }

/-- The body of the loop of lines 148-176 for one `x`. -/
def armIter (env : Env) (nodeA nodeB : Node) (normalVec : Vec3) (st : ArmState) (x : ℕ) :
    ArmState :=
  if |armOffset env.footWidth env.halfThk x| < planeTol then
    { st with
      aArm := st.aArm ++ [nodeA]
      bArm := st.bArm ++ [nodeB]
      minEdgeLen :=
        if x = 0 ∨ (x : ℤ) = env.footNum then min st.minEdgeLen (edgeLen env.sqrt nodeA nodeB)
        else st.minEdgeLen }
  else
    let c := armOffset env.footWidth env.halfThk x
    let na := offsetNode st.nid nodeA normalVec c
    let nb := offsetNode (st.nid + 1) nodeB normalVec c
    { m := (st.m.addNode na).addNode nb
      nid := st.nid + 2
      aArm := st.aArm ++ [na]
      bArm := st.bArm ++ [nb]
      WallFootFlag := st.WallFootFlag ++ [na.nid, nb.nid]
      minEdgeLen :=
        if x = 0 ∨ (x : ℤ) = env.footNum then min st.minEdgeLen (edgeLen env.sqrt na nb)
        else st.minEdgeLen }

/-- The values of `x` visited by `for (x = 0; x <= footNum; x++)`. -/
def armRange (footNum : ℤ) : List ℕ := List.range (footNum + 1).toNat

/-- The values of `x` visited by `for (x = 0; x < footNum; x++)`. -/
def shellRange (footNum : ℤ) : List ℕ := List.range footNum.toNat

/-- Lines 146-176 for one shell. -/
def buildArms (env : Env) (nodeA nodeB : Node) (normalVec : Vec3) (m : Model) (nid : ℕ)
    (WallFootFlag : List ℕ) (minEdgeLen : ℚ) : ArmState :=
  (armRange env.footNum).foldl (armIter env nodeA nodeB normalVec)
    { m := m, nid := nid, aArm := [], bArm := [], WallFootFlag := WallFootFlag,
      minEdgeLen := minEdgeLen }

/-- The label `arm[x].nid`; `none` when `arm[x]` is `undefined`. -/
def armNid (arm : List Node) (x : ℕ) : Option ℕ := (arm.get? x).map Node.nid

/-- The body of the loop of lines 180-184 for one `x`: the model and the next
`eid`.  Reading `.pid` or `.nid` of `undefined` stops the script. -/
def shellIter (footPart : List Part) (aArm bArm : List Node) (st : Model × ℕ) (x : ℕ) :
    Except (Err × Model) (Model × ℕ) :=
  match footPart.head?, armNid aArm x, armNid aArm (x + 1), armNid bArm (x + 1),
      armNid bArm x with
  | some p, some a0, some a1, some b1, some b0 =>
    .ok (st.1.addShell { eid := st.2, pid := p.pid, n1 := a0, n2 := a1, n3 := b1, n4 := b0 },
      st.2 + 1)
  | _, _, _, _, _ => .error (Err.typeError, st.1)

/-- Lines 179-184 for one shell. -/
def buildShells (env : Env) (aArm bArm : List Node) (m : Model) :
    Except (Err × Model) Model :=
  match Shell.Last m with
  | none => .error (Err.typeError, m)
  | some l =>
    match (shellRange env.footNum).foldlM (shellIter env.footPart aArm bArm) (m, l.eid + 1) with
    | .error e => .error e
    | .ok r => .ok r.1

/-- The state of the loop of lines 187-213. -/
structure NRBState where
  m : Model
  NRBNodeFlag : List ℕ
  WallFootFlag : List ℕ
deriving DecidableEq

/-- The body of the loop of lines 188-213 for one `n`: `lcl` is `LclNodes[n]`
and `arm` the arm of that node, whose positions are the `x` of line 195. -/
def nrbIter (arm : List Node) (lcl : Node) (st : NRBState) : NRBState :=
  if lcl.nid ∈ st.NRBNodeFlag then st
  else
    let nsid := match NodeSet.Last st.m with
      | none => 1
      | some t => t.sid + 1
    let nSet1 : NodeSet := { sid := nsid, nodes := arm.foldl (fun acc n => setAdd acc n.nid) [] }
    let m1 := st.m.addSet nSet1
    let nrbpid := match NodalRigidBody.Last m1 with
      | none => 1
      | some r => r.pid + 1
    { m := m1.addNRB { nsid := nSet1.sid, pid := nrbpid }
      NRBNodeFlag := st.NRBNodeFlag ++ [lcl.nid]
      WallFootFlag := st.WallFootFlag ++ [lcl.nid] }

/-- Lines 187-213 for one shell. -/
def buildNRBs (aArm bArm : List Node) (nodeA nodeB : Node) (st : NRBState) : NRBState :=
  nrbIter bArm nodeB (nrbIter aArm nodeA st)

/-- What lines 110-146 hand to the rest of the loop body: the plane normal in
force, the updated `LclNodes` with the final `n`, the nodes `LclNodes[0]` and
`LclNodes[1]`, and `Node.Last(m)`. -/
structure Prep where
  fnv : Option (List ℚ)
  lcl : List (Option Node)
  n : ℕ
  nodeA : Node
  nodeB : Node
  last : Node
deriving DecidableEq

/-- Lines 110-146 for a flagged shell: the plane normal (computed when still
unset), the classification of the corners, and the reads of `LclNodes[0]`,
`LclNodes[1]` and `Node.Last(m)`, each of which stops the script when the
value is `undefined` or `null`. -/
def shellPrep (env : Env) (s : LoopState) (sh : Shell) : Except Err Prep :=
  let fnvE : Except Err (Option (List ℚ)) :=
    match s.footNormalVec with
    | some f => .ok f
    | none => footNormalOf env.sqrt env.edgeVec (env.NormalVector sh)
  match fnvE with
  | .error e => .error e
  | .ok fnv =>
    match classify s.m env.EdgeNode1 fnv s.LclNodes sh with
    | .error e => .error e
    | .ok (lcl, n) =>
      match (lcl.getD 0 none), (lcl.getD 1 none), Node.Last s.m with
      | some nodeA, some nodeB, some last =>
        .ok { fnv := fnv, lcl := lcl, n := n, nodeA := nodeA, nodeB := nodeB, last := last }
      | _, _, _ => .error Err.typeError

/-- Lines 146-176 for a flagged shell: the first new label is
`Node.Last(m).nid + 1`. -/
def armsOf (env : Env) (s : LoopState) (sh : Shell) (pr : Prep) : ArmState :=
  buildArms env pr.nodeA pr.nodeB (env.NormalVector sh) s.m (pr.last.nid + 1)
    s.WallFootFlag s.minEdgeLen

/-- Lines 146-213 for a flagged shell with local edge nodes `nodeA` and
`nodeB` and normal `normalVec`: arms, shells, node sets and rigid bodies. -/
def shellBuild (env : Env) (s : LoopState) (sh : Shell) (pr : Prep) :
    Except (Err × Model) LoopState :=
  let arms := armsOf env s sh pr
  match buildShells env arms.aArm arms.bArm arms.m with
  | .error e => .error e
  | .ok m1 =>
    let nrb := buildNRBs arms.aArm arms.bArm pr.nodeA pr.nodeB
      { m := m1, NRBNodeFlag := s.NRBNodeFlag, WallFootFlag := arms.WallFootFlag }
    .ok { m := nrb.m
          LclNodes := pr.lcl
          footNormalVec := some pr.fnv
          minEdgeLen := arms.minEdgeLen
          NRBNodeFlag := nrb.NRBNodeFlag
          WallFootFlag := nrb.WallFootFlag
          log := s.log ++ [{ eid := sh.eid, nodeA := pr.nodeA, nodeB := pr.nodeB,
                             aArm := arms.aArm, bArm := arms.bArm }] }

/-- The body of the main loop for a flagged shell (lines 110-213).  An error
carries the model as it stands when the script stops. -/
def shellStep (env : Env) (s : LoopState) (sh : Shell) : Except (Err × Model) LoopState :=
  match shellPrep env s sh with
  | .error e => .error (e, s.m)
  | .ok pr => shellBuild env s sh pr

/-- One iteration of the main loop (lines 108-215). -/
def loopIter (env : Env) (s : LoopState) (sh : Shell) : Except (Err × Model) LoopState :=
  if sh.eid ∈ env.bShellSet then shellStep env s sh else .ok s

/-- The main loop (lines 106-216) over the array `allShells`. -/
def mainLoop (env : Env) (allShells : List Shell) (s : LoopState) :
    Except (Err × Model) LoopState :=
  allShells.foldlM (loopIter env) s

/-- The loop variables as lines 96-105 initialise them. -/
def initState (m : Model) : LoopState :=
  { m := m, LclNodes := [none, none, none, none], footNormalVec := none, minEdgeLen := 1,
    NRBNodeFlag := [], WallFootFlag := [], log := [] }

/-! ## The whole script -/

/-- What the user selects and enters. -/
structure Selection where
  /-- Whether `Model.Select` returned a model. -/
  model : Bool
  /-- Labels of the shells flagged by `Shell.Select`. -/
  bShellSet : List ℕ
  /-- Labels of the nodes flagged by `Node.Select`. -/
  bNodeSet : List ℕ
  /-- The number returned by `Window.GetNumber`. -/
  width : ℚ
  /-- Labels of the parts flagged by `Part.Select`. -/
  bPartSet : List ℕ

/-- Lines 45-74: the thickness read from the part of the first flagged shell.
Running off the end of `allShells`, or a missing part or section, is a read on
`undefined` or `null`. -/
def resolveThick (m : Model) (bShellSet : List ℕ) : Except Err ℚ :=
  match m.shells.find? (fun sh => decide (sh.eid ∈ bShellSet)) with
  | none => .error Err.typeError
  | some aShell =>
    match Part.GetFromID m aShell.pid with
    | none => .error Err.typeError
    | some aPart =>
      if aPart.composite then .ok (aPart.layers.foldl (fun t l => t + l) 0)
      else
        match Section.GetFromID m aPart.secid with
        | none => .error Err.typeError
        | some aSection => .ok aSection.t1

/-! ## Double-precision arithmetic

The script computes in IEEE 754 binary64.  Every finite double is a rational
number; `fl64` rounds a rational to the nearest double (ties to the even
significand, gradual underflow), which is what each `+`, `-`, `*`, `/` of
JavaScript does to its exact result.  Overflow to `Infinity` is not modelled:
the values stay below `2^1024` in magnitude.  The definitions below render the
numeric lines of the script for an arbitrary rounding `fl`; with no rounding
they are the definitions above. -/

/-- The power `2^e` for an integer exponent. -/
def pow2 (e : ℤ) : ℚ :=
  if 0 ≤ e then ((2 ^ e.toNat : ℕ) : ℚ) else 1 / ((2 ^ (-e).toNat : ℕ) : ℚ)

/-- The nearest integer, a tie going to the even one. -/
def roundHalfEven (q : ℚ) : ℤ :=
  if q - (⌊q⌋ : ℚ) < 1 / 2 then ⌊q⌋
  else if 1 / 2 < q - (⌊q⌋ : ℚ) then ⌊q⌋ + 1
  else if ⌊q⌋ % 2 = 0 then ⌊q⌋ else ⌊q⌋ + 1

/-- The loop of `ilog2`, with the number of steps it may take. -/
def log2Fuel : ℕ → ℕ → ℕ
  | 0, _ => 0
  | fuel + 1, n => if 2 ≤ n then log2Fuel fuel (n / 2) + 1 else 0

/-- The position of the leading bit of `n`: `2^(ilog2 n) <= n < 2^(ilog2 n + 1)`
for `n >= 1`. -/
def ilog2 (n : ℕ) : ℕ := log2Fuel n n

/-- The binary exponent of a rational `q` other than 0:
`2^(binade q) <= |q| < 2^(binade q + 1)`. -/
def binade (q : ℚ) : ℤ :=
  if pow2 ((ilog2 q.num.natAbs : ℤ) - (ilog2 q.den : ℤ)) ≤ |q| then
    (ilog2 q.num.natAbs : ℤ) - (ilog2 q.den : ℤ)
  else (ilog2 q.num.natAbs : ℤ) - (ilog2 q.den : ℤ) - 1

/-- Newton iteration for the integer square root, from a start above it. -/
def sqrtIter : ℕ → ℕ → ℕ → ℕ
  | 0, _, x => x
  | fuel + 1, n, x => if (x + n / x) / 2 < x then sqrtIter fuel n ((x + n / x) / 2) else x

/-- The integer square root: the largest `s` with `s * s <= n`. -/
def isqrt (n : ℕ) : ℕ := if n = 0 then 0 else sqrtIter 200 n (2 ^ (ilog2 n / 2 + 1))

/-- Rounding to binary64: 53 significant bits, least exponent `-1022`. -/
def fl64 (q : ℚ) : ℚ :=
  if q = 0 then 0
  else (roundHalfEven (q / pow2 (max (binade q) (-1022) - 52)) : ℚ)
    * pow2 (max (binade q) (-1022) - 52)

/-- The function `Math.sqrt` on a double `q`: the double nearest to the square
root (0 for `q <= 0`; the script takes roots of sums of squares only).  The
root is located between two consecutive integers after scaling by `2^k`, far
below the spacing of the doubles there. -/
def sqrt64 (q : ℚ) : ℚ :=
  if q ≤ 0 then 0
  else
    let k : ℕ := (60 - binade q / 2).toNat
    let s : ℕ := isqrt ⌊q * ((4 ^ k : ℕ) : ℚ)⌋.toNat
    if ((s * s : ℕ) : ℚ) = q * ((4 ^ k : ℕ) : ℚ) then fl64 ((s : ℚ) / ((2 ^ k : ℕ) : ℚ))
    else fl64 (((s : ℚ) + 1 / 2) / ((2 ^ k : ℕ) : ℚ))

/-- An arithmetic: the rounding applied to the exact result of every
operation, and the square root. -/
structure Arith where
  fl : ℚ → ℚ
  sqrt : ℚ → ℚ

/-- Exact arithmetic with the square root `sqrt`. -/
def exactArith (sqrt : ℚ → ℚ) : Arith := { fl := fun q => q, sqrt := sqrt }

/-- The arithmetic of JavaScript numbers. -/
def doubleArith : Arith := { fl := fl64, sqrt := sqrt64 }

/-- Lines 70 and 77-87 in the arithmetic `a`.  `Math.round` of a double and
the product of an integer with 2 are exact. -/
def footSetupR (a : Arith) (thick width : ℚ) : FootSetup :=
  let halfThk := a.fl (thick / 2)
  if width = 0 then
    { footNum := 2, footWidth := some halfThk, halfThk := halfThk }
  else
    let footNum := jsRound (a.fl (halfThk / width)) * 2
    { footNum := footNum,
      footWidth := if footNum = 0 then none else some (a.fl (thick / (footNum : ℚ))),
      halfThk := halfThk }

/-- The merge tolerance of line 219 in the arithmetic `a`; the literal `0.4`
is the number nearest to 2/5. -/
def mergeTolR (a : Arith) (minEdgeLen footWidth : ℚ) : ℚ :=
  a.fl (a.fl (2 / 5) * min minEdgeLen footWidth)

/-- The offset `x * footWidth - halfThk` of lines 150 and 157 in the
arithmetic `a`. -/
def armOffsetR (a : Arith) (footWidth halfThk : ℚ) (x : ℕ) : ℚ :=
  a.fl (a.fl ((x : ℚ) * footWidth) - halfThk)

/-- The node created on lines 157-161 (and 164-167) in the arithmetic `a`. -/
def offsetNodeR (a : Arith) (nid : ℕ) (p : Node) (normalVec : Vec3) (c : ℚ) : Node :=
  { nid := nid, x := a.fl (p.x + a.fl (normalVec.x * c)),
    y := a.fl (p.y + a.fl (normalVec.y * c)), z := a.fl (p.z + a.fl (normalVec.z * c)) }

/-- The length computed on line 174 in the arithmetic `a`. -/
def edgeLenR (a : Arith) (p q : Node) : ℚ :=
  a.sqrt (a.fl (a.fl (a.fl (a.fl (p.x - q.x) ^ 2) + a.fl (a.fl (p.y - q.y) ^ 2))
    + a.fl (a.fl (p.z - q.z) ^ 2)))

/-- The function `CrossProduct` (lines 230-244) in the arithmetic `a`. -/
def CrossProductR (a : Arith) (u v : List ℚ) : Except Err (List ℚ) :=
  if u.length < 3 ∨ v.length < 3 then
    .error Err.arraysTooShort
  else
    .ok [a.fl (a.fl (u.getD 1 0 * v.getD 2 0) - a.fl (v.getD 1 0 * u.getD 2 0)),
         a.fl (a.fl (v.getD 0 0 * u.getD 2 0) - a.fl (u.getD 0 0 * v.getD 2 0)),
         a.fl (a.fl (u.getD 0 0 * v.getD 1 0) - a.fl (v.getD 0 0 * u.getD 1 0))]

/-- The function `DotProduct` (lines 247-263) in the arithmetic `a`. -/
def DotProductR (a : Arith) (u v : List ℚ) : Except Err ℚ :=
  if u.length ≠ v.length then
    .error Err.arraysDifferentLengths
  else
    .ok ((List.zipWith (fun p q => a.fl (p * q)) u v).foldl (fun dp t => a.fl (dp + t)) 0)

/-- The function `vec_norm` (lines 266-274) in the arithmetic `a`. -/
def vec_normR (a : Arith) (v : List ℚ) : Option (List ℚ) :=
  let mag := a.sqrt (a.fl (a.fl (a.fl (v.getD 0 0 ^ 2) + a.fl (v.getD 1 0 ^ 2))
    + a.fl (v.getD 2 0 ^ 2)))
  if v.length < 3 ∨ mag = 0 then none
  else some [a.fl (v.getD 0 0 / mag), a.fl (v.getD 1 0 / mag), a.fl (v.getD 2 0 / mag)]

/-- The function `edgeCheck` (lines 277-284) in the arithmetic `a`; the
literal `0.000001` is the number nearest to `1e-6`. -/
def edgeCheckR (a : Arith) (m : Model) (EdgeNode1 : Node) (footNormalVec : Option (List ℚ))
    (nodeID : ℕ) : Except Err Bool :=
  match Node.GetFromID m nodeID with
  | none => .error Err.typeError
  | some node =>
    let w := [a.fl (node.x - EdgeNode1.x), a.fl (node.y - EdgeNode1.y),
      a.fl (node.z - EdgeNode1.z)]
    match footNormalVec with
    | none => .ok false
    | some f =>
      match DotProductR a w f with
      | .error e => .error e
      | .ok d => .ok (decide (|d| < a.fl planeTol))

/-- Lines 111-115 in the arithmetic `a`. -/
def footNormalOfR (a : Arith) (edgeVec : List ℚ) (normalVec : Vec3) :
    Except Err (Option (List ℚ)) :=
  match CrossProductR a edgeVec normalVec.toList with
  | .error e => .error e
  | .ok c => .ok (vec_normR a c)

/-! ### The main loop in the arithmetic `a` (lines 95-216) -/

/-- One of the four blocks of lines 118-137 in the arithmetic `a`. -/
def classifyCornerR (a : Arith) (m : Model) (EdgeNode1 : Node) (fnv : Option (List ℚ))
    (acc : List (Option Node) × ℕ) (id : ℕ) : Except Err (List (Option Node) × ℕ) :=
  match edgeCheckR a m EdgeNode1 fnv id with
  | .error e => .error e
  | .ok false => .ok acc
  | .ok true => .ok (acc.1.set acc.2 (Node.GetFromID m id), acc.2 + 1)

/-- Lines 116-137 in the arithmetic `a`. -/
def classifyR (a : Arith) (m : Model) (EdgeNode1 : Node) (fnv : Option (List ℚ))
    (LclNodes : List (Option Node)) (sh : Shell) : Except Err (List (Option Node) × ℕ) :=
  match classifyCornerR a m EdgeNode1 fnv (LclNodes, 0) sh.n1 with
  | .error e => .error e
  | .ok a1 =>
    match classifyCornerR a m EdgeNode1 fnv a1 sh.n2 with
    | .error e => .error e
    | .ok a2 =>
      match classifyCornerR a m EdgeNode1 fnv a2 sh.n3 with
      | .error e => .error e
      | .ok a3 => classifyCornerR a m EdgeNode1 fnv a3 sh.n4

/-- The body of the loop of lines 148-176 for one `x` in the arithmetic `a`;
`Math.min` and the comparisons are exact. -/
def armIterR (a : Arith) (env : Env) (nodeA nodeB : Node) (normalVec : Vec3) (st : ArmState)
    (x : ℕ) : ArmState :=
  if |armOffsetR a env.footWidth env.halfThk x| < a.fl planeTol then
    { st with
      aArm := st.aArm ++ [nodeA]
      bArm := st.bArm ++ [nodeB]
      minEdgeLen :=
        if x = 0 ∨ (x : ℤ) = env.footNum then min st.minEdgeLen (edgeLenR a nodeA nodeB)
        else st.minEdgeLen }
  else
    let c := armOffsetR a env.footWidth env.halfThk x
    let na := offsetNodeR a st.nid nodeA normalVec c
    let nb := offsetNodeR a (st.nid + 1) nodeB normalVec c
    { m := (st.m.addNode na).addNode nb
      nid := st.nid + 2
      aArm := st.aArm ++ [na]
      bArm := st.bArm ++ [nb]
      WallFootFlag := st.WallFootFlag ++ [na.nid, nb.nid]
      minEdgeLen :=
        if x = 0 ∨ (x : ℤ) = env.footNum then min st.minEdgeLen (edgeLenR a na nb)
        else st.minEdgeLen }

/-- Lines 146-176 for one shell in the arithmetic `a`. -/
def buildArmsR (a : Arith) (env : Env) (nodeA nodeB : Node) (normalVec : Vec3) (m : Model)
    (nid : ℕ) (WallFootFlag : List ℕ) (minEdgeLen : ℚ) : ArmState :=
  (armRange env.footNum).foldl (armIterR a env nodeA nodeB normalVec)
    { m := m, nid := nid, aArm := [], bArm := [], WallFootFlag := WallFootFlag,
      minEdgeLen := minEdgeLen }

/-- Lines 110-146 for a flagged shell in the arithmetic `a`. -/
def shellPrepR (a : Arith) (env : Env) (s : LoopState) (sh : Shell) : Except Err Prep :=
  let fnvE : Except Err (Option (List ℚ)) :=
    match s.footNormalVec with
    | some f => .ok f
    | none => footNormalOfR a env.edgeVec (env.NormalVector sh)
  match fnvE with
  | .error e => .error e
  | .ok fnv =>
    match classifyR a s.m env.EdgeNode1 fnv s.LclNodes sh with
    | .error e => .error e
    | .ok (lcl, n) =>
      match (lcl.getD 0 none), (lcl.getD 1 none), Node.Last s.m with
      | some nodeA, some nodeB, some last =>
        .ok { fnv := fnv, lcl := lcl, n := n, nodeA := nodeA, nodeB := nodeB, last := last }
      | _, _, _ => .error Err.typeError

/-- Lines 146-213 for a flagged shell in the arithmetic `a`. -/
def shellBuildR (a : Arith) (env : Env) (s : LoopState) (sh : Shell) (pr : Prep) :
    Except (Err × Model) LoopState :=
  let arms := buildArmsR a env pr.nodeA pr.nodeB (env.NormalVector sh) s.m (pr.last.nid + 1)
    s.WallFootFlag s.minEdgeLen
  match buildShells env arms.aArm arms.bArm arms.m with
  | .error e => .error e
  | .ok m1 =>
    let nrb := buildNRBs arms.aArm arms.bArm pr.nodeA pr.nodeB
      { m := m1, NRBNodeFlag := s.NRBNodeFlag, WallFootFlag := arms.WallFootFlag }
    .ok { m := nrb.m
          LclNodes := pr.lcl
          footNormalVec := some pr.fnv
          minEdgeLen := arms.minEdgeLen
          NRBNodeFlag := nrb.NRBNodeFlag
          WallFootFlag := nrb.WallFootFlag
          log := s.log ++ [{ eid := sh.eid, nodeA := pr.nodeA, nodeB := pr.nodeB,
                             aArm := arms.aArm, bArm := arms.bArm }] }

/-- The body of the main loop for a flagged shell (lines 110-213) in the
arithmetic `a`. -/
def shellStepR (a : Arith) (env : Env) (s : LoopState) (sh : Shell) :
    Except (Err × Model) LoopState :=
  match shellPrepR a env s sh with
  | .error e => .error (e, s.m)
  | .ok pr => shellBuildR a env s sh pr

/-- The main loop (lines 106-216) in the arithmetic `a`. -/
def mainLoopR (a : Arith) (env : Env) (allShells : List Shell) (s : LoopState) :
    Except (Err × Model) LoopState :=
  allShells.foldlM (fun t sh => if sh.eid ∈ env.bShellSet then shellStepR a env t sh else .ok t)
    s

/-- Lines 45-74 in the arithmetic `a`: the sum of the layer thicknesses of a
composite part is rounded at every step. -/
def resolveThickR (a : Arith) (m : Model) (bShellSet : List ℕ) : Except Err ℚ :=
  match m.shells.find? (fun sh => decide (sh.eid ∈ bShellSet)) with
  | none => .error Err.typeError
  | some aShell =>
    match Part.GetFromID m aShell.pid with
    | none => .error Err.typeError
    | some aPart =>
      if aPart.composite then .ok (aPart.layers.foldl (fun t l => a.fl (t + l)) 0)
      else
        match Section.GetFromID m aPart.secid with
        | none => .error Err.typeError
        | some aSection => .ok aSection.t1

/-! ### The loop when `footWidth` is not a number

When `footNum` is 0, line 86 divides by zero: `footWidth` is `Infinity`,
`-Infinity` or `NaN`, the script goes on, and every coordinate it computes is
`NaN`.  Such nodes cannot be `Node` values; the state keeps their labels. -/

/-- A JavaScript number that may be `Infinity`, `-Infinity` or `NaN`. -/
inductive JSNum where
  | fin (q : ℚ)
  | posInf
  | negInf
  | nan
deriving DecidableEq

/-- JavaScript `Math.min` of two numbers: `NaN` when either is `NaN`. -/
def JSNum.min : JSNum → JSNum → JSNum
  | .nan, _ => .nan
  | _, .nan => .nan
  | .negInf, _ => .negInf
  | _, .negInf => .negInf
  | .posInf, b => b
  | a, .posInf => a
  | .fin p, .fin q => .fin (Min.min p q)

/-- The product `c * v` for a positive finite `c`. -/
def JSNum.scale (c : ℚ) : JSNum → JSNum
  | .fin q => .fin (c * q)
  | v => v

/-- The product of the literal `c` with `v` for a positive finite `c`, in the
arithmetic `a`. -/
def JSNum.scaleR (a : Arith) (c : ℚ) : JSNum → JSNum
  | .fin q => .fin (a.fl (a.fl c * q))
  | v => v

/-- JavaScript `a <= b`: false when either side is `NaN`. -/
def JSNum.le : JSNum → JSNum → Bool
  | .nan, _ => false
  | _, .nan => false
  | .negInf, _ => true
  | _, .posInf => true
  | .fin p, .fin q => decide (p ≤ q)
  | _, _ => false

/-- The value `thick / footNum` of line 86 when `footNum` is zero.  The zero
has the sign of `halfThk / footWidth`, so for a thickness that is not 0 the
quotient is the infinity with the sign of the entered width; `0 / 0` is
`NaN`. -/
def footWidthInf (thick width : ℚ) : JSNum :=
  if thick = 0 then .nan else if 0 < width then .posInf else .negInf

/-- The loop variables when `footWidth` is not finite.  `m` holds the nodes
with finite coordinates, `nanNodes` the labels of the nodes created with
`NaN` coordinates. -/
structure NaNState where
  m : Model
  nanNodes : List ℕ
  LclNodes : List (Option Node)
  footNormalVec : Option (Option (List ℚ))
  minEdgeLen : JSNum
  NRBNodeFlag : List ℕ
  WallFootFlag : List ℕ
deriving DecidableEq

/-- The function `edgeCheck` in the arithmetic `a` when the model also has
nodes with `NaN` coordinates: for such a node `Dist` is `NaN` and the
comparison is false. -/
def edgeCheckN (a : Arith) (s : NaNState) (EdgeNode1 : Node)
    (footNormalVec : Option (List ℚ)) (nodeID : ℕ) : Except Err Bool :=
  match Node.GetFromID s.m nodeID with
  | some _ => edgeCheckR a s.m EdgeNode1 footNormalVec nodeID
  | none =>
    if nodeID ∈ s.nanNodes then
      match footNormalVec with
      | none => .ok false
      | some f => if 3 ≠ f.length then .error Err.arraysDifferentLengths else .ok false
    else .error Err.typeError

/-- One of the four blocks of lines 118-137, with `edgeCheckN`. -/
def classifyCornerN (a : Arith) (s : NaNState) (EdgeNode1 : Node) (fnv : Option (List ℚ))
    (acc : List (Option Node) × ℕ) (id : ℕ) : Except Err (List (Option Node) × ℕ) :=
  match edgeCheckN a s EdgeNode1 fnv id with
  | .error e => .error e
  | .ok false => .ok acc
  | .ok true => .ok (acc.1.set acc.2 (Node.GetFromID s.m id), acc.2 + 1)

/-- Lines 116-137, with `edgeCheckN`. -/
def classifyN (a : Arith) (s : NaNState) (EdgeNode1 : Node) (fnv : Option (List ℚ))
    (sh : Shell) : Except Err (List (Option Node) × ℕ) :=
  match classifyCornerN a s EdgeNode1 fnv (s.LclNodes, 0) sh.n1 with
  | .error e => .error e
  | .ok a1 =>
    match classifyCornerN a s EdgeNode1 fnv a1 sh.n2 with
    | .error e => .error e
    | .ok a2 =>
      match classifyCornerN a s EdgeNode1 fnv a2 sh.n3 with
      | .error e => .error e
      | .ok a3 => classifyCornerN a s EdgeNode1 fnv a3 sh.n4

/-- The body of the loop of lines 188-213 for one `n`, the labels `ids` being
those of the arm of `lcl` in the order of line 195. -/
def nrbIterIds (ids : List ℕ) (lcl : Node) (st : NRBState) : NRBState :=
  if lcl.nid ∈ st.NRBNodeFlag then st
  else
    let nsid := match NodeSet.Last st.m with
      | none => 1
      | some t => t.sid + 1
    let nSet1 : NodeSet := { sid := nsid, nodes := ids.foldl setAdd [] }
    let m1 := st.m.addSet nSet1
    let nrbpid := match NodalRigidBody.Last m1 with
      | none => 1
      | some r => r.pid + 1
    { m := m1.addNRB { nsid := nSet1.sid, pid := nrbpid }
      NRBNodeFlag := st.NRBNodeFlag ++ [lcl.nid]
      WallFootFlag := st.WallFootFlag ++ [lcl.nid] }

/-- The label of `Node.Last(m)` when the model also has the nodes
`nanNodes`. -/
def lastNidN (s : NaNState) : Option ℕ :=
  lastBy (fun k => k) (s.m.nodes.map Node.nid ++ s.nanNodes)

/-- The body of the main loop for a flagged shell (lines 110-213) in the
arithmetic `a` when `footNum` is 0 and `footWidth` is not finite.  The loop of line 148 runs for
`x = 0` only; `0 * footWidth - halfThk` is `NaN`, so the test of line 150 is
false and lines 157-168 create two nodes with `NaN` coordinates, which are
`aArm[0]` and `bArm[0]`; line 174 makes `minEdgeLen` `NaN`; the loop of line
180 does not run; lines 187-213 put the two new labels in the node sets.  An
error carries the model and the labels of the `NaN` nodes as they stand. -/
def shellStepNaN (a : Arith) (NormalVector : Shell → Vec3) (EdgeNode1 : Node)
    (edgeVec : List ℚ) (s : NaNState) (sh : Shell) :
    Except (Err × Model × List ℕ) NaNState :=
  let fnvE : Except Err (Option (List ℚ)) :=
    match s.footNormalVec with
    | some f => .ok f
    | none => footNormalOfR a edgeVec (NormalVector sh)
  match fnvE with
  | .error e => .error (e, s.m, s.nanNodes)
  | .ok fnv =>
    match classifyN a s EdgeNode1 fnv sh with
    | .error e => .error (e, s.m, s.nanNodes)
    | .ok (lcl, _) =>
      match (lcl.getD 0 none), (lcl.getD 1 none), lastNidN s with
      | some nodeA, some nodeB, some last =>
        let nid := last + 1
        match Shell.Last s.m with
        | none => .error (Err.typeError, s.m, s.nanNodes ++ [nid, nid + 1])
        | some _ =>
          let nrb := nrbIterIds [nid + 1] nodeB (nrbIterIds [nid] nodeA
            { m := s.m, NRBNodeFlag := s.NRBNodeFlag,
              WallFootFlag := s.WallFootFlag ++ [nid, nid + 1] })
          .ok { m := nrb.m
                nanNodes := s.nanNodes ++ [nid, nid + 1]
                LclNodes := lcl
                footNormalVec := some fnv
                minEdgeLen := JSNum.min s.minEdgeLen JSNum.nan
                NRBNodeFlag := nrb.NRBNodeFlag
                WallFootFlag := nrb.WallFootFlag }
      | _, _, _ => .error (Err.typeError, s.m, s.nanNodes)

/-- The main loop (lines 106-216) when `footWidth` is not finite. -/
def mainLoopNaN (a : Arith) (NormalVector : Shell → Vec3) (EdgeNode1 : Node)
    (edgeVec : List ℚ) (bShellSet : List ℕ) (allShells : List Shell) (s : NaNState) :
    Except (Err × Model × List ℕ) NaNState :=
  allShells.foldlM (fun t sh =>
    if sh.eid ∈ bShellSet then shellStepNaN a NormalVector EdgeNode1 edgeVec t sh
    else .ok t) s

/-- The loop variables as lines 96-105 initialise them. -/
def initNaN (m : Model) : NaNState :=
  { m := m, nanNodes := [], LclNodes := [none, none, none, none], footNormalVec := none,
    minEdgeLen := .fin 1, NRBNodeFlag := [], WallFootFlag := [] }

/-- How a run of the script ends. -/
inductive Outcome where
  /-- The script ran to its last line: the loop state, the tolerance `tol`
  and the model returned by `Node.Merge`. -/
  | done (s : LoopState) (tol : ℚ) (merged : Model)
  /-- The script stopped with an error, leaving the model `m`. -/
  | halted (e : Err) (m : Model)
  /-- The script ran to its last line with `footNum` 0 and a `footWidth` that
  is not finite: the loop state, and the tolerance `tol` with which line 222
  calls `Node.Merge` on the nodes of `WallFootFlag`.  What the host does with
  nodes whose coordinates are `NaN` is not part of the script. -/
  | doneNaN (s : NaNState) (tol : JSNum)
  /-- The script stopped with an error with `footNum` 0, leaving the model `m`
  and nodes with `NaN` coordinates labelled `nanNodes`. -/
  | haltedNaN (e : Err) (m : Model) (nanNodes : List ℕ)

/-- The merge tolerance of line 219. -/
def mergeTol (minEdgeLen footWidth : ℚ) : ℚ := 2 / 5 * min minEdgeLen footWidth

/-- The script, lines 14-222.  `sqrt` is `Math.sqrt`; `NormalVector` and
`Merge` are the host queries `Shell.NormalVector` and `Node.Merge`. -/
def run (sqrt : ℚ → ℚ) (NormalVector : Shell → Vec3) (Merge : Model → List ℕ → ℚ → Model)
    (sel : Selection) (m : Model) : Outcome :=
  if sel.model = false then .halted Err.noModel m
  else
    match Node.GetFlagged m sel.bNodeSet with
    | EdgeNode1 :: EdgeNode2 :: _ =>
      let edgeVec := [EdgeNode2.x - EdgeNode1.x, EdgeNode2.y - EdgeNode1.y,
        EdgeNode2.z - EdgeNode1.z]
      match resolveThick m sel.bShellSet with
      | .error e => .halted e m
      | .ok thick =>
        let fs := footSetup thick sel.width
        match fs.footWidth with
        | none =>
          match mainLoopNaN (exactArith sqrt) NormalVector EdgeNode1 edgeVec sel.bShellSet
              m.shells (initNaN m) with
          | .error e => .haltedNaN e.1 e.2.1 e.2.2
          | .ok s =>
            .doneNaN s (JSNum.scale (2 / 5)
              (JSNum.min s.minEdgeLen (footWidthInf thick sel.width)))
        | some footWidth =>
          let env : Env :=
            { sqrt := sqrt, NormalVector := NormalVector, EdgeNode1 := EdgeNode1,
              edgeVec := edgeVec, footNum := fs.footNum, footWidth := footWidth,
              halfThk := fs.halfThk, footPart := Part.GetFlagged m sel.bPartSet,
              bShellSet := sel.bShellSet }
          match mainLoop env m.shells (initState m) with
          | .error e => .halted e.1 e.2
          | .ok s =>
            let tol := mergeTol s.minEdgeLen footWidth
            .done s tol (Merge s.m s.WallFootFlag tol)
    | _ => .halted Err.edgeNodes m

/-- The script, lines 14-222, in the arithmetic `a`: `runR doubleArith` is the
script as JavaScript runs it. -/
def runR (a : Arith) (NormalVector : Shell → Vec3) (Merge : Model → List ℕ → ℚ → Model)
    (sel : Selection) (m : Model) : Outcome :=
  if sel.model = false then .halted Err.noModel m
  else
    match Node.GetFlagged m sel.bNodeSet with
    | EdgeNode1 :: EdgeNode2 :: _ =>
      let edgeVec := [a.fl (EdgeNode2.x - EdgeNode1.x), a.fl (EdgeNode2.y - EdgeNode1.y),
        a.fl (EdgeNode2.z - EdgeNode1.z)]
      match resolveThickR a m sel.bShellSet with
      | .error e => .halted e m
      | .ok thick =>
        let fs := footSetupR a thick sel.width
        match fs.footWidth with
        | none =>
          match mainLoopNaN a NormalVector EdgeNode1 edgeVec sel.bShellSet m.shells
              (initNaN m) with
          | .error e => .haltedNaN e.1 e.2.1 e.2.2
          | .ok s =>
            .doneNaN s (JSNum.scaleR a (2 / 5)
              (JSNum.min s.minEdgeLen (footWidthInf thick sel.width)))
        | some footWidth =>
          let env : Env :=
            { sqrt := a.sqrt, NormalVector := NormalVector, EdgeNode1 := EdgeNode1,
              edgeVec := edgeVec, footNum := fs.footNum, footWidth := footWidth,
              halfThk := fs.halfThk, footPart := Part.GetFlagged m sel.bPartSet,
              bShellSet := sel.bShellSet }
          match mainLoopR a env m.shells (initState m) with
          | .error e => .halted e.1 e.2
          | .ok s =>
            let tol := mergeTolR a s.minEdgeLen footWidth
            .done s tol (Merge s.m s.WallFootFlag tol)
    | _ => .halted Err.edgeNodes m

/-! ## Quantities used to state properties -/

/-- The loop state a finished run ended its main loop with. -/
def Outcome.state : Outcome → Option LoopState
  | .done s _ _ => some s
  | _ => none

/-- The length of the rung `aArm[x]`-`bArm[x]` of a processed shell. -/
def rungLen (sqrt : ℚ → ℚ) (r : ElemRecord) (x : ℕ) : Option ℚ :=
  match r.aArm.get? x, r.bArm.get? x with
  | some a, some b => some (edgeLen sqrt a b)
  | _, _ => none

/-- The lengths of the rungs at `x = 0` and `x = footNum` of every processed
shell, in processing order. -/
def rungs (sqrt : ℚ → ℚ) (footNum : ℕ) (log : List ElemRecord) : List ℚ :=
  log.flatMap (fun r => (rungLen sqrt r 0).toList ++ (rungLen sqrt r footNum).toList)

/-- The labels of the local edge nodes `LclNodes[0]`, `LclNodes[1]` of every
processed shell, in processing order. -/
def edgeNodeIds (log : List ElemRecord) : List ℕ :=
  log.flatMap (fun r => [r.nodeA.nid, r.nodeB.nid])

/-- The number of corners of `sh` that `edgeCheck` accepts, when no check
stops the script. -/
def acceptedCount (m : Model) (EdgeNode1 : Node) (fnv : Option (List ℚ)) (sh : Shell) :
    Option ℕ :=
  match classify m EdgeNode1 fnv [none, none, none, none] sh with
  | .error _ => none
  | .ok r => some r.2

/-- The number of `x < k` at which the node-building loop creates nodes (the
offset is outside the mid-surface tolerance). -/
def newBefore (env : Env) : ℕ → ℕ
  | 0 => 0
  | k + 1 =>
    newBefore env k + (if |armOffset env.footWidth env.halfThk k| < planeTol then 0 else 1)

/-- The entry `aArm[x]` in closed form, `nid0` being the first label used. -/
def aEntry (env : Env) (nodeA : Node) (normalVec : Vec3) (nid0 x : ℕ) : Node :=
  if |armOffset env.footWidth env.halfThk x| < planeTol then nodeA
  else offsetNode (nid0 + 2 * newBefore env x) nodeA normalVec
    (armOffset env.footWidth env.halfThk x)

/-- The entry `bArm[x]` in closed form, `nid0` being the first label used. -/
def bEntry (env : Env) (nodeB : Node) (normalVec : Vec3) (nid0 x : ℕ) : Node :=
  if |armOffset env.footWidth env.halfThk x| < planeTol then nodeB
  else offsetNode (nid0 + 2 * newBefore env x + 1) nodeB normalVec
    (armOffset env.footWidth env.halfThk x)

/-- The nodes created for `x < k`, in creation order. -/
def createdUpTo (env : Env) (nodeA nodeB : Node) (normalVec : Vec3) (nid0 k : ℕ) : List Node :=
  (List.range k).flatMap (fun x =>
    if |armOffset env.footWidth env.halfThk x| < planeTol then []
    else [aEntry env nodeA normalVec nid0 x, bEntry env nodeB normalVec nid0 x])

/-- The running minimum of line 174 after the iterations `x < k`. -/
def minUpTo (env : Env) (nodeA nodeB : Node) (normalVec : Vec3) (nid0 : ℕ) (me0 : ℚ)
    (k : ℕ) : ℚ :=
  (List.range k).foldl (fun (acc : ℚ) (x : ℕ) =>
    if x = 0 ∨ (x : ℤ) = env.footNum then
      min acc (edgeLen env.sqrt (aEntry env nodeA normalVec nid0 x)
        (bEntry env nodeB normalVec nid0 x))
    else acc) me0

/-- The shell created on line 182 for index `x`, `eid0` being the first label
used and `p` the part `footPart[0]`. -/
def footShell (p : Part) (aArm bArm : List Node) (eid0 x : ℕ) : Shell :=
  { eid := eid0 + x, pid := p.pid, n1 := (armNid aArm x).getD 0,
    n2 := (armNid aArm (x + 1)).getD 0, n3 := (armNid bArm (x + 1)).getD 0,
    n4 := (armNid bArm x).getD 0 }

/-- The coupling invariant of the loop of lines 187-213, relative to the set
and rigid-body counts `c` and `d` at the start of the main loop: the flagged
labels are pairwise distinct, exactly the members of `ids`, and each of them
stands for one created node set and one created rigid body. -/
def Coupled (c d : ℕ) (ids : List ℕ) (st : NRBState) : Prop :=
  st.NRBNodeFlag.Nodup ∧ st.m.sets.length = c + st.NRBNodeFlag.length ∧
    st.m.nrbs.length = d + st.NRBNodeFlag.length ∧ ∀ id, id ∈ st.NRBNodeFlag ↔ id ∈ ids

/-! ## Sample meshes -/

/-- A strip of two quadrilaterals in the plane `z = 0` along the edge `y = 0`,
with nodes 1, 2, 5 on the edge at `x = 0, 2, 4`, and a second row of nodes
3, 4, 6 at `y = 1`, then a third row 7, 8 at `y = 2`. -/
def demoNodes : List Node :=
  [⟨1, 0, 0, 0⟩, ⟨2, 2, 0, 0⟩, ⟨3, 2, 1, 0⟩, ⟨4, 0, 1, 0⟩, ⟨5, 4, 0, 0⟩, ⟨6, 4, 1, 0⟩,
   ⟨7, 2, 2, 0⟩, ⟨8, 0, 2, 0⟩]

/-- Shells 1 and 2 lie along the edge and share node 2; shell 3 sits above
shell 1 and does not touch the edge.  Part 1 (section thickness 10) owns the
shells, part 2 is the part for the foot. -/
def demoModel : Model :=
  { nodes := demoNodes
    shells := [⟨1, 1, 1, 2, 3, 4⟩, ⟨2, 1, 2, 5, 6, 3⟩, ⟨3, 1, 4, 3, 7, 8⟩]
    parts := [⟨1, false, [], 1⟩, ⟨2, false, [], 1⟩]
    sections := [⟨1, 10⟩]
    sets := []
    nrbs := [] }

/-- Every shell of the sample has the normal `(0, 0, 1)`. -/
def demoNormal : Shell → Vec3 := fun _ => ⟨0, 0, 1⟩

/-- A merge that leaves the model as it is (the host primitive is not
modelled). -/
def demoMerge : Model → List ℕ → ℚ → Model := fun m _ _ => m

/-- The selection: the shells `shells` flagged, the edge nodes `nodes`, the
entered width 0 and part 2 for the foot. -/
def demoSel (shells nodes : List ℕ) : Selection :=
  { model := true, bShellSet := shells, bNodeSet := nodes, width := 0, bPartSet := [2] }

/-- The values the script fixes before its main loop on the sample with edge
nodes 1 and 2, thickness 10 and width 0, for the flagged shells `shells`. -/
def demoEnv (shells : List ℕ) : Env :=
  { sqrt := Rat.sqrt, NormalVector := demoNormal, EdgeNode1 := ⟨1, 0, 0, 0⟩,
    edgeVec := [2, 0, 0], footNum := 2, footWidth := 5, halfThk := 5,
    footPart := [⟨2, false, [], 1⟩], bShellSet := shells }

/-- What lines 110-146 yield for shell 1 of the sample at the start of the
loop: plane normal `(0, -1, 0)`, local edge nodes 1 and 2, last node 8. -/
def demoPrep : Prep :=
  { fnv := some [0, -1, 0], lcl := [some ⟨1, 0, 0, 0⟩, some ⟨2, 2, 0, 0⟩, none, none], n := 2,
    nodeA := ⟨1, 0, 0, 0⟩, nodeB := ⟨2, 2, 0, 0⟩, last := ⟨8, 0, 2, 0⟩ }

/-- The loop state of the sample after the main loop with shells 1 and 2
flagged (the initial state, should the loop stop with an error). -/
def demoFinal : LoopState :=
  (mainLoop (demoEnv [1, 2]) demoModel.shells (initState demoModel)).toOption.getD
    (initState demoModel)

/-! ## More quantities and samples -/

deriving instance DecidableEq for Outcome

/-- The tolerance a finished run passed to `Node.Merge`. -/
def Outcome.tol : Outcome → Option ℚ
  | .done _ tol _ => some tol
  | _ => none

/-- The values the script fixes before its main loop (lines 36-41, 70-93),
given the two edge nodes, the resolved thickness and the finite recomputed
width. -/
def runEnv (sqrt : ℚ → ℚ) (NormalVector : Shell → Vec3) (sel : Selection) (m : Model)
    (EdgeNode1 EdgeNode2 : Node) (thick footWidth : ℚ) : Env :=
  { sqrt := sqrt, NormalVector := NormalVector, EdgeNode1 := EdgeNode1,
    edgeVec := [EdgeNode2.x - EdgeNode1.x, EdgeNode2.y - EdgeNode1.y,
      EdgeNode2.z - EdgeNode1.z],
    footNum := (footSetup thick sel.width).footNum, footWidth := footWidth,
    halfThk := (footSetup thick sel.width).halfThk,
    footPart := Part.GetFlagged m sel.bPartSet, bShellSet := sel.bShellSet }

/-- The sample with section thickness 1 instead of 10. -/
def thinModel : Model := { demoModel with sections := [⟨1, 1⟩] }

/-- The sample with section thickness 1e-6 instead of 10. -/
def filmModel : Model := { demoModel with sections := [⟨1, 1 / 1000000⟩] }

/-- The sum of the squares of the first three components of `w`. -/
def normSq (w : List ℚ) : ℚ := w.getD 0 0 ^ 2 + w.getD 1 0 ^ 2 + w.getD 2 0 ^ 2

/-- The product `(p - E) . w` of the vector from `E` to `p` with the first
three components of `w`. -/
def planeOffset (E : Node) (w : List ℚ) (p : Node) : ℚ :=
  (p.x - E.x) * w.getD 0 0 + (p.y - E.y) * w.getD 1 0 + (p.z - E.z) * w.getD 2 0

/-- The array `w` of line 281 for the node `p`. -/
def relVec (E p : Node) : List ℚ := [p.x - E.x, p.y - E.y, p.z - E.z]

/-- The number `d` is the perpendicular distance from `p` to the plane through
`E` orthogonal to the non-zero vector `w`: it is not negative and its square
is `((p - E) . w)^2 / (w . w)`. -/
def IsPlaneDist (E : Node) (w : List ℚ) (p : Node) (d : ℚ) : Prop :=
  0 ≤ d ∧ d ^ 2 * normSq w = planeOffset E w p ^ 2

/-- The offset actually applied at index `x`: none where the parent node is
reused (line 150), `x * footWidth - halfThk` elsewhere. -/
def effOffset (env : Env) (x : ℕ) : ℚ :=
  if |armOffset env.footWidth env.halfThk x| < planeTol then 0
  else armOffset env.footWidth env.halfThk x

/-- The lengths of the segments `LclNodes[0]`-`LclNodes[1]` of the processed
shells, in processing order. -/
def edgeSegs (sqrt : ℚ → ℚ) (log : List ElemRecord) : List ℚ :=
  log.map (fun r => edgeLen sqrt r.nodeA r.nodeB)

/-- The arms of the record are those the node-building loop builds from its
two local edge nodes for `footNum = N`. -/
def ArmsBuilt (env : Env) (N : ℕ) (r : ElemRecord) : Prop :=
  ∃ nv nid0, r.aArm = (List.range (N + 1)).map (aEntry env r.nodeA nv nid0) ∧
    r.bArm = (List.range (N + 1)).map (bEntry env r.nodeB nv nid0)

/-- The test of `edgeCheck` passes for a node with the coordinates of `node`:
the plane normal is finite, `DotProduct` succeeds and `Dist` is below the
tolerance. -/
def Accepted (E : Node) (fnv : Option (List ℚ)) (node : Node) : Prop :=
  ∃ f d, fnv = some f ∧ DotProduct (relVec E node) f = Except.ok d ∧ |d| < planeTol

/-- Every node held in a slot of `LclNodes` is a node of the model that
`edgeCheck` accepted for the plane normal now in `footNormalVec`. -/
def SlotsOK (env : Env) (s : LoopState) : Prop :=
  ∀ i node, s.LclNodes.getD i none = some node →
    node ∈ s.m.nodes ∧ ∃ fnv, s.footNormalVec = some fnv ∧ Accepted env.EdgeNode1 fnv node

/-- The scalar triple product of the vectors from `p0` to `p1`, `p2`, `p3`; it
is 0 exactly when the four points lie in one plane. -/
def tripleProduct (p0 p1 p2 p3 : Node) : ℚ :=
  (p1.x - p0.x) * ((p2.y - p0.y) * (p3.z - p0.z) - (p2.z - p0.z) * (p3.y - p0.y))
    + (p1.y - p0.y) * ((p2.z - p0.z) * (p3.x - p0.x) - (p2.x - p0.x) * (p3.z - p0.z))
    + (p1.z - p0.z) * ((p2.x - p0.x) * (p3.y - p0.y) - (p2.y - p0.y) * (p3.x - p0.x))

/-- The sample with a fourth shell that has the edge from node 5 `(4, 0, 0)`
to node 9 `(4, 0, 1)` in the plane `y = 0` and lies in the plane
`3 x + 4 y = 12`. -/
def bentModel : Model :=
  { demoModel with
    nodes := demoNodes ++ [⟨9, 4, 0, 1⟩, ⟨10, 0, 3, 1⟩, ⟨11, 0, 3, 0⟩]
    shells := demoModel.shells ++ [⟨4, 1, 5, 11, 10, 9⟩] }

/-- The normals of the shells of `bentModel`: `(3/5, 4/5, 0)` for shell 4,
`(0, 0, 1)` for the others. -/
def bentNormal : Shell → Vec3 := fun sh => if sh.eid = 4 then ⟨3 / 5, 4 / 5, 0⟩ else ⟨0, 0, 1⟩

/-- The selection of `demoSel` with the entered width 30, above the thickness
10 of the sample. -/
def wideSel (shells nodes : List ℕ) : Selection :=
  { model := true, bShellSet := shells, bNodeSet := nodes, width := 30, bPartSet := [2] }

/-- The loop state of the sample after the main loop with shell 1 flagged and
the entered width 30: the nodes 9 and 10 have `NaN` coordinates and are the
only members of the node sets 1 and 2. -/
def wideFinal : NaNState :=
  { m := { demoModel with sets := [⟨1, [9]⟩, ⟨2, [10]⟩], nrbs := [⟨1, 1⟩, ⟨2, 2⟩] }
    nanNodes := [9, 10]
    LclNodes := [some ⟨1, 0, 0, 0⟩, some ⟨2, 2, 0, 0⟩, none, none]
    footNormalVec := some (some [0, -1, 0])
    minEdgeLen := JSNum.nan
    NRBNodeFlag := [1, 2]
    WallFootFlag := [9, 10, 1, 2] }

/-- The double `3.0000000000000004`, the first double above 3. -/
def tieThick : ℚ := 6755399441055745 / 2251799813685248

/-- The double `1.0000000000000002`, the first double above 1. -/
def tieWidth : ℚ := 4503599627370497 / 4503599627370496

/-- Three nodes for an edge along the diagonal `y = x` of the plane `z = 0`:
the edge nodes 1 at the origin and 2 at `(1, 1, 0)`, and node 3 at
`(50, 49.999998585786436, 0)`, both coordinates being doubles. -/
def slantModel : Model :=
  { nodes := [⟨1, 0, 0, 0⟩, ⟨2, 1, 1, 0⟩, ⟨3, 50, 7036874218733535 / 140737488355328, 0⟩]
    shells := [], parts := [], sections := [], sets := [], nrbs := [] }

/-- The foot-plane normal the script computes in doubles for the edge vector
`(1, 1, 0)` and the element normal `(0, 0, 1)`:
`(0.7071067811865475, -0.7071067811865475, 0)`. -/
def slantNormal : List ℚ :=
  [1592262918131443 / 2251799813685248, -1592262918131443 / 2251799813685248, 0]

/-- A local edge node at `(0.3, 0.4, 0)`, the coordinates being the doubles
nearest to 3/10 and 2/5. -/
def wallB : Node :=
  ⟨2, 5404319552844595 / 18014398509481984, 3602879701896397 / 9007199254740992, 0⟩

/-- An element normal `(0.8, -0.6, 0)`, the components being the doubles
nearest to 4/5 and -3/5; it is orthogonal to the segment from the origin to
`wallB`. -/
def wallN : Vec3 :=
  ⟨3602879701896397 / 4503599627370496, -5404319552844595 / 9007199254740992, 0⟩

/-! ## Facts about rounding -/

theorem jsRound_le (q : ℚ) : ((jsRound q : ℤ) : ℚ) ≤ q + 1 / 2 := by
  unfold jsRound
  exact Int.floor_le _

theorem jsRound_gt (q : ℚ) : q - 1 / 2 < ((jsRound q : ℤ) : ℚ) := by
  unfold jsRound
  have := Int.lt_floor_add_one (q + 1 / 2)
  linarith

theorem footNum_of_ne_zero (thick width : ℚ) (hw : width ≠ 0) :
    (footSetup thick width).footNum = jsRound (thick / 2 / width) * 2 := by
  simp [footSetup, hw]

/-- When the entered width does not exceed the thickness the layer count is at
least two. -/
theorem footNum_ge_two_of_le (thick width : ℚ) (hw : 0 < width) (hle : width ≤ thick) :
    2 ≤ (footSetup thick width).footNum := by
  rw [footNum_of_ne_zero thick width hw.ne.symm]
  have h1 : (1 : ℤ) ≤ jsRound (thick / 2 / width) := by
    unfold jsRound
    rw [Int.le_floor]
    have : (1 : ℚ) / 2 ≤ thick / 2 / width := by
      rw [le_div_iff₀ hw]
      linarith
    push_cast
    linarith
  omega

/-- When the layer count is not zero the recomputed width tiles the thickness. -/
theorem footWidth_mul_footNum (thick width : ℚ)
    (hn : (footSetup thick width).footNum ≠ 0) :
    ∃ w, (footSetup thick width).footWidth = some w ∧
      w * ((footSetup thick width).footNum : ℚ) = thick := by
  by_cases hw : width = 0
  · refine ⟨thick / 2, by simp [footSetup, hw], ?_⟩
    simp [footSetup, hw]
  · have hn2 : jsRound (thick / 2 / width) * 2 ≠ 0 := by
      rw [← footNum_of_ne_zero thick width hw]
      exact hn
    refine ⟨thick / ((jsRound (thick / 2 / width) * 2 : ℤ) : ℚ), ?_, ?_⟩
    · simp only [footSetup, hw, if_false]
      rw [if_neg hn2]
    · have hq : ((jsRound (thick / 2 / width) * 2 : ℤ) : ℚ) ≠ 0 := by
        exact_mod_cast hn2
      simp only [footSetup, hw, if_false]
      exact div_mul_cancel₀ thick hq

/-! ## Layer count and width: the claims -/

/-- C1, at the input thickness 10 and entered width 30: the layer count left by
lines 83-87 is 0, not at least 2, and the recomputed width is a division by
zero. -/
theorem C1_footNum_zero_wide_width :
    (footSetup 10 30).footNum = 0 ∧ (footSetup 10 30).footWidth = none ∧
      ¬ (2 ≤ (footSetup 10 30).footNum) := by
  decide!

/-- In exact arithmetic, for a positive entered width (and any thickness) the
layer count is `round(halfThk / width) * 2`, it is even, it differs from
`thick / width` by at most 1, and no even integer is nearer to
`thick / width`; thickness 10 with width 2.5 gives 4. -/
theorem footNum_nearest_even_exact (thick width : ℚ) (hw : 0 < width) :
    (footSetup thick width).footNum = jsRound (thick / 2 / width) * 2 ∧
      Even (footSetup thick width).footNum ∧
      |((footSetup thick width).footNum : ℚ) - thick / width| ≤ 1 ∧
      (∀ k : ℤ, Even k →
        |((footSetup thick width).footNum : ℚ) - thick / width| ≤ |(k : ℚ) - thick / width|) ∧
      (footSetup 10 (5 / 2)).footNum = 4 := by
  have hn := footNum_of_ne_zero thick width hw.ne.symm
  have hr : thick / width = 2 * (thick / 2 / width) := by
    field_simp
    ring
  have h1 := jsRound_le (thick / 2 / width)
  have h2 := jsRound_gt (thick / 2 / width)
  have hcast : ((footSetup thick width).footNum : ℚ) = 2 * (jsRound (thick / 2 / width) : ℚ) := by
    rw [hn]
    push_cast
    ring
  have hclose : |((footSetup thick width).footNum : ℚ) - thick / width| ≤ 1 := by
    rw [hcast, hr, abs_le]
    constructor <;> linarith
  refine ⟨hn, ?_, hclose, ?_, by decide!⟩
  · rw [hn]
    exact even_two.mul_left _
  · intro k hk
    by_cases hkn : k = (footSetup thick width).footNum
    · rw [hkn]
    · obtain ⟨a, ha⟩ := hk
      have hne : a ≠ jsRound (thick / 2 / width) := by
        intro h
        apply hkn
        rw [hn, ha, h]
        ring
      have hgap : (2 : ℚ) ≤ |(k : ℚ) - ((footSetup thick width).footNum : ℚ)| := by
        rw [hcast, ha]
        push_cast
        have hz : (1 : ℤ) ≤ |a - jsRound (thick / 2 / width)| :=
          Int.one_le_abs (sub_ne_zero.mpr hne)
        have hq : (1 : ℚ) ≤ |(a : ℚ) - (jsRound (thick / 2 / width) : ℚ)| := by
          exact_mod_cast hz
        have he : (a : ℚ) + a - 2 * (jsRound (thick / 2 / width) : ℚ)
            = 2 * ((a : ℚ) - (jsRound (thick / 2 / width) : ℚ)) := by ring
        rw [he, abs_mul, abs_two]
        linarith
      have htri : |(k : ℚ) - ((footSetup thick width).footNum : ℚ)|
          ≤ |(k : ℚ) - thick / width| + |((footSetup thick width).footNum : ℚ) - thick / width| := by
        have := abs_sub_le (k : ℚ) (thick / width) ((footSetup thick width).footNum : ℚ)
        rwa [abs_sub_comm (thick / width) _] at this
      linarith

/-- C3, at the input thickness 10 and entered width 30: the layer count is 0
and the recomputed width is not a number, so no width times the layer count
gives the thickness. -/
theorem C3_no_tiling_wide_width :
    (footSetup 10 30).footNum = 0 ∧ (footSetup 10 30).footWidth = none ∧
      ∀ w : ℚ, w * ((footSetup 10 30).footNum : ℚ) ≠ 10 := by
  have h : (footSetup 10 30).footNum = 0 := by decide!
  refine ⟨h, by decide!, ?_⟩
  intro w
  rw [h]
  norm_num

/-- C4: with the entered width 0, for every thickness the layer count is 2,
the width is half the thickness, the loop visits x = 0, 1, 2, and the offsets
there are `-halfThk`, `0`, `halfThk`; for thickness 10 they are -5, 0, 5. -/
theorem C4_auto_width (thick : ℚ) :
    footSetup thick 0 = { footNum := 2, footWidth := some (thick / 2), halfThk := thick / 2 } ∧
      armRange (footSetup thick 0).footNum = [0, 1, 2] ∧
      armOffset (thick / 2) (footSetup thick 0).halfThk 0 = -(thick / 2) ∧
      armOffset (thick / 2) (footSetup thick 0).halfThk 1 = 0 ∧
      armOffset (thick / 2) (footSetup thick 0).halfThk 2 = thick / 2 ∧
      (armRange (footSetup 10 0).footNum).map (armOffset 5 (footSetup 10 0).halfThk)
        = [-5, 0, 5] := by
  have h : footSetup thick 0
      = { footNum := 2, footWidth := some (thick / 2), halfThk := thick / 2 } := by
    simp [footSetup]
  refine ⟨h, ?_, ?_, ?_, ?_, by decide!⟩
  · rw [h]
    rfl
  · rw [h]
    simp [armOffset]
  · rw [h]
    simp [armOffset]
  · rw [h]
    simp only [armOffset]
    push_cast
    ring

/-! ## Selection errors: the claims -/

/-- C7: when fewer than two nodes are flagged as edge nodes the run stops with
an error and the model it leaves is the model it was given. -/
theorem C7_too_few_edge_nodes (sqrt : ℚ → ℚ) (NormalVector : Shell → Vec3)
    (Merge : Model → List ℕ → ℚ → Model) (sel : Selection) (m : Model)
    (h : (Node.GetFlagged m sel.bNodeSet).length < 2) :
    run sqrt NormalVector Merge sel m
      = Outcome.halted (if sel.model = false then Err.noModel else Err.edgeNodes) m := by
  unfold run
  by_cases hm : sel.model = false
  · simp [hm]
  · simp only [hm, if_false]
    match hg : Node.GetFlagged m sel.bNodeSet with
    | [] => rfl
    | [_] => rfl
    | a :: b :: l =>
      rw [hg] at h
      simp only [List.length_cons] at h
      omega

/-! ## The node-building loop -/

theorem armsUpTo (env : Env) (nodeA nodeB : Node) (nv : Vec3) (m : Model) (nid0 : ℕ)
    (wf : List ℕ) (me0 : ℚ) (k : ℕ) :
    (List.range k).foldl (armIter env nodeA nodeB nv)
        { m := m, nid := nid0, aArm := [], bArm := [], WallFootFlag := wf, minEdgeLen := me0 }
      = { m := { m with nodes := m.nodes ++ createdUpTo env nodeA nodeB nv nid0 k }
          nid := nid0 + 2 * newBefore env k
          aArm := (List.range k).map (aEntry env nodeA nv nid0)
          bArm := (List.range k).map (bEntry env nodeB nv nid0)
          WallFootFlag := wf ++ (createdUpTo env nodeA nodeB nv nid0 k).map Node.nid
          minEdgeLen := minUpTo env nodeA nodeB nv nid0 me0 k } := by
  induction k with
  | zero => simp [createdUpTo, newBefore, minUpTo]
  | succ k ih =>
    rw [List.range_succ, List.foldl_append, ih]
    simp only [List.foldl_cons, List.foldl_nil]
    by_cases hmid : |armOffset env.footWidth env.halfThk k| < planeTol
    · simp [armIter, hmid, createdUpTo, newBefore, minUpTo, aEntry, bEntry, List.range_succ,
        List.foldl_append]
    · simp [armIter, hmid, createdUpTo, newBefore, minUpTo, aEntry, bEntry, List.range_succ,
        List.foldl_append, Model.addNode, Nat.mul_add, Nat.add_assoc]

theorem armRange_natCast (N : ℕ) : armRange (N : ℤ) = List.range (N + 1) := by
  unfold armRange
  congr 1

theorem shellRange_natCast (N : ℕ) : shellRange (N : ℤ) = List.range N := by
  unfold shellRange
  congr 1

theorem buildArms_eq (env : Env) (nodeA nodeB : Node) (nv : Vec3) (m : Model) (nid0 : ℕ)
    (wf : List ℕ) (me0 : ℚ) (N : ℕ) (hN : env.footNum = (N : ℤ)) :
    buildArms env nodeA nodeB nv m nid0 wf me0
      = { m := { m with nodes := m.nodes ++ createdUpTo env nodeA nodeB nv nid0 (N + 1) }
          nid := nid0 + 2 * newBefore env (N + 1)
          aArm := (List.range (N + 1)).map (aEntry env nodeA nv nid0)
          bArm := (List.range (N + 1)).map (bEntry env nodeB nv nid0)
          WallFootFlag := wf ++ (createdUpTo env nodeA nodeB nv nid0 (N + 1)).map Node.nid
          minEdgeLen := minUpTo env nodeA nodeB nv nid0 me0 (N + 1) } := by
  unfold buildArms
  rw [hN, armRange_natCast, armsUpTo]

theorem minUpTo_below (env : Env) (nodeA nodeB : Node) (nv : Vec3) (nid0 : ℕ) (me0 : ℚ)
    (N : ℕ) (hN : env.footNum = (N : ℤ)) (k : ℕ) (hk : k ≤ N) :
    minUpTo env nodeA nodeB nv nid0 me0 k
      = if k = 0 then me0
        else min me0 (edgeLen env.sqrt (aEntry env nodeA nv nid0 0) (bEntry env nodeB nv nid0 0)) := by
  induction k with
  | zero => simp [minUpTo]
  | succ k ih =>
    have ih' := ih (by omega)
    unfold minUpTo at ih' ⊢
    rw [List.range_succ, List.foldl_append, ih']
    simp only [List.foldl_cons, List.foldl_nil]
    by_cases hk0 : k = 0
    · subst hk0
      simp
    · have hne : ¬ ((k : ℤ) = env.footNum) := by
        rw [hN]
        intro h
        have : k = N := by exact_mod_cast h
        omega
      simp [hk0, hne]

/-- The minimum left by the node-building loop: the previous one, lowered by
the rungs at `x = 0` and `x = footNum`. -/
theorem minUpTo_full (env : Env) (nodeA nodeB : Node) (nv : Vec3) (nid0 : ℕ) (me0 : ℚ)
    (N : ℕ) (hN : env.footNum = (N : ℤ)) :
    minUpTo env nodeA nodeB nv nid0 me0 (N + 1)
      = min (min me0 (edgeLen env.sqrt (aEntry env nodeA nv nid0 0) (bEntry env nodeB nv nid0 0)))
          (edgeLen env.sqrt (aEntry env nodeA nv nid0 N) (bEntry env nodeB nv nid0 N)) := by
  have hb := minUpTo_below env nodeA nodeB nv nid0 me0 N hN N le_rfl
  unfold minUpTo at hb ⊢
  rw [List.range_succ, List.foldl_append, hb]
  simp only [List.foldl_cons, List.foldl_nil]
  by_cases h0 : N = 0
  · subst h0
    simp
  · simp [h0, hN]

/-! ## The shell-building loop -/

theorem shellsUpTo (footPart : List Part) (p : Part) (aArm bArm : List Node) (m : Model)
    (eid0 k : ℕ) (hp : footPart.head? = some p) (ha : k < aArm.length ∨ k = 0)
    (hb : k < bArm.length ∨ k = 0) :
    (List.range k).foldlM (shellIter footPart aArm bArm) (m, eid0)
      = Except.ok ({ m with shells := m.shells ++ (List.range k).map (footShell p aArm bArm eid0) },
          eid0 + k) := by
  induction k with
  | zero => simp [pure, Except.pure]
  | succ k ih =>
    have hka : k + 1 < aArm.length := by omega
    have hkb : k + 1 < bArm.length := by omega
    rw [List.range_succ, List.foldlM_append, ih (by omega) (by omega)]
    have h0 : aArm[k]? = some aArm[k] := List.getElem?_eq_getElem (by omega)
    have h1 : aArm[k + 1]? = some aArm[k + 1] := List.getElem?_eq_getElem hka
    have g0 : bArm[k]? = some bArm[k] := List.getElem?_eq_getElem (by omega)
    have g1 : bArm[k + 1]? = some bArm[k + 1] := List.getElem?_eq_getElem hkb
    simp [shellIter, armNid, hp, h0, h1, g0, g1, footShell, Model.addShell, List.range_succ,
      bind, Except.bind, pure, Except.pure, Nat.add_assoc]

/-! ## Largest labels -/

theorem lastBy_mem_max {α : Type} (key : α → ℕ) :
    ∀ (l : List α) (b : α), lastBy key l = some b → b ∈ l ∧ ∀ a ∈ l, key a ≤ key b := by
  intro l
  induction l with
  | nil => intro b h; simp [lastBy] at h
  | cons a l ih =>
    intro b h
    unfold lastBy at h
    cases hl : lastBy key l with
    | none =>
      rw [hl] at h
      cases l with
      | nil =>
        simp only [Option.some.injEq] at h
        subst h
        simp
      | cons c l =>
        exfalso
        unfold lastBy at hl
        cases h2 : lastBy key l with
        | none => rw [h2] at hl; simp at hl
        | some d =>
          rw [h2] at hl
          simp only at hl
          split at hl <;> simp at hl
    | some c =>
      rw [hl] at h
      obtain ⟨hc, hmax⟩ := ih c hl
      simp only at h
      split at h
      · rename_i hlt
        simp only [Option.some.injEq] at h
        subst h
        refine ⟨List.mem_cons_of_mem _ hc, ?_⟩
        intro x hx
        rcases List.mem_cons.mp hx with rfl | hx
        · exact hlt.le
        · exact hmax x hx
      · rename_i hlt
        simp only [Option.some.injEq] at h
        subst h
        refine ⟨List.mem_cons_self _ _, ?_⟩
        intro x hx
        rcases List.mem_cons.mp hx with rfl | hx
        · exact le_rfl
        · exact (hmax x hx).trans (not_lt.mp hlt)

theorem lastBy_isSome {α : Type} (key : α → ℕ) (l : List α) (a : α) (h : a ∈ l) :
    ∃ b, lastBy key l = some b := by
  cases l with
  | nil => simp at h
  | cons c l =>
    unfold lastBy
    cases lastBy key l with
    | none => exact ⟨c, rfl⟩
    | some d =>
      simp only
      split
      · exact ⟨d, rfl⟩
      · exact ⟨c, rfl⟩

theorem buildShells_eq (env : Env) (p : Part) (l : Shell) (aArm bArm : List Node) (m : Model)
    (N : ℕ) (hN : env.footNum = (N : ℤ)) (hp : env.footPart.head? = some p)
    (hl : Shell.Last m = some l) (ha : aArm.length = N + 1) (hb : bArm.length = N + 1) :
    buildShells env aArm bArm m
      = Except.ok { m with
          shells := m.shells ++ (List.range N).map (footShell p aArm bArm (l.eid + 1)) } := by
  unfold buildShells
  rw [hl, hN, shellRange_natCast]
  simp only
  rw [shellsUpTo env.footPart p aArm bArm m (l.eid + 1) N hp (by omega) (by omega)]

theorem shellIter_keeps (footPart : List Part) (aArm bArm : List Node) (st r : Model × ℕ) (x : ℕ)
    (h : shellIter footPart aArm bArm st x = Except.ok r) :
    r.1.nodes = st.1.nodes ∧ r.1.sets = st.1.sets ∧ r.1.nrbs = st.1.nrbs := by
  unfold shellIter at h
  split at h
  · simp only [Except.ok.injEq] at h
    subst h
    simp [Model.addShell]
  · simp at h

theorem shellFold_keeps (footPart : List Part) (aArm bArm : List Node) :
    ∀ (xs : List ℕ) (st r : Model × ℕ),
      xs.foldlM (shellIter footPart aArm bArm) st = Except.ok r →
      r.1.nodes = st.1.nodes ∧ r.1.sets = st.1.sets ∧ r.1.nrbs = st.1.nrbs := by
  intro xs
  induction xs with
  | nil =>
    intro st r h
    simp only [List.foldlM_nil, pure, Except.pure, Except.ok.injEq] at h
    subst h
    exact ⟨rfl, rfl, rfl⟩
  | cons x xs ih =>
    intro st r h
    rw [List.foldlM_cons] at h
    cases hx : shellIter footPart aArm bArm st x with
    | error e => rw [hx] at h; simp [bind, Except.bind] at h
    | ok st1 =>
      rw [hx] at h
      simp only [bind, Except.bind] at h
      obtain ⟨h1, h2, h3⟩ := ih st1 r h
      obtain ⟨g1, g2, g3⟩ := shellIter_keeps footPart aArm bArm st st1 x hx
      exact ⟨h1.trans g1, h2.trans g2, h3.trans g3⟩

theorem buildShells_keeps (env : Env) (aArm bArm : List Node) (m m1 : Model)
    (h : buildShells env aArm bArm m = Except.ok m1) :
    m1.nodes = m.nodes ∧ m1.sets = m.sets ∧ m1.nrbs = m.nrbs := by
  unfold buildShells at h
  split at h
  · simp at h
  · split at h
    · simp at h
    · rename_i r hr
      simp only [Except.ok.injEq] at h
      subst h
      exact shellFold_keeps env.footPart aArm bArm _ _ r hr

/-! ## Node sets and rigid bodies -/

theorem nrbIter_coupled (c d : ℕ) (ids : List ℕ) (arm : List Node) (lcl : Node) (st : NRBState)
    (h : Coupled c d ids st) : Coupled c d (ids ++ [lcl.nid]) (nrbIter arm lcl st) := by
  obtain ⟨h1, h2, h3, h4⟩ := h
  unfold nrbIter
  by_cases hf : lcl.nid ∈ st.NRBNodeFlag
  · rw [if_pos hf]
    refine ⟨h1, h2, h3, ?_⟩
    intro id
    rw [List.mem_append, List.mem_singleton, h4]
    constructor
    · exact fun h => Or.inl h
    · rintro (h | h)
      · exact h
      · rw [h]
        exact (h4 _).mp hf
  · rw [if_neg hf]
    refine ⟨?_, ?_, ?_, ?_⟩
    · simp only
      rw [List.nodup_append]
      refine ⟨h1, List.nodup_singleton _, ?_⟩
      intro x hx hx'
      rw [List.mem_singleton] at hx'
      subst hx'
      exact hf hx
    · simp only [Model.addSet, Model.addNRB, List.length_append, List.length_singleton]
      omega
    · simp only [Model.addSet, Model.addNRB, List.length_append, List.length_singleton]
      omega
    · intro id
      simp only [List.mem_append, List.mem_singleton, h4]

theorem nrbIter_keeps (arm : List Node) (lcl : Node) (st : NRBState) :
    (nrbIter arm lcl st).m.nodes = st.m.nodes ∧ (nrbIter arm lcl st).m.shells = st.m.shells := by
  unfold nrbIter
  split
  · exact ⟨rfl, rfl⟩
  · simp [Model.addSet, Model.addNRB]

theorem nrbIter_flag_mono (arm : List Node) (lcl : Node) (st : NRBState) (id : ℕ)
    (h : id ∈ st.WallFootFlag) : id ∈ (nrbIter arm lcl st).WallFootFlag := by
  unfold nrbIter
  split
  · exact h
  · exact List.mem_append_left _ h

theorem buildNRBs_keeps (aArm bArm : List Node) (nodeA nodeB : Node) (st : NRBState) :
    (buildNRBs aArm bArm nodeA nodeB st).m.nodes = st.m.nodes ∧
      (buildNRBs aArm bArm nodeA nodeB st).m.shells = st.m.shells := by
  unfold buildNRBs
  obtain ⟨h1, h2⟩ := nrbIter_keeps bArm nodeB (nrbIter aArm nodeA st)
  obtain ⟨g1, g2⟩ := nrbIter_keeps aArm nodeA st
  exact ⟨h1.trans g1, h2.trans g2⟩

theorem buildNRBs_flag_mono (aArm bArm : List Node) (nodeA nodeB : Node) (st : NRBState)
    (id : ℕ) (h : id ∈ st.WallFootFlag) :
    id ∈ (buildNRBs aArm bArm nodeA nodeB st).WallFootFlag :=
  nrbIter_flag_mono _ _ _ _ (nrbIter_flag_mono _ _ _ _ h)

/-! ## One pass of the loop body -/

theorem shellStep_ok (env : Env) (s s1 : LoopState) (sh : Shell)
    (h : shellStep env s sh = Except.ok s1) :
    ∃ pr, shellPrep env s sh = Except.ok pr ∧ shellBuild env s sh pr = Except.ok s1 := by
  unfold shellStep at h
  cases hp : shellPrep env s sh with
  | error e => rw [hp] at h; simp at h
  | ok pr =>
    rw [hp] at h
    exact ⟨pr, rfl, h⟩

theorem shellBuild_ok (env : Env) (s s1 : LoopState) (sh : Shell) (pr : Prep)
    (h : shellBuild env s sh pr = Except.ok s1) :
    ∃ m1 nrb,
      buildShells env (armsOf env s sh pr).aArm (armsOf env s sh pr).bArm (armsOf env s sh pr).m
        = Except.ok m1 ∧
      nrb = buildNRBs (armsOf env s sh pr).aArm (armsOf env s sh pr).bArm pr.nodeA pr.nodeB
        { m := m1, NRBNodeFlag := s.NRBNodeFlag,
          WallFootFlag := (armsOf env s sh pr).WallFootFlag } ∧
      s1.m = nrb.m ∧ s1.LclNodes = pr.lcl ∧ s1.footNormalVec = some pr.fnv ∧
      s1.minEdgeLen = (armsOf env s sh pr).minEdgeLen ∧
      s1.NRBNodeFlag = nrb.NRBNodeFlag ∧ s1.WallFootFlag = nrb.WallFootFlag ∧
      s1.log = s.log ++ [ElemRecord.mk sh.eid pr.nodeA pr.nodeB (armsOf env s sh pr).aArm
        (armsOf env s sh pr).bArm] := by
  unfold shellBuild at h
  simp only at h
  split at h
  · simp at h
  · rename_i m1 hm1
    simp only [Except.ok.injEq] at h
    subst h
    exact ⟨m1, _, hm1, rfl, rfl, rfl, rfl, rfl, rfl, rfl, rfl⟩

/-- A property that holds at the start of the main loop and survives every
successful pass of the loop body holds when the loop ends. -/
theorem mainLoop_induct (env : Env) (P : LoopState → Prop)
    (hstep : ∀ s sh s1, P s → shellStep env s sh = Except.ok s1 → P s1) :
    ∀ (allShells : List Shell) (s s1 : LoopState),
      P s → mainLoop env allShells s = Except.ok s1 → P s1 := by
  intro allShells
  induction allShells with
  | nil =>
    intro s s1 hs h
    simp only [mainLoop, List.foldlM_nil, pure, Except.pure, Except.ok.injEq] at h
    subst h
    exact hs
  | cons sh l ih =>
    intro s s1 hs h
    simp only [mainLoop, List.foldlM_cons] at h
    cases hx : loopIter env s sh with
    | error e => rw [hx] at h; simp [bind, Except.bind] at h
    | ok s2 =>
      rw [hx] at h
      simp only [bind, Except.bind] at h
      refine ih s2 s1 ?_ h
      unfold loopIter at hx
      split at hx
      · exact hstep s sh s2 hs hx
      · simp only [Except.ok.injEq] at hx
        subst hx
        exact hs

/-! ## One coupling per edge node -/

theorem buildArms_keeps (env : Env) (nodeA nodeB : Node) (nv : Vec3) (m : Model) (nid0 : ℕ)
    (wf : List ℕ) (me0 : ℚ) :
    (buildArms env nodeA nodeB nv m nid0 wf me0).m.shells = m.shells ∧
      (buildArms env nodeA nodeB nv m nid0 wf me0).m.sets = m.sets ∧
      (buildArms env nodeA nodeB nv m nid0 wf me0).m.nrbs = m.nrbs := by
  unfold buildArms armRange
  rw [armsUpTo]
  exact ⟨rfl, rfl, rfl⟩

theorem edgeNodeIds_append (log : List ElemRecord) (r : ElemRecord) :
    edgeNodeIds (log ++ [r]) = edgeNodeIds log ++ [r.nodeA.nid] ++ [r.nodeB.nid] := by
  simp [edgeNodeIds, List.flatMap_append]

theorem shellStep_coupled (env : Env) (c d : ℕ) (s s1 : LoopState) (sh : Shell)
    (hs : Coupled c d (edgeNodeIds s.log)
      { m := s.m, NRBNodeFlag := s.NRBNodeFlag, WallFootFlag := s.WallFootFlag })
    (h : shellStep env s sh = Except.ok s1) :
    Coupled c d (edgeNodeIds s1.log)
      { m := s1.m, NRBNodeFlag := s1.NRBNodeFlag, WallFootFlag := s1.WallFootFlag } := by
  obtain ⟨pr, -, hb⟩ := shellStep_ok env s s1 sh h
  obtain ⟨m1, nrb, hm1, hnrb, e1, -, -, -, e5, -, e7⟩ := shellBuild_ok env s s1 sh pr hb
  obtain ⟨-, k2, k3⟩ := buildShells_keeps env _ _ _ m1 hm1
  obtain ⟨-, a2, a3⟩ := buildArms_keeps env pr.nodeA pr.nodeB (env.NormalVector sh) s.m
    (pr.last.nid + 1) s.WallFootFlag s.minEdgeLen
  have h0 : Coupled c d (edgeNodeIds s.log)
      { m := m1, NRBNodeFlag := s.NRBNodeFlag,
        WallFootFlag := (armsOf env s sh pr).WallFootFlag } := by
    obtain ⟨q1, q2, q3, q4⟩ := hs
    refine ⟨q1, ?_, ?_, q4⟩
    · show m1.sets.length = _
      rw [k2]
      unfold armsOf
      rw [a2]
      exact q2
    · show m1.nrbs.length = _
      rw [k3]
      unfold armsOf
      rw [a3]
      exact q3
  have h1 := nrbIter_coupled c d _ (armsOf env s sh pr).bArm pr.nodeB _
    (nrbIter_coupled c d _ (armsOf env s sh pr).aArm pr.nodeA _ h0)
  rw [e7, edgeNodeIds_append, e1, e5, hnrb]
  exact h1

/-- C5: when the main loop ends, the number of rigid bodies created and the
number of node sets created both equal the number of distinct nodes among the
local edge nodes `LclNodes[0]`, `LclNodes[1]` of the processed shells; the
nodes marked as coupled are those nodes, each marked once. -/
theorem C5_one_coupling_per_edge_node (env : Env) (allShells : List Shell) (m : Model)
    (s : LoopState) (h : mainLoop env allShells (initState m) = Except.ok s) :
    s.m.nrbs.length = m.nrbs.length + (edgeNodeIds s.log).dedup.length ∧
      s.m.sets.length = m.sets.length + (edgeNodeIds s.log).dedup.length ∧
      s.NRBNodeFlag.Nodup ∧ ∀ id, id ∈ s.NRBNodeFlag ↔ id ∈ edgeNodeIds s.log := by
  have hinv := mainLoop_induct env
    (fun t => Coupled m.sets.length m.nrbs.length (edgeNodeIds t.log)
      { m := t.m, NRBNodeFlag := t.NRBNodeFlag, WallFootFlag := t.WallFootFlag })
    (fun t sh t1 ht hstep => shellStep_coupled env _ _ t t1 sh ht hstep)
    allShells (initState m) s
    ⟨List.nodup_nil, rfl, rfl, fun id => by simp [initState, edgeNodeIds]⟩ h
  obtain ⟨q1, q2, q3, q4⟩ := hinv
  have hlen : s.NRBNodeFlag.length = (edgeNodeIds s.log).dedup.length := by
    apply List.Perm.length_eq
    rw [List.perm_ext_iff_of_nodup q1 (List.nodup_dedup _)]
    intro id
    rw [List.mem_dedup]
    exact q4 id
  simp only at q2 q3
  exact ⟨by rw [q3, hlen], by rw [q2, hlen], q1, q4⟩

/-- On the sample with shells 1 and 2 flagged and edge nodes 1 and 2 the whole
script ends normally, and its main loop ends in `demoFinal`: the values it
fixes before the loop are those of `demoEnv`. -/
theorem demo_run_state :
    Outcome.state (run Rat.sqrt demoNormal demoMerge (demoSel [1, 2] [1, 2]) demoModel)
      = some demoFinal := by
  decide!

/-- Witness of C5 on the sample: shells 1 and 2 share edge node 2, the loop
ends, and it has created 3 rigid bodies and 3 node sets for the edge nodes
1, 2 and 5. -/
theorem C5_one_coupling_per_edge_node_witness :
    mainLoop (demoEnv [1, 2]) demoModel.shells (initState demoModel) = Except.ok demoFinal ∧
      edgeNodeIds demoFinal.log = [1, 2, 2, 5] ∧
      demoFinal.m.nrbs.length = demoModel.nrbs.length + (edgeNodeIds demoFinal.log).dedup.length ∧
      demoFinal.m.nrbs.length = 3 ∧ demoFinal.m.sets.length = 3 :=
  ⟨by decide!, by decide!,
    (C5_one_coupling_per_edge_node (demoEnv [1, 2]) demoModel.shells demoModel demoFinal
      (by decide!)).1, by decide!, by decide!⟩

/-! ## The minimum free-edge length -/

theorem foldl_min_le_init (l : List ℚ) (a : ℚ) : l.foldl min a ≤ a := by
  induction l generalizing a with
  | nil => exact le_rfl
  | cons d l ih => exact (ih (min a d)).trans (min_le_left a d)

theorem foldl_min_le_mem (l : List ℚ) (a d : ℚ) (hd : d ∈ l) : l.foldl min a ≤ d := by
  induction l generalizing a with
  | nil => simp at hd
  | cons e l ih =>
    rcases List.mem_cons.mp hd with rfl | hd
    · exact (foldl_min_le_init l (min a d)).trans (min_le_right a d)
    · exact ih (min a e) hd

theorem foldl_min_mem (l : List ℚ) (a : ℚ) : l.foldl min a = a ∨ l.foldl min a ∈ l := by
  induction l generalizing a with
  | nil => exact Or.inl rfl
  | cons e l ih =>
    rcases ih (min a e) with h | h
    · rcases min_choice a e with h2 | h2
      · left
        simp only [List.foldl_cons]
        rw [h, h2]
      · right
        simp only [List.foldl_cons]
        rw [h, h2]
        exact List.mem_cons_self _ _
    · right
      exact List.mem_cons_of_mem _ h

theorem rungLen_entries (env : Env) (nodeA nodeB : Node) (nv : Vec3) (nid0 eid N x : ℕ)
    (hx : x < N + 1) :
    rungLen env.sqrt
        { eid := eid, nodeA := nodeA, nodeB := nodeB,
          aArm := (List.range (N + 1)).map (aEntry env nodeA nv nid0),
          bArm := (List.range (N + 1)).map (bEntry env nodeB nv nid0) } x
      = some (edgeLen env.sqrt (aEntry env nodeA nv nid0 x) (bEntry env nodeB nv nid0 x)) := by
  simp [rungLen, List.getElem?_range hx]

theorem shellStep_minEdgeLen (env : Env) (N : ℕ) (hN : env.footNum = (N : ℤ))
    (s s1 : LoopState) (sh : Shell)
    (hs : s.minEdgeLen = (rungs env.sqrt N s.log).foldl min 1 ∧
      (rungs env.sqrt N s.log).length = 2 * s.log.length)
    (h : shellStep env s sh = Except.ok s1) :
    s1.minEdgeLen = (rungs env.sqrt N s1.log).foldl min 1 ∧
      (rungs env.sqrt N s1.log).length = 2 * s1.log.length := by
  obtain ⟨pr, -, hb⟩ := shellStep_ok env s s1 sh h
  obtain ⟨m1, nrb, -, -, -, -, -, e4, -, -, e7⟩ := shellBuild_ok env s s1 sh pr hb
  have harms := buildArms_eq env pr.nodeA pr.nodeB (env.NormalVector sh) s.m (pr.last.nid + 1)
    s.WallFootFlag s.minEdgeLen N hN
  have hr : rungs env.sqrt N s1.log = rungs env.sqrt N s.log ++
      [edgeLen env.sqrt (aEntry env pr.nodeA (env.NormalVector sh) (pr.last.nid + 1) 0)
          (bEntry env pr.nodeB (env.NormalVector sh) (pr.last.nid + 1) 0),
       edgeLen env.sqrt (aEntry env pr.nodeA (env.NormalVector sh) (pr.last.nid + 1) N)
          (bEntry env pr.nodeB (env.NormalVector sh) (pr.last.nid + 1) N)] := by
    rw [e7]
    unfold armsOf
    rw [harms]
    simp only [rungs, List.flatMap_append, List.flatMap_cons, List.flatMap_nil, List.append_nil]
    rw [rungLen_entries env pr.nodeA pr.nodeB _ _ sh.eid N 0 (by omega),
      rungLen_entries env pr.nodeA pr.nodeB _ _ sh.eid N N (by omega)]
    rfl
  constructor
  · rw [hr, List.foldl_append, ← hs.1, e4]
    unfold armsOf
    rw [harms]
    simp only [List.foldl_cons, List.foldl_nil]
    exact minUpTo_full env pr.nodeA pr.nodeB _ _ s.minEdgeLen N hN
  · rw [hr, e7]
    simp only [List.length_append, List.length_cons, List.length_nil, hs.2]
    omega

/-- Counterexample to C10 on the sample with shell 1 flagged: one shell is
processed, its rungs at x = 0 and x = 2 both have length 2, and `minEdgeLen`
is left at 1, which is not the minimum of the rung lengths. -/
theorem C10_minEdgeLen_counterexample :
    (Outcome.state (run Rat.sqrt demoNormal demoMerge (demoSel [1] [1, 2]) demoModel)).map
        (fun s => (s.log.length, rungs Rat.sqrt 2 s.log, s.minEdgeLen))
      = some (1, [2, 2], 1) := by
  decide!

/-- C10 as amended: when the main loop ends, `minEdgeLen` is the minimum of
its initial value 1 and the lengths of the rungs `aArm[x]`-`bArm[x]` at x = 0
and x = footNum of all processed shells (two rungs per processed shell): it is
at most 1, at most every such rung length, and equal to 1 or to one of them. -/
theorem C10_minEdgeLen_capped (env : Env) (allShells : List Shell) (m : Model) (s : LoopState)
    (N : ℕ) (hN : env.footNum = (N : ℤ))
    (h : mainLoop env allShells (initState m) = Except.ok s) :
    s.minEdgeLen = (rungs env.sqrt N s.log).foldl min 1 ∧
      (rungs env.sqrt N s.log).length = 2 * s.log.length ∧
      s.minEdgeLen ≤ 1 ∧
      (∀ d ∈ rungs env.sqrt N s.log, s.minEdgeLen ≤ d) ∧
      (s.minEdgeLen = 1 ∨ s.minEdgeLen ∈ rungs env.sqrt N s.log) := by
  have hinv := mainLoop_induct env
    (fun t => t.minEdgeLen = (rungs env.sqrt N t.log).foldl min 1 ∧
      (rungs env.sqrt N t.log).length = 2 * t.log.length)
    (fun t sh t1 ht hstep => shellStep_minEdgeLen env N hN t t1 sh ht hstep)
    allShells (initState m) s ⟨rfl, rfl⟩ h
  obtain ⟨h1, h2⟩ := hinv
  refine ⟨h1, h2, ?_, ?_, ?_⟩
  · rw [h1]
    exact foldl_min_le_init _ _
  · intro d hd
    rw [h1]
    exact foldl_min_le_mem _ _ _ hd
  · rw [h1]
    exact foldl_min_mem _ _

/-- Witness of the amended C10 on the sample with shells 1 and 2 flagged: the
loop ends, the four rung lengths are 2, and `minEdgeLen` is 1. -/
theorem C10_minEdgeLen_capped_witness :
    mainLoop (demoEnv [1, 2]) demoModel.shells (initState demoModel) = Except.ok demoFinal ∧
      (demoEnv [1, 2]).footNum = ((2 : ℕ) : ℤ) ∧
      rungs (demoEnv [1, 2]).sqrt 2 demoFinal.log = [2, 2, 2, 2] ∧
      demoFinal.minEdgeLen = (rungs (demoEnv [1, 2]).sqrt 2 demoFinal.log).foldl min 1 :=
  ⟨by decide!, rfl, by decide!,
    (C10_minEdgeLen_capped (demoEnv [1, 2]) demoModel.shells demoModel demoFinal 2 rfl
      (by decide!)).1⟩

/-! ## Classification of the corners -/

theorem classifyCorner_slots (m : Model) (E : Node) (fnv : Option (List ℚ))
    (L : List (Option Node)) (acc r : List (Option Node) × ℕ) (id : ℕ)
    (h : classifyCorner m E fnv acc id = Except.ok r)
    (hinv : ∀ i, acc.2 ≤ i → acc.1.getD i none = L.getD i none) :
    acc.2 ≤ r.2 ∧ ∀ i, r.2 ≤ i → r.1.getD i none = L.getD i none := by
  unfold classifyCorner at h
  split at h
  · simp at h
  · simp only [Except.ok.injEq] at h
    subst h
    exact ⟨le_rfl, hinv⟩
  · simp only [Except.ok.injEq] at h
    subst h
    refine ⟨Nat.le_succ _, ?_⟩
    intro i hi
    simp only at hi
    rw [← hinv i (by omega)]
    simp only [List.getD_eq_getElem?_getD]
    rw [List.getElem?_set_ne (by omega)]

/-- After the classification of a shell, the slots of `LclNodes` from the
final `n` on are what they were before. -/
theorem classify_slots (m : Model) (E : Node) (fnv : Option (List ℚ))
    (L lcl : List (Option Node)) (sh : Shell) (n : ℕ)
    (h : classify m E fnv L sh = Except.ok (lcl, n)) :
    ∀ i, n ≤ i → lcl.getD i none = L.getD i none := by
  unfold classify at h
  split at h
  · simp at h
  · rename_i a1 h1
    split at h
    · simp at h
    · rename_i a2 h2
      split at h
      · simp at h
      · rename_i a3 h3
        have s1 := classifyCorner_slots m E fnv L (L, 0) a1 sh.n1 h1 (fun i _ => rfl)
        have s2 := classifyCorner_slots m E fnv L a1 a2 sh.n2 h2 s1.2
        have s3 := classifyCorner_slots m E fnv L a2 a3 sh.n3 h3 s2.2
        have s4 := classifyCorner_slots m E fnv L a3 (lcl, n) sh.n4 h s3.2
        exact s4.2

theorem shellPrep_short (env : Env) (s : LoopState) (sh : Shell) (fnv : Option (List ℚ))
    (lcl : List (Option Node)) (n : ℕ) (hf : s.footNormalVec = none)
    (hfn : footNormalOf env.sqrt env.edgeVec (env.NormalVector sh) = Except.ok fnv)
    (hc : classify s.m env.EdgeNode1 fnv s.LclNodes sh = Except.ok (lcl, n))
    (h1 : lcl.getD 1 none = none) :
    shellPrep env s sh = Except.error Err.typeError := by
  unfold shellPrep
  simp only [hf, hfn, hc, h1]
  split <;> simp_all

theorem mainLoop_unflagged (env : Env) (pre : List Shell) (s : LoopState)
    (hpre : ∀ t ∈ pre, t.eid ∉ env.bShellSet) :
    List.foldlM (loopIter env) s pre = Except.ok s := by
  induction pre with
  | nil => rfl
  | cons t pre ih =>
    rw [List.foldlM_cons]
    have ht : loopIter env s t = Except.ok s := by
      unfold loopIter
      rw [if_neg (hpre t (List.mem_cons_self _ _))]
    rw [ht]
    exact ih (fun u hu => hpre u (List.mem_cons_of_mem _ hu))

/-- C6, at the input: the sample with thickness 10, width 0, edge nodes 1 and
2, and shells 1 and 3 flagged.  No corner of shell 3 is accepted by
`edgeCheck`, yet the run ends without an error: for shell 3 it has built arms
from nodes 1 and 2, the entries that shell 1 left in `LclNodes` (which line 97
creates once and no line clears), 4 more nodes and 2 more shells.  With shell 3
alone flagged the same shell stops the run with a read on `undefined`. -/
theorem C6_stale_local_nodes :
    acceptedCount demoModel ⟨1, 0, 0, 0⟩ (some [0, -1, 0]) ⟨3, 1, 4, 3, 7, 8⟩ = some 0 ∧
      (Outcome.state (run Rat.sqrt demoNormal demoMerge (demoSel [1, 3] [1, 2]) demoModel)).map
          (fun s => (s.footNormalVec, s.log.map (fun r => (r.eid, r.nodeA.nid, r.nodeB.nid)),
            s.m.nodes.length, s.m.shells.length))
        = some (some (some [0, -1, 0]), [(1, 1, 2), (3, 1, 2)], 16, 7) ∧
      run Rat.sqrt demoNormal demoMerge (demoSel [3] [1, 2]) demoModel
        = Outcome.halted Err.typeError demoModel := by
  decide!

/-- When the first flagged shell of the traversal has fewer than 2 corners
accepted by `edgeCheck`, the main loop stops at that shell with a read on
`undefined`, and the model is the one the loop started with: no node, shell,
node set or rigid body has been created. -/
theorem mainLoop_first_flagged_short (env : Env) (m : Model) (pre post : List Shell)
    (sh : Shell) (fnv : Option (List ℚ)) (n : ℕ)
    (hpre : ∀ t ∈ pre, t.eid ∉ env.bShellSet) (hsh : sh.eid ∈ env.bShellSet)
    (hfn : footNormalOf env.sqrt env.edgeVec (env.NormalVector sh) = Except.ok fnv)
    (hc : acceptedCount m env.EdgeNode1 fnv sh = some n) (hn : n < 2) :
    mainLoop env (pre ++ sh :: post) (initState m) = Except.error (Err.typeError, m) := by
  unfold mainLoop
  rw [List.foldlM_append, mainLoop_unflagged env pre _ hpre]
  simp only [bind, Except.bind, List.foldlM_cons]
  unfold acceptedCount at hc
  cases hcl : classify m env.EdgeNode1 fnv [none, none, none, none] sh with
  | error e => rw [hcl] at hc; simp at hc
  | ok r =>
    rw [hcl] at hc
    simp only [Option.some.injEq] at hc
    obtain ⟨lcl, k⟩ := r
    simp only at hc
    subst hc
    have hslot := classify_slots m env.EdgeNode1 fnv _ lcl sh k hcl 1 (by omega)
    have hprep : shellPrep env (initState m) sh = Except.error Err.typeError :=
      shellPrep_short env (initState m) sh fnv lcl k rfl hfn hcl (by rw [hslot]; rfl)
    have hstep : loopIter env (initState m) sh = Except.error (Err.typeError, m) := by
      unfold loopIter
      rw [if_pos hsh]
      unfold shellStep
      rw [hprep]
      rfl
    rw [hstep]

/-- Witness of C7 on the sample with the single edge node 1 selected. -/
theorem C7_too_few_edge_nodes_witness :
    (Node.GetFlagged demoModel (demoSel [1, 2] [1]).bNodeSet).length < 2 ∧
      run Rat.sqrt demoNormal demoMerge (demoSel [1, 2] [1]) demoModel
        = Outcome.halted Err.edgeNodes demoModel :=
  ⟨by decide, C7_too_few_edge_nodes Rat.sqrt demoNormal demoMerge (demoSel [1, 2] [1]) demoModel
    (by decide)⟩

/-! ## Arms and foot shells of one flagged shell -/

theorem shellPrep_ok (env : Env) (s : LoopState) (sh : Shell) (pr : Prep)
    (h : shellPrep env s sh = Except.ok pr) :
    pr.lcl.getD 0 none = some pr.nodeA ∧ pr.lcl.getD 1 none = some pr.nodeB ∧
      Node.Last s.m = some pr.last := by
  unfold shellPrep at h
  simp only at h
  split at h
  · simp at h
  · split at h
    · simp at h
    · split at h
      · rename_i hA hB hL
        simp only [Except.ok.injEq] at h
        subst h
        exact ⟨hA, hB, hL⟩
      · simp at h

theorem armsOf_eq (env : Env) (s : LoopState) (sh : Shell) (pr : Prep) (N : ℕ)
    (hN : env.footNum = (N : ℤ)) :
    (armsOf env s sh pr).aArm
        = (List.range (N + 1)).map (aEntry env pr.nodeA (env.NormalVector sh) (pr.last.nid + 1)) ∧
      (armsOf env s sh pr).bArm
        = (List.range (N + 1)).map (bEntry env pr.nodeB (env.NormalVector sh) (pr.last.nid + 1)) ∧
      (armsOf env s sh pr).m.nodes = s.m.nodes ++
        createdUpTo env pr.nodeA pr.nodeB (env.NormalVector sh) (pr.last.nid + 1) (N + 1) ∧
      (armsOf env s sh pr).m.shells = s.m.shells ∧
      (armsOf env s sh pr).WallFootFlag = s.WallFootFlag ++
        (createdUpTo env pr.nodeA pr.nodeB (env.NormalVector sh) (pr.last.nid + 1) (N + 1)).map
          Node.nid := by
  unfold armsOf
  rw [buildArms_eq env pr.nodeA pr.nodeB (env.NormalVector sh) s.m (pr.last.nid + 1)
    s.WallFootFlag s.minEdgeLen N hN]
  exact ⟨rfl, rfl, rfl, rfl, rfl⟩

theorem shellBuild_eq (env : Env) (s : LoopState) (sh : Shell) (pr : Prep) (p : Part)
    (l : Shell) (N : ℕ) (hN : env.footNum = (N : ℤ)) (hp : env.footPart.head? = some p)
    (hl : Shell.Last s.m = some l) :
    ∃ s1, shellBuild env s sh pr = Except.ok s1 ∧
      s1.m.shells = s.m.shells ++ (List.range N).map
        (footShell p (armsOf env s sh pr).aArm (armsOf env s sh pr).bArm (l.eid + 1)) ∧
      s1.log = s.log ++ [ElemRecord.mk sh.eid pr.nodeA pr.nodeB (armsOf env s sh pr).aArm
        (armsOf env s sh pr).bArm] := by
  obtain ⟨hA, hB, -, hS, -⟩ := armsOf_eq env s sh pr N hN
  have hl2 : Shell.Last (armsOf env s sh pr).m = some l := by
    unfold Shell.Last at hl ⊢
    rw [hS]
    exact hl
  have hbs := buildShells_eq env p l (armsOf env s sh pr).aArm (armsOf env s sh pr).bArm
    (armsOf env s sh pr).m N hN hp hl2 (by rw [hA]; simp) (by rw [hB]; simp)
  unfold shellBuild
  simp only [hbs]
  refine ⟨_, rfl, ?_, rfl⟩
  simp only
  rw [(buildNRBs_keeps _ _ _ _ _).2]
  simp only [hS]

/-- C8: a flagged shell that passes lines 110-146 gets exactly `footNum` new
shells; the x-th one is `(aArm[x], aArm[x+1], bArm[x+1], bArm[x])`, belongs to
the part `footPart[0]`, and has the label (largest shell label before) + 1 + x. -/
theorem C8_foot_shells (env : Env) (s : LoopState) (sh : Shell) (pr : Prep) (p : Part) (N : ℕ)
    (hprep : shellPrep env s sh = Except.ok pr) (hN : env.footNum = (N : ℤ))
    (hp : env.footPart.head? = some p) (hsh : sh ∈ s.m.shells) :
    ∃ s1 l r newShells, shellStep env s sh = Except.ok s1 ∧
      Shell.Last s.m = some l ∧ (∀ t ∈ s.m.shells, t.eid ≤ l.eid) ∧
      s1.log = s.log ++ [r] ∧ s1.m.shells = s.m.shells ++ newShells ∧ newShells.length = N ∧
      ∀ x, x < N → ∃ a0 a1 b1 b0,
        r.aArm.get? x = some a0 ∧ r.aArm.get? (x + 1) = some a1 ∧
        r.bArm.get? (x + 1) = some b1 ∧ r.bArm.get? x = some b0 ∧
        newShells.get? x
          = some (Shell.mk (l.eid + 1 + x) p.pid a0.nid a1.nid b1.nid b0.nid) := by
  obtain ⟨l, hl⟩ := lastBy_isSome Shell.eid s.m.shells sh hsh
  obtain ⟨-, hmax⟩ := lastBy_mem_max Shell.eid s.m.shells l hl
  obtain ⟨s1, hs1, hshells, hlog⟩ := shellBuild_eq env s sh pr p l N hN hp hl
  obtain ⟨hA, hB, -, -, -⟩ := armsOf_eq env s sh pr N hN
  refine ⟨s1, l, _, _, ?_, hl, hmax, hlog, hshells, by simp, ?_⟩
  · unfold shellStep
    rw [hprep]
    exact hs1
  · intro x hx
    refine ⟨aEntry env pr.nodeA (env.NormalVector sh) (pr.last.nid + 1) x,
      aEntry env pr.nodeA (env.NormalVector sh) (pr.last.nid + 1) (x + 1),
      bEntry env pr.nodeB (env.NormalVector sh) (pr.last.nid + 1) (x + 1),
      bEntry env pr.nodeB (env.NormalVector sh) (pr.last.nid + 1) x, ?_, ?_, ?_, ?_, ?_⟩
    · simp [hA, List.getElem?_range (by omega : x < N + 1)]
    · simp [hA, List.getElem?_range (by omega : x + 1 < N + 1)]
    · simp [hB, List.getElem?_range (by omega : x + 1 < N + 1)]
    · simp [hB, List.getElem?_range (by omega : x < N + 1)]
    · simp [hA, hB, footShell, armNid, List.getElem?_range hx,
        List.getElem?_range (by omega : x < N + 1),
        List.getElem?_range (by omega : x + 1 < N + 1)]

/-- Witness of C8 on the sample: shell 1, processed first, gets 2 new shells
with labels 4 and 5. -/
theorem C8_foot_shells_witness :
    shellPrep (demoEnv [1]) (initState demoModel) ⟨1, 1, 1, 2, 3, 4⟩ = Except.ok demoPrep ∧
      ∃ s1 l newShells,
        shellStep (demoEnv [1]) (initState demoModel) ⟨1, 1, 1, 2, 3, 4⟩ = Except.ok s1 ∧
        Shell.Last demoModel = some l ∧ l.eid = 3 ∧
        s1.m.shells = demoModel.shells ++ newShells ∧ newShells.length = 2 := by
  have hprep : shellPrep (demoEnv [1]) (initState demoModel) ⟨1, 1, 1, 2, 3, 4⟩
      = Except.ok demoPrep := by decide!
  obtain ⟨s1, l, r, newShells, h1, h2, -, -, h5, h6, -⟩ :=
    C8_foot_shells (demoEnv [1]) (initState demoModel) ⟨1, 1, 1, 2, 3, 4⟩ demoPrep
      ⟨2, false, [], 1⟩ 2 hprep rfl rfl (by decide)
  have hl : Shell.Last demoModel = some ⟨3, 1, 4, 3, 7, 8⟩ := by decide
  have h2' : Shell.Last demoModel = some l := h2
  rw [hl] at h2'
  simp only [Option.some.injEq] at h2'
  refine ⟨hprep, s1, l, newShells, h1, h2, ?_, h5, h6⟩
  rw [← h2']

theorem mem_createdUpTo (env : Env) (nodeA nodeB : Node) (nv : Vec3) (nid0 k x : ℕ)
    (hx : x < k) (hmid : ¬ |armOffset env.footWidth env.halfThk x| < planeTol) :
    aEntry env nodeA nv nid0 x ∈ createdUpTo env nodeA nodeB nv nid0 k ∧
      bEntry env nodeB nv nid0 x ∈ createdUpTo env nodeA nodeB nv nid0 k := by
  unfold createdUpTo
  constructor
  · rw [List.mem_flatMap]
    exact ⟨x, List.mem_range.mpr hx, by simp [hmid]⟩
  · rw [List.mem_flatMap]
    exact ⟨x, List.mem_range.mpr hx, by simp [hmid]⟩

/-- C9: for a flagged shell that passes lines 110-146 with local edge nodes
`nodeA = LclNodes[0]` and `nodeB = LclNodes[1]` and normal `n`, each arm has
`footNum + 1` entries; at an index `x` whose offset `c` has `|c| < 1e-6` the
entries are `nodeA` and `nodeB` themselves, at any other index they are nodes
at `nodeA + n * c` and `nodeB + n * c` that are in the model after the
node-building loop, carry labels above every label present before, and are
flagged with `WallFootFlag`. -/
theorem C9_arm_entries (env : Env) (s : LoopState) (sh : Shell) (pr : Prep) (N : ℕ)
    (hprep : shellPrep env s sh = Except.ok pr) (hN : env.footNum = (N : ℤ)) :
    pr.lcl.getD 0 none = some pr.nodeA ∧ pr.lcl.getD 1 none = some pr.nodeB ∧
      (armsOf env s sh pr).aArm.length = N + 1 ∧ (armsOf env s sh pr).bArm.length = N + 1 ∧
      ∀ x, x ≤ N → ∃ a b,
        (armsOf env s sh pr).aArm.get? x = some a ∧ (armsOf env s sh pr).bArm.get? x = some b ∧
        (|armOffset env.footWidth env.halfThk x| < planeTol → a = pr.nodeA ∧ b = pr.nodeB) ∧
        (¬ |armOffset env.footWidth env.halfThk x| < planeTol →
          a.x = pr.nodeA.x + (env.NormalVector sh).x * armOffset env.footWidth env.halfThk x ∧
          a.y = pr.nodeA.y + (env.NormalVector sh).y * armOffset env.footWidth env.halfThk x ∧
          a.z = pr.nodeA.z + (env.NormalVector sh).z * armOffset env.footWidth env.halfThk x ∧
          b.x = pr.nodeB.x + (env.NormalVector sh).x * armOffset env.footWidth env.halfThk x ∧
          b.y = pr.nodeB.y + (env.NormalVector sh).y * armOffset env.footWidth env.halfThk x ∧
          b.z = pr.nodeB.z + (env.NormalVector sh).z * armOffset env.footWidth env.halfThk x ∧
          a ∈ (armsOf env s sh pr).m.nodes ∧ b ∈ (armsOf env s sh pr).m.nodes ∧
          (∀ old ∈ s.m.nodes, old.nid < a.nid ∧ old.nid < b.nid) ∧
          a.nid ∈ (armsOf env s sh pr).WallFootFlag ∧
          b.nid ∈ (armsOf env s sh pr).WallFootFlag) := by
  obtain ⟨hlA, hlB, hlast⟩ := shellPrep_ok env s sh pr hprep
  obtain ⟨hA, hB, hnodes, -, hwf⟩ := armsOf_eq env s sh pr N hN
  obtain ⟨-, hmax⟩ := lastBy_mem_max Node.nid s.m.nodes pr.last hlast
  refine ⟨hlA, hlB, by rw [hA]; simp, by rw [hB]; simp, ?_⟩
  intro x hx
  refine ⟨aEntry env pr.nodeA (env.NormalVector sh) (pr.last.nid + 1) x,
    bEntry env pr.nodeB (env.NormalVector sh) (pr.last.nid + 1) x, ?_, ?_, ?_, ?_⟩
  · simp [hA, List.getElem?_range (by omega : x < N + 1)]
  · simp [hB, List.getElem?_range (by omega : x < N + 1)]
  · intro hmid
    simp [aEntry, bEntry, hmid]
  · intro hmid
    obtain ⟨ma, mb⟩ := mem_createdUpTo env pr.nodeA pr.nodeB (env.NormalVector sh)
      (pr.last.nid + 1) (N + 1) x (by omega) hmid
    refine ⟨?_, ?_, ?_, ?_, ?_, ?_, ?_, ?_, ?_, ?_, ?_⟩
    · simp [aEntry, hmid, offsetNode]
    · simp [aEntry, hmid, offsetNode]
    · simp [aEntry, hmid, offsetNode]
    · simp [bEntry, hmid, offsetNode]
    · simp [bEntry, hmid, offsetNode]
    · simp [bEntry, hmid, offsetNode]
    · rw [hnodes]
      exact List.mem_append_right _ ma
    · rw [hnodes]
      exact List.mem_append_right _ mb
    · intro old hold
      have := hmax old hold
      simp only [aEntry, bEntry, hmid, if_false, offsetNode]
      omega
    · rw [hwf]
      exact List.mem_append_right _ (List.mem_map_of_mem _ ma)
    · rw [hwf]
      exact List.mem_append_right _ (List.mem_map_of_mem _ mb)

/-- Witness of C9 on the sample: shell 1, processed first, with local edge
nodes 1 and 2, has arms of 3 entries. -/
theorem C9_arm_entries_witness :
    shellPrep (demoEnv [1]) (initState demoModel) ⟨1, 1, 1, 2, 3, 4⟩ = Except.ok demoPrep ∧
      (demoEnv [1]).footNum = ((2 : ℕ) : ℤ) ∧
      (armsOf (demoEnv [1]) (initState demoModel) ⟨1, 1, 1, 2, 3, 4⟩ demoPrep).aArm.length
        = 2 + 1 :=
  ⟨by decide!, rfl,
    (C9_arm_entries (demoEnv [1]) (initState demoModel) ⟨1, 1, 1, 2, 3, 4⟩ demoPrep 2
      (by decide!) rfl).2.2.1⟩

/-! ## The merge tolerance -/

theorem run_done (sqrt : ℚ → ℚ) (NormalVector : Shell → Vec3)
    (Merge : Model → List ℕ → ℚ → Model) (sel : Selection) (m : Model) (s : LoopState)
    (tol : ℚ) (merged : Model)
    (h : run sqrt NormalVector Merge sel m = Outcome.done s tol merged) :
    ∃ E1 E2 rest thick fw, Node.GetFlagged m sel.bNodeSet = E1 :: E2 :: rest ∧
      resolveThick m sel.bShellSet = Except.ok thick ∧
      (footSetup thick sel.width).footWidth = some fw ∧
      mainLoop (runEnv sqrt NormalVector sel m E1 E2 thick fw) m.shells (initState m)
        = Except.ok s ∧
      tol = mergeTol s.minEdgeLen fw ∧ merged = Merge s.m s.WallFootFlag tol := by
  unfold run at h
  split at h
  · simp at h
  · split at h
    · rename_i E1 E2 rest hg
      split at h
      · simp at h
      · rename_i thick ht
        simp only at h
        split at h
        · split at h <;> simp at h
        · rename_i fw hfw
          split at h
          · simp at h
          · rename_i s0 hs0
            simp only [Outcome.done.injEq] at h
            obtain ⟨h1, h2, h3⟩ := h
            subst h1
            exact ⟨E1, E2, rest, thick, fw, hg, ht, hfw, hs0, h2.symm, by rw [← h3, h2]⟩
    · simp at h

/-- When the main loop ends, `minEdgeLen` is the minimum of 1 and the rung
lengths at x = 0 and x = footNum of the processed shells. -/
theorem mainLoop_minEdgeLen (env : Env) (allShells : List Shell) (m : Model) (s : LoopState)
    (N : ℕ) (hN : env.footNum = (N : ℤ))
    (h : mainLoop env allShells (initState m) = Except.ok s) :
    s.minEdgeLen = (rungs env.sqrt N s.log).foldl min 1 :=
  (mainLoop_induct env
    (fun t => t.minEdgeLen = (rungs env.sqrt N t.log).foldl min 1 ∧
      (rungs env.sqrt N t.log).length = 2 * t.log.length)
    (fun t sh t1 ht hstep => shellStep_minEdgeLen env N hN t t1 sh ht hstep)
    allShells (initState m) s ⟨rfl, rfl⟩ h).1

theorem mergeTol_le (me fw : ℚ) : mergeTol me fw ≤ 2 / 5 * me := by
  unfold mergeTol
  have := min_le_left me fw
  linarith

/-- A run with a finite `footWidth` that reaches line 222 passes to
`Node.Merge` the tolerance `0.4 * min(minEdgeLen, footWidth)`; it is at most
`0.4 * minEdgeLen`, and at most 0.4 times the length of the rung at x = 0 and
of the rung at x = footNum of every processed shell. -/
theorem merge_tolerance_finite (sqrt : ℚ → ℚ) (NormalVector : Shell → Vec3)
    (Merge : Model → List ℕ → ℚ → Model) (sel : Selection) (m : Model) (s : LoopState)
    (tol : ℚ) (merged : Model)
    (h : run sqrt NormalVector Merge sel m = Outcome.done s tol merged) :
    ∃ thick fw, resolveThick m sel.bShellSet = Except.ok thick ∧
      (footSetup thick sel.width).footWidth = some fw ∧
      tol = 2 / 5 * min s.minEdgeLen fw ∧
      merged = Merge s.m s.WallFootFlag tol ∧
      tol ≤ 2 / 5 * s.minEdgeLen ∧
      ∀ N : ℕ, (footSetup thick sel.width).footNum = (N : ℤ) →
        ∀ d ∈ rungs sqrt N s.log, tol ≤ 2 / 5 * d := by
  obtain ⟨E1, E2, rest, thick, fw, -, ht, hfw, hloop, htol, hm⟩ :=
    run_done sqrt NormalVector Merge sel m s tol merged h
  refine ⟨thick, fw, ht, hfw, htol, hm, ?_, ?_⟩
  · rw [htol]
    exact mergeTol_le _ _
  · intro N hN d hd
    have hmin := mainLoop_minEdgeLen (runEnv sqrt NormalVector sel m E1 E2 thick fw) m.shells m s
      N hN hloop
    have hle : s.minEdgeLen ≤ d := by
      rw [hmin]
      exact foldl_min_le_mem _ _ _ hd
    have := mergeTol_le s.minEdgeLen fw
    rw [htol]
    linarith

/-- C11, at the input: the sample with thickness 10, the entered width 30,
shell 1 flagged and edge nodes 1 and 2.  `footNum` is 0 and `footWidth` is
`Infinity`; the run reaches line 222 with two nodes 9 and 10 of `NaN`
coordinates, `minEdgeLen = NaN`, and calls `Node.Merge` with the tolerance
`NaN`, for which `tol <= 0.4 * minEdgeLen` is false. -/
theorem C11_tolerance_not_a_number :
    run Rat.sqrt demoNormal demoMerge (wideSel [1] [1, 2]) demoModel
        = Outcome.doneNaN wideFinal JSNum.nan ∧
      wideFinal.minEdgeLen = JSNum.nan ∧
      JSNum.le JSNum.nan (JSNum.scale (2 / 5) wideFinal.minEdgeLen) = false ∧
      (footSetup 10 (wideSel [1] [1, 2]).width).footNum = 0 := by
  decide!

/-! ## The frozen plane normal -/

theorem mainLoop_append (env : Env) (l1 l2 : List Shell) (s : LoopState) :
    mainLoop env (l1 ++ l2) s
      = match mainLoop env l1 s with
        | Except.error e => Except.error e
        | Except.ok s1 => mainLoop env l2 s1 := by
  unfold mainLoop
  rw [List.foldlM_append]
  cases List.foldlM (loopIter env) s l1 <;> rfl

theorem mainLoop_append_ok (env : Env) (l1 l2 : List Shell) (s s2 : LoopState)
    (h : mainLoop env (l1 ++ l2) s = Except.ok s2) :
    ∃ s1, mainLoop env l1 s = Except.ok s1 ∧ mainLoop env l2 s1 = Except.ok s2 := by
  rw [mainLoop_append] at h
  cases h1 : mainLoop env l1 s with
  | error e => rw [h1] at h; simp at h
  | ok s1 =>
    rw [h1] at h
    exact ⟨s1, rfl, h⟩

theorem mainLoop_cons_flagged_ok (env : Env) (sh : Shell) (l : List Shell) (s s2 : LoopState)
    (hsh : sh.eid ∈ env.bShellSet) (h : mainLoop env (sh :: l) s = Except.ok s2) :
    ∃ s1, shellStep env s sh = Except.ok s1 ∧ mainLoop env l s1 = Except.ok s2 := by
  unfold mainLoop at h ⊢
  rw [List.foldlM_cons] at h
  have hl : loopIter env s sh = shellStep env s sh := by
    unfold loopIter
    rw [if_pos hsh]
  rw [hl] at h
  cases h1 : shellStep env s sh with
  | error e => rw [h1] at h; simp [bind, Except.bind] at h
  | ok s1 =>
    rw [h1] at h
    exact ⟨s1, rfl, h⟩

theorem mainLoop_unflagged_ok (env : Env) (pre : List Shell) (s : LoopState)
    (hpre : ∀ t ∈ pre, t.eid ∉ env.bShellSet) : mainLoop env pre s = Except.ok s :=
  mainLoop_unflagged env pre s hpre

theorem shellPrep_fnv (env : Env) (s : LoopState) (sh : Shell) (pr : Prep)
    (h : shellPrep env s sh = Except.ok pr) :
    (∀ f, s.footNormalVec = some f → pr.fnv = f) ∧
      (s.footNormalVec = none →
        footNormalOf env.sqrt env.edgeVec (env.NormalVector sh) = Except.ok pr.fnv) ∧
      ∃ n, classify s.m env.EdgeNode1 pr.fnv s.LclNodes sh = Except.ok (pr.lcl, n) := by
  unfold shellPrep at h
  simp only at h
  split at h
  · simp at h
  · rename_i fnv hfnv
    split at h
    · simp at h
    · rename_i lcl n hc
      split at h
      · simp only [Except.ok.injEq] at h
        subst h
        refine ⟨?_, ?_, n, hc⟩
        · intro f hf
          rw [hf] at hfnv
          simp only [Except.ok.injEq] at hfnv
          exact hfnv.symm
        · intro hf
          rw [hf] at hfnv
          exact hfnv
      · simp at h

theorem shellStep_fnv (env : Env) (s s1 : LoopState) (sh : Shell)
    (h : shellStep env s sh = Except.ok s1) :
    ∃ pr, shellPrep env s sh = Except.ok pr ∧ s1.footNormalVec = some pr.fnv := by
  obtain ⟨pr, hp, hb⟩ := shellStep_ok env s s1 sh h
  obtain ⟨m1, nrb, -, -, -, -, e3, -⟩ := shellBuild_ok env s s1 sh pr hb
  exact ⟨pr, hp, e3⟩

theorem mainLoop_fnv_frozen (env : Env) (fnv : Option (List ℚ)) (l : List Shell)
    (s s1 : LoopState) (hs : s.footNormalVec = some fnv)
    (h : mainLoop env l s = Except.ok s1) : s1.footNormalVec = some fnv := by
  refine mainLoop_induct env (fun t => t.footNormalVec = some fnv) ?_ l s s1 hs h
  intro t sh t1 ht hstep
  obtain ⟨pr, hp, h1⟩ := shellStep_fnv env t t1 sh hstep
  rw [h1, (shellPrep_fnv env t sh pr hp).1 fnv ht]

/-- C15: in a traversal that the main loop completes, let `first` be the first
flagged shell.  The plane normal used to classify the corners of `first` and
of every later flagged shell, and left in `footNormalVec`, is the one value
`vec_norm(CrossProduct(edgeVec, normal of first))`; the normals of the later
shells do not enter it. -/
theorem C15_frozen_normal (env : Env) (m : Model) (pre rest : List Shell) (first : Shell)
    (s : LoopState) (hpre : ∀ t ∈ pre, t.eid ∉ env.bShellSet)
    (hfirst : first.eid ∈ env.bShellSet)
    (h : mainLoop env (pre ++ first :: rest) (initState m) = Except.ok s) :
    ∃ fnv, footNormalOf env.sqrt env.edgeVec (env.NormalVector first) = Except.ok fnv ∧
      (∃ pr0, shellPrep env (initState m) first = Except.ok pr0 ∧ pr0.fnv = fnv) ∧
      s.footNormalVec = some fnv ∧
      ∀ r1 sh r2, rest = r1 ++ sh :: r2 → sh.eid ∈ env.bShellSet →
        ∃ s1 pr, mainLoop env (pre ++ first :: r1) (initState m) = Except.ok s1 ∧
          shellPrep env s1 sh = Except.ok pr ∧ pr.fnv = fnv := by
  obtain ⟨s0, h0, h1⟩ := mainLoop_append_ok env pre (first :: rest) (initState m) s h
  have hs0 : s0 = initState m := by
    have := mainLoop_unflagged env pre (initState m) hpre
    unfold mainLoop at h0
    rw [this] at h0
    simp only [Except.ok.injEq] at h0
    exact h0.symm
  subst hs0
  obtain ⟨sA, hA, hrest⟩ := mainLoop_cons_flagged_ok env first rest _ s hfirst h1
  obtain ⟨pr0, hp0, hfA⟩ := shellStep_fnv env _ sA first hA
  have hf0 := (shellPrep_fnv env _ first pr0 hp0).2.1 rfl
  refine ⟨pr0.fnv, hf0, ⟨pr0, hp0, rfl⟩, mainLoop_fnv_frozen env pr0.fnv rest sA s hfA hrest, ?_⟩
  intro r1 sh r2 hsplit hsh
  subst hsplit
  obtain ⟨s1, hr1, hr2⟩ := mainLoop_append_ok env r1 (sh :: r2) sA s hrest
  obtain ⟨s2, hstep, -⟩ := mainLoop_cons_flagged_ok env sh r2 s1 s hsh hr2
  obtain ⟨pr, hp, -⟩ := shellStep_fnv env s1 s2 sh hstep
  have hfs1 := mainLoop_fnv_frozen env pr0.fnv r1 sA s1 hfA hr1
  refine ⟨s1, pr, ?_, hp, (shellPrep_fnv env s1 sh pr hp).1 _ hfs1⟩
  rw [mainLoop_append, mainLoop_unflagged_ok env pre (initState m) hpre]
  show mainLoop env (first :: r1) (initState m) = Except.ok s1
  have : mainLoop env (first :: r1) (initState m) = mainLoop env r1 sA := by
    unfold mainLoop
    rw [List.foldlM_cons]
    have hl : loopIter env (initState m) first = Except.ok sA := by
      unfold loopIter
      rw [if_pos hfirst]
      exact hA
    rw [hl]
    rfl
  rw [this]
  exact hr1

/-- Witness of C15 on the sample with shells 1 and 2 flagged: the normal left
by the loop is the one of shell 1, `(0, -1, 0)`. -/
theorem C15_frozen_normal_witness :
    mainLoop (demoEnv [1, 2]) ([] ++ ⟨1, 1, 1, 2, 3, 4⟩ :: [⟨2, 1, 2, 5, 6, 3⟩, ⟨3, 1, 4, 3, 7, 8⟩])
        (initState demoModel) = Except.ok demoFinal ∧
      footNormalOf Rat.sqrt [2, 0, 0] ⟨0, 0, 1⟩ = Except.ok (some [0, -1, 0]) ∧
      ∃ fnv, footNormalOf (demoEnv [1, 2]).sqrt (demoEnv [1, 2]).edgeVec
          ((demoEnv [1, 2]).NormalVector ⟨1, 1, 1, 2, 3, 4⟩) = Except.ok fnv ∧
        demoFinal.footNormalVec = some fnv := by
  obtain ⟨fnv, h1, -, h3, -⟩ := C15_frozen_normal (demoEnv [1, 2]) demoModel []
    [⟨2, 1, 2, 5, 6, 3⟩, ⟨3, 1, 4, 3, 7, 8⟩] ⟨1, 1, 1, 2, 3, 4⟩ demoFinal (by decide) (by decide)
    (by decide!)
  exact ⟨by decide!, by decide!, fnv, h1, h3⟩

/-! ## Vector functions -/

theorem CrossProduct_ok (a b c : List ℚ) (h : CrossProduct a b = Except.ok c) :
    3 ≤ a.length ∧ 3 ≤ b.length ∧
      c = [a.getD 1 0 * b.getD 2 0 - b.getD 1 0 * a.getD 2 0,
           b.getD 0 0 * a.getD 2 0 - a.getD 0 0 * b.getD 2 0,
           a.getD 0 0 * b.getD 1 0 - b.getD 0 0 * a.getD 1 0] := by
  unfold CrossProduct at h
  split at h
  · simp at h
  · rename_i hlen
    simp only [Except.ok.injEq] at h
    exact ⟨by omega, by omega, h.symm⟩

theorem DotProduct_three (a0 a1 a2 b0 b1 b2 : ℚ) :
    DotProduct [a0, a1, a2] [b0, b1, b2] = Except.ok (a0 * b0 + a1 * b1 + a2 * b2) := by
  simp [DotProduct]

theorem DotProduct_ok_three (a0 a1 a2 d : ℚ) (f : List ℚ)
    (h : DotProduct [a0, a1, a2] f = Except.ok d) :
    ∃ f0 f1 f2, f = [f0, f1, f2] ∧ d = a0 * f0 + a1 * f1 + a2 * f2 := by
  unfold DotProduct at h
  split at h
  · simp at h
  · rename_i hlen
    match f, hlen with
    | [f0, f1, f2], _ =>
      simp only [Except.ok.injEq] at h
      refine ⟨f0, f1, f2, rfl, ?_⟩
      rw [← h]
      simp
    | [], hl => simp at hl
    | [_], hl => simp at hl
    | [_, _], hl => simp at hl
    | _ :: _ :: _ :: _ :: _, hl => simp at hl

theorem normSq_pos (c0 c1 c2 : ℚ) (h : [c0, c1, c2] ≠ [0, 0, 0]) : 0 < normSq [c0, c1, c2] := by
  simp only [normSq, List.getD_cons_zero, List.getD_cons_succ]
  by_contra hle
  have h0 := sq_nonneg c0
  have h1 := sq_nonneg c1
  have h2 := sq_nonneg c2
  have e0 : c0 ^ 2 = 0 := by linarith
  have e1 : c1 ^ 2 = 0 := by linarith
  have e2 : c2 ^ 2 = 0 := by linarith
  apply h
  rw [pow_eq_zero_iff (by norm_num)] at e0 e1 e2
  rw [e0, e1, e2]

theorem footNormalOf_some (sqrt : ℚ → ℚ) (edgeVec : List ℚ) (n : Vec3) (c0 c1 c2 : ℚ)
    (hc : CrossProduct edgeVec n.toList = Except.ok [c0, c1, c2])
    (hmag : sqrt (normSq [c0, c1, c2]) ≠ 0) :
    footNormalOf sqrt edgeVec n
      = Except.ok (some [c0 / sqrt (normSq [c0, c1, c2]), c1 / sqrt (normSq [c0, c1, c2]),
          c2 / sqrt (normSq [c0, c1, c2])]) := by
  unfold footNormalOf
  rw [hc]
  simp only [normSq, List.getD_cons_zero, List.getD_cons_succ] at hmag
  simp [vec_norm, normSq, hmag]

theorem edgeCheck_some (m : Model) (E node : Node) (f0 f1 f2 : ℚ) (id : ℕ)
    (hnode : Node.GetFromID m id = some node) :
    edgeCheck m E (some [f0, f1, f2]) id
      = Except.ok (decide (|planeOffset E [f0, f1, f2] node| < planeTol)) := by
  unfold edgeCheck
  rw [hnode]
  simp only [DotProduct_three]
  simp [planeOffset]

theorem planeOffset_div (E node : Node) (c0 c1 c2 mag : ℚ) :
    planeOffset E [c0 / mag, c1 / mag, c2 / mag] node = planeOffset E [c0, c1, c2] node / mag := by
  simp only [planeOffset, List.getD_cons_zero, List.getD_cons_succ]
  ring

/-- Counterexample to C17: with the 4-component array `a = (1, 0, 0, 7)` and
`b = (0, 1, 0)` the cross product is `(0, 0, 1)`, and `DotProduct` of it with
`a` is not 0: it stops with "Arrays different lengths". -/
theorem C17_dot_with_long_array_counterexample :
    CrossProduct [1, 0, 0, 7] [0, 1, 0] = Except.ok [0, 0, 1] ∧
      DotProduct [0, 0, 1] [1, 0, 0, 7] = Except.error Err.arraysDifferentLengths ∧
      DotProduct [0, 0, 1] [1, 0, 0, 7] ≠ Except.ok 0 := by
  decide!

/-- C17 as amended: `CrossProduct(a, b)` stops with an error exactly when `a`
or `b` has fewer than 3 components; otherwise it returns the cross product
`(a1*b2 - a2*b1, a2*b0 - a0*b2, a0*b1 - a1*b0)` of the first three components,
whose `DotProduct` with the first three components of `a` and of `b` is 0, and
with `a` (resp. `b`) itself when it has exactly 3 components. -/
theorem C17_cross_product (a b : List ℚ) :
    (CrossProduct a b = Except.error Err.arraysTooShort ↔ (a.length < 3 ∨ b.length < 3)) ∧
      ((∃ e, CrossProduct a b = Except.error e) ↔ (a.length < 3 ∨ b.length < 3)) ∧
      (¬ (a.length < 3 ∨ b.length < 3) →
        CrossProduct a b
          = Except.ok [a.getD 1 0 * b.getD 2 0 - a.getD 2 0 * b.getD 1 0,
              a.getD 2 0 * b.getD 0 0 - a.getD 0 0 * b.getD 2 0,
              a.getD 0 0 * b.getD 1 0 - a.getD 1 0 * b.getD 0 0] ∧
        ∃ c, CrossProduct a b = Except.ok c ∧ c.length = 3 ∧
          DotProduct c (a.take 3) = Except.ok 0 ∧ DotProduct c (b.take 3) = Except.ok 0 ∧
          (a.length = 3 → DotProduct c a = Except.ok 0) ∧
          (b.length = 3 → DotProduct c b = Except.ok 0)) := by
  by_cases hshort : a.length < 3 ∨ b.length < 3
  · have herr : CrossProduct a b = Except.error Err.arraysTooShort := by
      unfold CrossProduct
      rw [if_pos hshort]
    refine ⟨⟨fun _ => hshort, fun _ => herr⟩, ⟨fun _ => hshort, fun _ => ⟨_, herr⟩⟩, ?_⟩
    intro h
    exact absurd hshort h
  · have hok : CrossProduct a b
        = Except.ok [a.getD 1 0 * b.getD 2 0 - b.getD 1 0 * a.getD 2 0,
            b.getD 0 0 * a.getD 2 0 - a.getD 0 0 * b.getD 2 0,
            a.getD 0 0 * b.getD 1 0 - b.getD 0 0 * a.getD 1 0] := by
      unfold CrossProduct
      rw [if_neg hshort]
    refine ⟨⟨fun h => ?_, fun h => absurd h hshort⟩, ⟨fun h => ?_, fun h => absurd h hshort⟩, ?_⟩
    · rw [hok] at h
      simp at h
    · obtain ⟨e, he⟩ := h
      rw [hok] at he
      simp at he
    · intro _
      have hta : ∀ l : List ℚ, ¬ l.length < 3 →
          l.take 3 = [l.getD 0 0, l.getD 1 0, l.getD 2 0] := by
        intro l hl
        match l, hl with
        | x :: y :: z :: r, _ => simp
        | [], hl => simp at hl
        | [_], hl => simp at hl
        | [_, _], hl => simp at hl
      have ha := hta a (fun h => hshort (Or.inl h))
      have hb := hta b (fun h => hshort (Or.inr h))
      have hda : DotProduct [a.getD 1 0 * b.getD 2 0 - b.getD 1 0 * a.getD 2 0,
            b.getD 0 0 * a.getD 2 0 - a.getD 0 0 * b.getD 2 0,
            a.getD 0 0 * b.getD 1 0 - b.getD 0 0 * a.getD 1 0] (a.take 3) = Except.ok 0 := by
        rw [ha, DotProduct_three]
        congr 1
        ring
      have hdb : DotProduct [a.getD 1 0 * b.getD 2 0 - b.getD 1 0 * a.getD 2 0,
            b.getD 0 0 * a.getD 2 0 - a.getD 0 0 * b.getD 2 0,
            a.getD 0 0 * b.getD 1 0 - b.getD 0 0 * a.getD 1 0] (b.take 3) = Except.ok 0 := by
        rw [hb, DotProduct_three]
        congr 1
        ring
      refine ⟨?_, _, hok, rfl, hda, hdb, ?_, ?_⟩
      · rw [hok]
        have e0 : a.getD 1 0 * b.getD 2 0 - b.getD 1 0 * a.getD 2 0
            = a.getD 1 0 * b.getD 2 0 - a.getD 2 0 * b.getD 1 0 := by ring
        have e1 : b.getD 0 0 * a.getD 2 0 - a.getD 0 0 * b.getD 2 0
            = a.getD 2 0 * b.getD 0 0 - a.getD 0 0 * b.getD 2 0 := by ring
        have e2 : a.getD 0 0 * b.getD 1 0 - b.getD 0 0 * a.getD 1 0
            = a.getD 0 0 * b.getD 1 0 - a.getD 1 0 * b.getD 0 0 := by ring
        rw [e0, e1, e2]
      · intro h3
        have : a.take 3 = a := List.take_of_length_le (by omega)
        rw [this] at hda
        exact hda
      · intro h3
        have : b.take 3 = b := List.take_of_length_le (by omega)
        rw [this] at hdb
        exact hdb

/-- Witness of the amended C17 at `a = (1, 0, 0)`, `b = (0, 1, 0)`. -/
theorem C17_cross_product_witness :
    ¬ (([1, 0, 0] : List ℚ).length < 3 ∨ ([0, 1, 0] : List ℚ).length < 3) ∧
      CrossProduct [1, 0, 0] [0, 1, 0]
        = Except.ok [([1, 0, 0] : List ℚ).getD 1 0 * ([0, 1, 0] : List ℚ).getD 2 0
              - ([1, 0, 0] : List ℚ).getD 2 0 * ([0, 1, 0] : List ℚ).getD 1 0,
            ([1, 0, 0] : List ℚ).getD 2 0 * ([0, 1, 0] : List ℚ).getD 0 0
              - ([1, 0, 0] : List ℚ).getD 0 0 * ([0, 1, 0] : List ℚ).getD 2 0,
            ([1, 0, 0] : List ℚ).getD 0 0 * ([0, 1, 0] : List ℚ).getD 1 0
              - ([1, 0, 0] : List ℚ).getD 1 0 * ([0, 1, 0] : List ℚ).getD 0 0] :=
  ⟨by decide, ((C17_cross_product [1, 0, 0] [0, 1, 0]).2.2 (by decide)).1⟩

/-! ## Rungs and edge segments -/

theorem aEntry_coords (env : Env) (A : Node) (nv : Vec3) (nid0 x : ℕ) :
    (aEntry env A nv nid0 x).x = A.x + nv.x * effOffset env x ∧
      (aEntry env A nv nid0 x).y = A.y + nv.y * effOffset env x ∧
      (aEntry env A nv nid0 x).z = A.z + nv.z * effOffset env x := by
  unfold aEntry effOffset
  split <;> simp [offsetNode]

theorem bEntry_coords (env : Env) (B : Node) (nv : Vec3) (nid0 x : ℕ) :
    (bEntry env B nv nid0 x).x = B.x + nv.x * effOffset env x ∧
      (bEntry env B nv nid0 x).y = B.y + nv.y * effOffset env x ∧
      (bEntry env B nv nid0 x).z = B.z + nv.z * effOffset env x := by
  unfold bEntry effOffset
  split <;> simp [offsetNode]

theorem rung_displacement (env : Env) (A B : Node) (nv : Vec3) (nid0 nid1 x : ℕ) :
    (aEntry env A nv nid0 x).x - (bEntry env B nv nid1 x).x = A.x - B.x ∧
      (aEntry env A nv nid0 x).y - (bEntry env B nv nid1 x).y = A.y - B.y ∧
      (aEntry env A nv nid0 x).z - (bEntry env B nv nid1 x).z = A.z - B.z := by
  obtain ⟨a1, a2, a3⟩ := aEntry_coords env A nv nid0 x
  obtain ⟨b1, b2, b3⟩ := bEntry_coords env B nv nid1 x
  rw [a1, a2, a3, b1, b2, b3]
  refine ⟨by ring, by ring, by ring⟩

theorem rung_edgeLen (env : Env) (A B : Node) (nv : Vec3) (nid0 nid1 x : ℕ) :
    edgeLen env.sqrt (aEntry env A nv nid0 x) (bEntry env B nv nid1 x) = edgeLen env.sqrt A B := by
  obtain ⟨h1, h2, h3⟩ := rung_displacement env A B nv nid0 nid1 x
  unfold edgeLen
  rw [h1, h2, h3]

theorem shellStep_edgeSegs (env : Env) (N : ℕ) (hN : env.footNum = (N : ℤ))
    (s s1 : LoopState) (sh : Shell)
    (hs : (∀ r ∈ s.log, ArmsBuilt env N r) ∧
      s.minEdgeLen = (edgeSegs env.sqrt s.log).foldl min 1)
    (h : shellStep env s sh = Except.ok s1) :
    (∀ r ∈ s1.log, ArmsBuilt env N r) ∧
      s1.minEdgeLen = (edgeSegs env.sqrt s1.log).foldl min 1 := by
  obtain ⟨pr, -, hb⟩ := shellStep_ok env s s1 sh h
  obtain ⟨m1, nrb, -, -, -, -, -, e4, -, -, e7⟩ := shellBuild_ok env s s1 sh pr hb
  obtain ⟨hA, hB, -, -, -⟩ := armsOf_eq env s sh pr N hN
  have harms := buildArms_eq env pr.nodeA pr.nodeB (env.NormalVector sh) s.m (pr.last.nid + 1)
    s.WallFootFlag s.minEdgeLen N hN
  constructor
  · intro r hr
    rw [e7, List.mem_append, List.mem_singleton] at hr
    rcases hr with hr | hr
    · exact hs.1 r hr
    · subst hr
      exact ⟨env.NormalVector sh, pr.last.nid + 1, hA, hB⟩
  · rw [e4, e7]
    unfold armsOf
    rw [harms]
    simp only [edgeSegs, List.map_append, List.map_cons, List.map_nil, List.foldl_append,
      List.foldl_cons, List.foldl_nil]
    rw [minUpTo_full env pr.nodeA pr.nodeB _ _ s.minEdgeLen N hN, rung_edgeLen, rung_edgeLen,
      min_assoc, min_self, hs.2]
    rfl

theorem mainLoop_edgeSegs (env : Env) (allShells : List Shell) (m : Model) (s : LoopState)
    (N : ℕ) (hN : env.footNum = (N : ℤ))
    (h : mainLoop env allShells (initState m) = Except.ok s) :
    (∀ r ∈ s.log, ArmsBuilt env N r) ∧
      s.minEdgeLen = (edgeSegs env.sqrt s.log).foldl min 1 :=
  mainLoop_induct env
    (fun t => (∀ r ∈ t.log, ArmsBuilt env N r) ∧
      t.minEdgeLen = (edgeSegs env.sqrt t.log).foldl min 1)
    (fun t sh t1 ht hstep => shellStep_edgeSegs env N hN t t1 sh ht hstep)
    allShells (initState m) s ⟨fun r hr => by simp [initState] at hr, rfl⟩ h

/-- C19 as amended, in exact arithmetic: when the main loop ends (with
`footNum = N`), for every processed shell and every index `x` in `0..footNum`
the rung `aArm[x]`-`bArm[x]` has the displacement vector, and so the length,
of the segment between the two local edge nodes of that shell; and
`minEdgeLen` is the minimum of 1 and the lengths of those segments over the
processed shells. -/
theorem C19_rungs_equal_edge (env : Env) (allShells : List Shell) (m : Model) (s : LoopState)
    (N : ℕ) (hN : env.footNum = (N : ℤ))
    (h : mainLoop env allShells (initState m) = Except.ok s) :
    (∀ r ∈ s.log, ∀ x, x ≤ N → ∃ a b, r.aArm.get? x = some a ∧ r.bArm.get? x = some b ∧
        a.x - b.x = r.nodeA.x - r.nodeB.x ∧ a.y - b.y = r.nodeA.y - r.nodeB.y ∧
        a.z - b.z = r.nodeA.z - r.nodeB.z ∧
        edgeLen env.sqrt a b = edgeLen env.sqrt r.nodeA r.nodeB) ∧
      s.minEdgeLen = (edgeSegs env.sqrt s.log).foldl min 1 ∧
      s.minEdgeLen ≤ 1 ∧
      (∀ r ∈ s.log, s.minEdgeLen ≤ edgeLen env.sqrt r.nodeA r.nodeB) ∧
      (s.minEdgeLen = 1 ∨ ∃ r ∈ s.log, s.minEdgeLen = edgeLen env.sqrt r.nodeA r.nodeB) := by
  obtain ⟨hrec, hmin⟩ := mainLoop_edgeSegs env allShells m s N hN h
  refine ⟨?_, hmin, ?_, ?_, ?_⟩
  · intro r hr x hx
    obtain ⟨nv, nid0, hA, hB⟩ := hrec r hr
    obtain ⟨d1, d2, d3⟩ := rung_displacement env r.nodeA r.nodeB nv nid0 nid0 x
    refine ⟨aEntry env r.nodeA nv nid0 x, bEntry env r.nodeB nv nid0 x, ?_, ?_, d1, d2, d3,
      rung_edgeLen env r.nodeA r.nodeB nv nid0 nid0 x⟩
    · simp [hA, List.getElem?_range (by omega : x < N + 1)]
    · simp [hB, List.getElem?_range (by omega : x < N + 1)]
  · rw [hmin]
    exact foldl_min_le_init _ _
  · intro r hr
    rw [hmin]
    exact foldl_min_le_mem _ _ _ (List.mem_map_of_mem _ hr)
  · rcases foldl_min_mem (edgeSegs env.sqrt s.log) 1 with h1 | h1
    · left
      rw [hmin, h1]
    · right
      unfold edgeSegs at h1
      obtain ⟨r, hr, hre⟩ := List.mem_map.mp h1
      exact ⟨r, hr, by rw [hmin]; exact hre.symm⟩

/-- Witness of the amended C19 on the sample with shells 1 and 2 flagged:
both edge
segments have length 2 and `minEdgeLen` is 1. -/
theorem C19_rungs_equal_edge_witness :
    mainLoop (demoEnv [1, 2]) demoModel.shells (initState demoModel) = Except.ok demoFinal ∧
      (demoEnv [1, 2]).footNum = ((2 : ℕ) : ℤ) ∧
      edgeSegs (demoEnv [1, 2]).sqrt demoFinal.log = [2, 2] ∧
      demoFinal.minEdgeLen = (edgeSegs (demoEnv [1, 2]).sqrt demoFinal.log).foldl min 1 :=
  ⟨by decide!, rfl, by decide!,
    (C19_rungs_equal_edge (demoEnv [1, 2]) demoModel.shells demoModel demoFinal 2 rfl
      (by decide!)).2.1⟩

/-! ## Spacing of the layers -/

theorem armOffset_even (fw h : ℚ) (k x : ℕ) (hh : h = fw * ((k + k : ℕ) : ℚ) / 2) :
    armOffset fw h x = fw * ((x : ℚ) - (k : ℚ)) := by
  unfold armOffset
  rw [hh]
  push_cast
  ring

theorem natCast_sub_abs_ge_one (x k : ℕ) (h : x ≠ k) : (1 : ℚ) ≤ |(x : ℚ) - (k : ℚ)| := by
  have hz : (1 : ℤ) ≤ |(x : ℤ) - (k : ℤ)| := by
    apply Int.one_le_abs
    omega
  have : ((1 : ℤ) : ℚ) ≤ ((|(x : ℤ) - (k : ℤ)| : ℤ) : ℚ) := by exact_mod_cast hz
  simpa using this

/-- With an even layer count `k + k`, `halfThk = footWidth * footNum / 2` and
`footWidth` not below the tolerance, the offset is within the tolerance at the
middle index `k` only, where it is 0. -/
theorem mid_iff (fw h : ℚ) (k x : ℕ) (hfw : planeTol ≤ fw)
    (hh : h = fw * ((k + k : ℕ) : ℚ) / 2) :
    |armOffset fw h x| < planeTol ↔ x = k := by
  have htol : (0 : ℚ) < planeTol := by norm_num [planeTol]
  rw [armOffset_even fw h k x hh]
  constructor
  · intro hlt
    by_contra hne
    have h1 := natCast_sub_abs_ge_one x k hne
    rw [abs_mul, abs_of_pos (lt_of_lt_of_le htol hfw)] at hlt
    have : fw * 1 ≤ fw * |(x : ℚ) - (k : ℚ)| :=
      mul_le_mul_of_nonneg_left h1 (le_of_lt (lt_of_lt_of_le htol hfw))
    linarith
  · intro hx
    rw [hx]
    simpa using htol

theorem effOffset_even (env : Env) (k x : ℕ) (hfw : planeTol ≤ env.footWidth)
    (hh : env.halfThk = env.footWidth * ((k + k : ℕ) : ℚ) / 2) :
    effOffset env x = env.footWidth * ((x : ℚ) - (k : ℚ)) := by
  unfold effOffset
  by_cases hmid : |armOffset env.footWidth env.halfThk x| < planeTol
  · rw [if_pos hmid]
    have hx := (mid_iff env.footWidth env.halfThk k x hfw hh).mp hmid
    rw [hx]
    simp
  · rw [if_neg hmid]
    exact armOffset_even env.footWidth env.halfThk k x hh

theorem mergeTol_lt_footWidth (me fw : ℚ) (hfw : 0 < fw) : mergeTol me fw < fw := by
  unfold mergeTol
  have := min_le_right me fw
  linarith

theorem layer_dist (sqrt : ℚ → ℚ) (hsqrt : ∀ q, sqrt (q * q) = |q|) (nv : Vec3)
    (hunit : nv.x ^ 2 + nv.y ^ 2 + nv.z ^ 2 = 1) (P Q : Node) (p q : Node) (e e1 : ℚ)
    (hp : p.x = P.x + nv.x * e ∧ p.y = P.y + nv.y * e ∧ p.z = P.z + nv.z * e)
    (hq : q.x = Q.x + nv.x * e1 ∧ q.y = Q.y + nv.y * e1 ∧ q.z = Q.z + nv.z * e1)
    (hPQ : P = Q) : edgeLen sqrt p q = |e - e1| := by
  subst hPQ
  unfold edgeLen
  rw [hp.1, hp.2.1, hp.2.2, hq.1, hq.2.1, hq.2.2, ← hsqrt (e - e1)]
  congr 1
  have : (P.x + nv.x * e - (P.x + nv.x * e1)) ^ 2 + (P.y + nv.y * e - (P.y + nv.y * e1)) ^ 2
      + (P.z + nv.z * e - (P.z + nv.z * e1)) ^ 2
      = (nv.x ^ 2 + nv.y ^ 2 + nv.z ^ 2) * ((e - e1) * (e - e1)) := by ring
  rw [this, hunit, one_mul]

/-- Counterexample to C13 on the sample with thickness 1e-6 and shell 1
flagged: `footWidth` is 5e-7 and `footWidth * footNum` is the thickness, the
normal has length 1, yet every offset is within the 1e-6 tolerance, so all
three entries of arm a are node 1: the entries at x = 0 and x = 1 are at
distance 0, not `footWidth`, and 0 is below the merge tolerance 2e-7. -/
theorem C13_layer_spacing_counterexample :
    footSetup (1 / 1000000) 0
        = { footNum := 2, footWidth := some (1 / 2000000), halfThk := 1 / 2000000 } ∧
      normSq (demoNormal ⟨1, 1, 1, 2, 3, 4⟩).toList = 1 ∧
      (Outcome.state (run Rat.sqrt demoNormal demoMerge (demoSel [1] [1, 2]) filmModel)).map
          (fun s => s.log.map (fun r => (r.aArm, r.bArm)))
        = some [([⟨1, 0, 0, 0⟩, ⟨1, 0, 0, 0⟩, ⟨1, 0, 0, 0⟩],
            [⟨2, 2, 0, 0⟩, ⟨2, 2, 0, 0⟩, ⟨2, 2, 0, 0⟩])] ∧
      Outcome.tol (run Rat.sqrt demoNormal demoMerge (demoSel [1] [1, 2]) filmModel)
        = some (1 / 5000000) ∧
      edgeLen Rat.sqrt ⟨1, 0, 0, 0⟩ ⟨1, 0, 0, 0⟩ = 0 ∧
      ¬ (edgeLen Rat.sqrt ⟨1, 0, 0, 0⟩ ⟨1, 0, 0, 0⟩ = |(0 : ℚ) - 1| * (1 / 2000000)) ∧
      ¬ ((1 / 5000000 : ℚ) < edgeLen Rat.sqrt ⟨1, 0, 0, 0⟩ ⟨1, 0, 0, 0⟩) := by
  decide!

/-- C13 as amended: for an even `footNum`, `footWidth` not below 1e-6 with
`footWidth * footNum` the thickness (`halfThk` half of it), a normal of length
1 and an exact square root, any two entries of the same arm at different
indices `x`, `y` are at distance `|x - y| * footWidth`, which is at least
`footWidth` and strictly above the tolerance `0.4 * min(minEdgeLen, footWidth)`
for every value of `minEdgeLen`. -/
theorem C13_layer_spacing (env : Env) (s : LoopState) (sh : Shell) (pr : Prep) (N : ℕ)
    (hN : env.footNum = (N : ℤ)) (hev : Even N) (hfw : planeTol ≤ env.footWidth)
    (hh : env.halfThk = env.footWidth * (N : ℚ) / 2)
    (hunit : normSq (env.NormalVector sh).toList = 1)
    (hsqrt : ∀ q, env.sqrt (q * q) = |q|)
    (x y : ℕ) (hx : x ≤ N) (hy : y ≤ N) (hxy : x ≠ y) (minEdgeLen : ℚ) :
    ∃ a a1 b b1, (armsOf env s sh pr).aArm.get? x = some a ∧
      (armsOf env s sh pr).aArm.get? y = some a1 ∧
      (armsOf env s sh pr).bArm.get? x = some b ∧
      (armsOf env s sh pr).bArm.get? y = some b1 ∧
      edgeLen env.sqrt a a1 = |(x : ℚ) - (y : ℚ)| * env.footWidth ∧
      edgeLen env.sqrt b b1 = |(x : ℚ) - (y : ℚ)| * env.footWidth ∧
      env.footWidth ≤ |(x : ℚ) - (y : ℚ)| * env.footWidth ∧
      mergeTol minEdgeLen env.footWidth < |(x : ℚ) - (y : ℚ)| * env.footWidth := by
  obtain ⟨k, hk⟩ := hev
  subst hk
  have htol : (0 : ℚ) < planeTol := by norm_num [planeTol]
  have hpos : 0 < env.footWidth := lt_of_lt_of_le htol hfw
  obtain ⟨hA, hB, -, -, -⟩ := armsOf_eq env s sh pr (k + k) hN
  have hu : (env.NormalVector sh).x ^ 2 + (env.NormalVector sh).y ^ 2
      + (env.NormalVector sh).z ^ 2 = 1 := by
    simpa [normSq, Vec3.toList] using hunit
  have hex := effOffset_even env k x hfw hh
  have hey := effOffset_even env k y hfw hh
  have hd : |effOffset env x - effOffset env y| = |(x : ℚ) - (y : ℚ)| * env.footWidth := by
    rw [hex, hey]
    have : env.footWidth * ((x : ℚ) - (k : ℚ)) - env.footWidth * ((y : ℚ) - (k : ℚ))
        = ((x : ℚ) - (y : ℚ)) * env.footWidth := by ring
    rw [this, abs_mul, abs_of_pos hpos]
  have h1 := natCast_sub_abs_ge_one x y hxy
  have hge : env.footWidth ≤ |(x : ℚ) - (y : ℚ)| * env.footWidth := by
    have := mul_le_mul_of_nonneg_right h1 (le_of_lt hpos)
    linarith
  refine ⟨aEntry env pr.nodeA (env.NormalVector sh) (pr.last.nid + 1) x,
    aEntry env pr.nodeA (env.NormalVector sh) (pr.last.nid + 1) y,
    bEntry env pr.nodeB (env.NormalVector sh) (pr.last.nid + 1) x,
    bEntry env pr.nodeB (env.NormalVector sh) (pr.last.nid + 1) y, ?_, ?_, ?_, ?_, ?_, ?_, hge,
    lt_of_lt_of_le (mergeTol_lt_footWidth minEdgeLen env.footWidth hpos) hge⟩
  · simp [hA, List.getElem?_range (by omega : x < k + k + 1)]
  · simp [hA, List.getElem?_range (by omega : y < k + k + 1)]
  · simp [hB, List.getElem?_range (by omega : x < k + k + 1)]
  · simp [hB, List.getElem?_range (by omega : y < k + k + 1)]
  · rw [← hd]
    exact layer_dist env.sqrt hsqrt (env.NormalVector sh) hu pr.nodeA pr.nodeA _ _ _ _
      (aEntry_coords env pr.nodeA _ _ x) (aEntry_coords env pr.nodeA _ _ y) rfl
  · rw [← hd]
    exact layer_dist env.sqrt hsqrt (env.NormalVector sh) hu pr.nodeB pr.nodeB _ _ _ _
      (bEntry_coords env pr.nodeB _ _ x) (bEntry_coords env pr.nodeB _ _ y) rfl

/-- Witness of the amended C13 on the sample: shell 1, thickness 10, two layers
of width 5, indices 0 and 2. -/
theorem C13_layer_spacing_witness :
    (demoEnv [1]).footNum = ((2 : ℕ) : ℤ) ∧ Even 2 ∧ planeTol ≤ (demoEnv [1]).footWidth ∧
      ∃ a a1, (armsOf (demoEnv [1]) (initState demoModel) ⟨1, 1, 1, 2, 3, 4⟩ demoPrep).aArm.get? 0
          = some a ∧
        (armsOf (demoEnv [1]) (initState demoModel) ⟨1, 1, 1, 2, 3, 4⟩ demoPrep).aArm.get? 2
          = some a1 ∧
        edgeLen (demoEnv [1]).sqrt a a1 = |((0 : ℕ) : ℚ) - ((2 : ℕ) : ℚ)| * (demoEnv [1]).footWidth := by
  obtain ⟨a, a1, b, b1, h1, h2, -, -, h5, -⟩ := C13_layer_spacing (demoEnv [1])
    (initState demoModel) ⟨1, 1, 1, 2, 3, 4⟩ demoPrep 2 rfl (by decide) (by decide!) (by decide!)
    (by decide!) (fun q => Rat.sqrt_eq q) 0 2 (by decide) (by decide) (by decide) 1
  exact ⟨rfl, by decide, by decide!, a, a1, h1, h2, h5⟩

/-! ## The local edge nodes are accepted nodes of the model -/

theorem edgeCheck_true (m : Model) (E : Node) (fnv : Option (List ℚ)) (id : ℕ)
    (h : edgeCheck m E fnv id = Except.ok true) :
    ∃ node, Node.GetFromID m id = some node ∧ node ∈ m.nodes ∧ Accepted E fnv node := by
  unfold edgeCheck at h
  split at h
  · simp at h
  · rename_i node hnode
    simp only at h
    split at h
    · simp at h
    · rename_i f
      split at h
      · simp at h
      · rename_i d hd
        simp only [Except.ok.injEq, decide_eq_true_eq] at h
        refine ⟨node, hnode, ?_, f, d, rfl, hd, h⟩
        unfold Node.GetFromID at hnode
        exact List.mem_of_find?_eq_some hnode

theorem classifyCorner_acc (m : Model) (E : Node) (fnv : Option (List ℚ))
    (acc r : List (Option Node) × ℕ) (id : ℕ)
    (h : classifyCorner m E fnv acc id = Except.ok r) (i : ℕ) (node : Node)
    (hi : r.1.getD i none = some node) :
    acc.1.getD i none = some node ∨ (node ∈ m.nodes ∧ Accepted E fnv node) := by
  unfold classifyCorner at h
  split at h
  · simp at h
  · simp only [Except.ok.injEq] at h
    subst h
    exact Or.inl hi
  · rename_i hcheck
    simp only [Except.ok.injEq] at h
    subst h
    obtain ⟨node1, hget, hmem, hacc⟩ := edgeCheck_true m E fnv id hcheck
    simp only [List.getD_eq_getElem?_getD] at hi ⊢
    by_cases hia : acc.2 = i
    · right
      rw [List.getElem?_set, if_pos hia, hget] at hi
      split at hi
      · simp only [Option.getD_some, Option.some.injEq] at hi
        subst hi
        exact ⟨hmem, hacc⟩
      · simp at hi
    · left
      rw [List.getElem?_set_ne hia] at hi
      exact hi

theorem classify_acc (m : Model) (E : Node) (fnv : Option (List ℚ))
    (L lcl : List (Option Node)) (sh : Shell) (n : ℕ)
    (h : classify m E fnv L sh = Except.ok (lcl, n)) (i : ℕ) (node : Node)
    (hi : lcl.getD i none = some node) :
    L.getD i none = some node ∨ (node ∈ m.nodes ∧ Accepted E fnv node) := by
  unfold classify at h
  split at h
  · simp at h
  · rename_i a1 h1
    split at h
    · simp at h
    · rename_i a2 h2
      split at h
      · simp at h
      · rename_i a3 h3
        rcases classifyCorner_acc m E fnv a3 (lcl, n) sh.n4 h i node hi with g | g
        · rcases classifyCorner_acc m E fnv a2 a3 sh.n3 h3 i node g with g | g
          · rcases classifyCorner_acc m E fnv a1 a2 sh.n2 h2 i node g with g | g
            · exact classifyCorner_acc m E fnv (L, 0) a1 sh.n1 h1 i node g
            · exact Or.inr g
          · exact Or.inr g
        · exact Or.inr g

theorem prep_slots (env : Env) (s : LoopState) (sh : Shell) (pr : Prep) (hs : SlotsOK env s)
    (h : shellPrep env s sh = Except.ok pr) (i : ℕ) (node : Node)
    (hi : pr.lcl.getD i none = some node) :
    node ∈ s.m.nodes ∧ Accepted env.EdgeNode1 pr.fnv node := by
  obtain ⟨hf, -, n, hc⟩ := shellPrep_fnv env s sh pr h
  rcases classify_acc s.m env.EdgeNode1 pr.fnv s.LclNodes pr.lcl sh n hc i node hi with g | g
  · obtain ⟨hmem, fnv, hfs, hacc⟩ := hs i node g
    rw [hf fnv hfs]
    exact ⟨hmem, hacc⟩
  · exact g

theorem armsOf_nodes_sub (env : Env) (s : LoopState) (sh : Shell) (pr : Prep) (node : Node)
    (h : node ∈ s.m.nodes) : node ∈ (armsOf env s sh pr).m.nodes := by
  unfold armsOf buildArms armRange
  rw [armsUpTo]
  exact List.mem_append_left _ h

theorem shellStep_slotsOK (env : Env) (s s1 : LoopState) (sh : Shell) (hs : SlotsOK env s)
    (h : shellStep env s sh = Except.ok s1) : SlotsOK env s1 := by
  obtain ⟨pr, hp, hb⟩ := shellStep_ok env s s1 sh h
  obtain ⟨m1, nrb, hm1, hnrb, e1, e2, e3, -⟩ := shellBuild_ok env s s1 sh pr hb
  obtain ⟨k1, -, -⟩ := buildShells_keeps env _ _ _ m1 hm1
  intro i node hi
  rw [e2] at hi
  obtain ⟨hmem, hacc⟩ := prep_slots env s sh pr hs hp i node hi
  refine ⟨?_, pr.fnv, e3, hacc⟩
  rw [e1, hnrb, (buildNRBs_keeps _ _ _ _ _).1]
  show node ∈ m1.nodes
  rw [k1]
  exact armsOf_nodes_sub env s sh pr node hmem

theorem mainLoop_slotsOK (env : Env) (l : List Shell) (m : Model) (s : LoopState)
    (h : mainLoop env l (initState m) = Except.ok s) : SlotsOK env s := by
  refine mainLoop_induct env (SlotsOK env) (fun t sh t1 ht hstep =>
    shellStep_slotsOK env t t1 sh ht hstep) l (initState m) s ?_ h
  intro i node hi
  exfalso
  simp only [initState, List.getD_eq_getElem?_getD] at hi
  match i, hi with
  | 0, hi => simp at hi
  | 1, hi => simp at hi
  | 2, hi => simp at hi
  | 3, hi => simp at hi
  | _ + 4, hi => simp at hi

theorem prep_nodes (env : Env) (s : LoopState) (sh : Shell) (pr : Prep) (hs : SlotsOK env s)
    (h : shellPrep env s sh = Except.ok pr) :
    (pr.nodeA ∈ s.m.nodes ∧ Accepted env.EdgeNode1 pr.fnv pr.nodeA) ∧
      (pr.nodeB ∈ s.m.nodes ∧ Accepted env.EdgeNode1 pr.fnv pr.nodeB) := by
  obtain ⟨hA, hB, -⟩ := shellPrep_ok env s sh pr h
  exact ⟨prep_slots env s sh pr hs h 0 pr.nodeA hA, prep_slots env s sh pr hs h 1 pr.nodeB hB⟩

/-! ## Foot shells and the foot plane -/

theorem footNormalOf_inv (sqrt : ℚ → ℚ) (ev : List ℚ) (n : Vec3) (f : List ℚ)
    (h : footNormalOf sqrt ev n = Except.ok (some f)) :
    ∃ c0 c1 c2 mag, CrossProduct ev n.toList = Except.ok [c0, c1, c2] ∧ mag ≠ 0 ∧
      f = [c0 / mag, c1 / mag, c2 / mag] := by
  unfold footNormalOf at h
  cases hc : CrossProduct ev n.toList with
  | error e => rw [hc] at h; simp at h
  | ok c =>
    rw [hc] at h
    obtain ⟨-, -, hcv⟩ := CrossProduct_ok _ _ _ hc
    simp only [Except.ok.injEq] at h
    rw [hcv] at h ⊢
    unfold vec_norm at h
    simp only [List.getD_cons_zero, List.getD_cons_succ] at h
    split at h
    · simp at h
    · rename_i hne
      simp only [Option.some.injEq] at h
      refine ⟨_, _, _, _, rfl, ?_, h.symm⟩
      intro h0
      exact hne (Or.inr h0)

theorem normal_orth_first (sqrt : ℚ → ℚ) (ev : List ℚ) (n : Vec3) (f : List ℚ)
    (h : footNormalOf sqrt ev n = Except.ok (some f)) :
    DotProduct n.toList f = Except.ok 0 := by
  obtain ⟨c0, c1, c2, mag, hc, hmag, hf⟩ := footNormalOf_inv sqrt ev n f h
  obtain ⟨-, -, hcv⟩ := CrossProduct_ok _ _ _ hc
  simp only [Vec3.toList, List.getD_cons_zero, List.getD_cons_succ, List.cons.injEq,
    and_true] at hcv
  obtain ⟨e0, e1, e2⟩ := hcv
  rw [hf]
  simp only [Vec3.toList]
  rw [DotProduct_three, e0, e1, e2]
  congr 1
  field_simp
  ring

theorem accepted_offset (E : Node) (f : List ℚ) (node : Node)
    (h : Accepted E (some f) node) :
    ∃ f0 f1 f2, f = [f0, f1, f2] ∧ |planeOffset E f node| < planeTol := by
  obtain ⟨g, d, hg, hd, hlt⟩ := h
  simp only [Option.some.injEq] at hg
  subst hg
  unfold relVec at hd
  obtain ⟨f0, f1, f2, hf, hdv⟩ := DotProduct_ok_three _ _ _ d f hd
  refine ⟨f0, f1, f2, hf, ?_⟩
  rw [hf]
  simp only [planeOffset, List.getD_cons_zero, List.getD_cons_succ]
  rw [← hdv]
  exact hlt

theorem offset_along_normal (E P p : Node) (nv : Vec3) (f0 f1 f2 e : ℚ)
    (hp : p.x = P.x + nv.x * e ∧ p.y = P.y + nv.y * e ∧ p.z = P.z + nv.z * e)
    (horth : DotProduct nv.toList [f0, f1, f2] = Except.ok 0) :
    planeOffset E [f0, f1, f2] p = planeOffset E [f0, f1, f2] P := by
  simp only [Vec3.toList] at horth
  rw [DotProduct_three] at horth
  simp only [Except.ok.injEq] at horth
  simp only [planeOffset, List.getD_cons_zero, List.getD_cons_succ]
  rw [hp.1, hp.2.1, hp.2.2]
  have : (P.x + nv.x * e - E.x) * f0 + (P.y + nv.y * e - E.y) * f1 + (P.z + nv.z * e - E.z) * f2
      = (P.x - E.x) * f0 + (P.y - E.y) * f1 + (P.z - E.z) * f2
        + e * (nv.x * f0 + nv.y * f1 + nv.z * f2) := by ring
  rw [this, horth]
  ring

theorem quad_planar (A B a0 a1 b1 b0 : Node) (nv : Vec3) (e0 e1 : ℚ)
    (h0 : a0.x = A.x + nv.x * e0 ∧ a0.y = A.y + nv.y * e0 ∧ a0.z = A.z + nv.z * e0)
    (h1 : a1.x = A.x + nv.x * e1 ∧ a1.y = A.y + nv.y * e1 ∧ a1.z = A.z + nv.z * e1)
    (g1 : b1.x = B.x + nv.x * e1 ∧ b1.y = B.y + nv.y * e1 ∧ b1.z = B.z + nv.z * e1)
    (g0 : b0.x = B.x + nv.x * e0 ∧ b0.y = B.y + nv.y * e0 ∧ b0.z = B.z + nv.z * e0) :
    tripleProduct a0 a1 b1 b0 = 0 ∧ a1.x - a0.x = b1.x - b0.x ∧ a1.y - a0.y = b1.y - b0.y ∧
      a1.z - a0.z = b1.z - b0.z := by
  unfold tripleProduct
  rw [h0.1, h0.2.1, h0.2.2, h1.1, h1.2.1, h1.2.2, g1.1, g1.2.1, g1.2.2, g0.1, g0.2.1, g0.2.2]
  refine ⟨by ring, by ring, by ring, by ring⟩

/-- Counterexample to C14 on `bentModel` with shells 1 and 4 flagged.  Shell 1
is processed first and fixes the foot-plane normal `(0, -1, 0)`.  Shell 4 has
the local edge nodes 5 and 9 and the normal `(3/5, 4/5, 0)`; the plane defined
by that normal and the edge direction `(2, 0, 0)` has the normal `(0, 0, 1)`.
Its new foot shells are 7 and 8; corner 17 of shell 7 is not within the
tolerance of that plane through edge node 5, and corner 16 is not within the
tolerance of the foot plane through `EdgeNode1`. -/
theorem C14_bent_shell_counterexample :
    footNormalOf Rat.sqrt [2, 0, 0] (bentNormal ⟨4, 1, 5, 11, 10, 9⟩)
        = Except.ok (some [0, 0, 1]) ∧
      (Outcome.state (run Rat.sqrt bentNormal demoMerge (demoSel [1, 4] [1, 2]) bentModel)).map
          (fun s => (s.footNormalVec, s.log.map (fun r => (r.eid, r.nodeA.nid, r.nodeB.nid)),
            s.m.shells.drop 6))
        = some (some (some [0, -1, 0]), [(1, 1, 2), (4, 5, 9)],
            [⟨7, 2, 16, 5, 9, 17⟩, ⟨8, 2, 5, 18, 19, 9⟩]) ∧
      (Outcome.state (run Rat.sqrt bentNormal demoMerge (demoSel [1, 4] [1, 2]) bentModel)).map
          (fun s => edgeCheck s.m ⟨5, 4, 0, 0⟩ (some [0, 0, 1]) 17)
        = some (Except.ok false) ∧
      (Outcome.state (run Rat.sqrt bentNormal demoMerge (demoSel [1, 4] [1, 2]) bentModel)).map
          (fun s => edgeCheck s.m ⟨1, 0, 0, 0⟩ (some [0, -1, 0]) 16)
        = some (Except.ok false) := by
  refine ⟨by decide!, by decide!, by decide!, by decide!⟩

/-- C14 as amended: let the loop have reached the state `s` and the flagged
shell `sh` pass lines 110-146.  Every new foot shell of `sh` is planar, a
parallelogram.  The plane normal `f` in force is finite; the normal of the
first processed shell is orthogonal to it; and for every shell whose normal is
orthogonal to `f`, every arm entry, so every corner of every new foot shell,
is at the signed distance of its parent edge node from the foot plane through
`EdgeNode1` orthogonal to `f`, which is within the 1e-6 tolerance. -/
theorem C14_foot_plane (env : Env) (m : Model) (pre : List Shell) (s : LoopState) (sh : Shell)
    (pr : Prep) (N : ℕ) (hreach : mainLoop env pre (initState m) = Except.ok s)
    (hprep : shellPrep env s sh = Except.ok pr) (hN : env.footNum = (N : ℤ)) :
    ∃ f, pr.fnv = some f ∧
      (s.footNormalVec = none → DotProduct (env.NormalVector sh).toList f = Except.ok 0) ∧
      (∀ x, x < N → ∃ a0 a1 b1 b0,
        (armsOf env s sh pr).aArm.get? x = some a0 ∧
        (armsOf env s sh pr).aArm.get? (x + 1) = some a1 ∧
        (armsOf env s sh pr).bArm.get? (x + 1) = some b1 ∧
        (armsOf env s sh pr).bArm.get? x = some b0 ∧
        tripleProduct a0 a1 b1 b0 = 0 ∧ a1.x - a0.x = b1.x - b0.x ∧
        a1.y - a0.y = b1.y - b0.y ∧ a1.z - a0.z = b1.z - b0.z) ∧
      (DotProduct (env.NormalVector sh).toList f = Except.ok 0 →
        ∀ x, x ≤ N → ∃ a b,
          (armsOf env s sh pr).aArm.get? x = some a ∧
          (armsOf env s sh pr).bArm.get? x = some b ∧
          planeOffset env.EdgeNode1 f a = planeOffset env.EdgeNode1 f pr.nodeA ∧
          planeOffset env.EdgeNode1 f b = planeOffset env.EdgeNode1 f pr.nodeB ∧
          |planeOffset env.EdgeNode1 f a| < planeTol ∧
          |planeOffset env.EdgeNode1 f b| < planeTol) := by
  have hslots := mainLoop_slotsOK env pre m s hreach
  obtain ⟨⟨-, hAacc⟩, ⟨-, hBacc⟩⟩ := prep_nodes env s sh pr hslots hprep
  obtain ⟨hA, hB, -, -, -⟩ := armsOf_eq env s sh pr N hN
  have hAacc1 := hAacc
  obtain ⟨f, d, hf, -, -⟩ := hAacc1
  rw [hf] at hAacc hBacc
  obtain ⟨f0, f1, f2, hf3, hoffA⟩ := accepted_offset env.EdgeNode1 f pr.nodeA hAacc
  obtain ⟨-, -, -, -, hoffB⟩ := accepted_offset env.EdgeNode1 f pr.nodeB hBacc
  refine ⟨f, hf, ?_, ?_, ?_⟩
  · intro hnone
    have h1 := (shellPrep_fnv env s sh pr hprep).2.1 hnone
    rw [hf] at h1
    exact normal_orth_first env.sqrt env.edgeVec (env.NormalVector sh) f h1
  · intro x hx
    refine ⟨aEntry env pr.nodeA (env.NormalVector sh) (pr.last.nid + 1) x,
      aEntry env pr.nodeA (env.NormalVector sh) (pr.last.nid + 1) (x + 1),
      bEntry env pr.nodeB (env.NormalVector sh) (pr.last.nid + 1) (x + 1),
      bEntry env pr.nodeB (env.NormalVector sh) (pr.last.nid + 1) x, ?_, ?_, ?_, ?_, ?_⟩
    · simp [hA, List.getElem?_range (by omega : x < N + 1)]
    · simp [hA, List.getElem?_range (by omega : x + 1 < N + 1)]
    · simp [hB, List.getElem?_range (by omega : x + 1 < N + 1)]
    · simp [hB, List.getElem?_range (by omega : x < N + 1)]
    · exact quad_planar pr.nodeA pr.nodeB _ _ _ _ (env.NormalVector sh) (effOffset env x)
        (effOffset env (x + 1)) (aEntry_coords env pr.nodeA _ _ x)
        (aEntry_coords env pr.nodeA _ _ (x + 1)) (bEntry_coords env pr.nodeB _ _ (x + 1))
        (bEntry_coords env pr.nodeB _ _ x)
  · intro horth x hx
    rw [hf3] at horth
    have ea := offset_along_normal env.EdgeNode1 pr.nodeA
      (aEntry env pr.nodeA (env.NormalVector sh) (pr.last.nid + 1) x) (env.NormalVector sh)
      f0 f1 f2 (effOffset env x) (aEntry_coords env pr.nodeA _ _ x) horth
    have eb := offset_along_normal env.EdgeNode1 pr.nodeB
      (bEntry env pr.nodeB (env.NormalVector sh) (pr.last.nid + 1) x) (env.NormalVector sh)
      f0 f1 f2 (effOffset env x) (bEntry_coords env pr.nodeB _ _ x) horth
    rw [← hf3] at ea eb
    refine ⟨aEntry env pr.nodeA (env.NormalVector sh) (pr.last.nid + 1) x,
      bEntry env pr.nodeB (env.NormalVector sh) (pr.last.nid + 1) x, ?_, ?_, ea, eb, ?_, ?_⟩
    · simp [hA, List.getElem?_range (by omega : x < N + 1)]
    · simp [hB, List.getElem?_range (by omega : x < N + 1)]
    · rw [ea]
      exact hoffA
    · rw [eb]
      exact hoffB

/-- Witness of the amended C14 on the sample: shell 1 at the start of the
loop. -/
theorem C14_foot_plane_witness :
    mainLoop (demoEnv [1]) [] (initState demoModel) = Except.ok (initState demoModel) ∧
      shellPrep (demoEnv [1]) (initState demoModel) ⟨1, 1, 1, 2, 3, 4⟩ = Except.ok demoPrep ∧
      ∃ f, demoPrep.fnv = some f ∧
        ((initState demoModel).footNormalVec = none →
          DotProduct ((demoEnv [1]).NormalVector ⟨1, 1, 1, 2, 3, 4⟩).toList f = Except.ok 0) := by
  obtain ⟨f, h1, h2, -⟩ := C14_foot_plane (demoEnv [1]) demoModel [] (initState demoModel)
    ⟨1, 1, 1, 2, 3, 4⟩ demoPrep 2 rfl (by decide!) rfl
  exact ⟨rfl, by decide!, f, h1, h2⟩

/-! ## The middle index and the new node labels -/

theorem createdUpTo_succ (env : Env) (A B : Node) (nv : Vec3) (nid0 k : ℕ) :
    createdUpTo env A B nv nid0 (k + 1)
      = createdUpTo env A B nv nid0 k ++
        (if |armOffset env.footWidth env.halfThk k| < planeTol then []
         else [aEntry env A nv nid0 k, bEntry env B nv nid0 k]) := by
  unfold createdUpTo
  rw [List.range_succ, List.flatMap_append]
  simp

/-- The labels of the nodes created for `x < k` are consecutive from the first
label used. -/
theorem createdUpTo_nids (env : Env) (A B : Node) (nv : Vec3) (nid0 k : ℕ) :
    (createdUpTo env A B nv nid0 k).map Node.nid = List.range' nid0 (2 * newBefore env k) := by
  induction k with
  | zero => simp [createdUpTo, newBefore]
  | succ k ih =>
    rw [createdUpTo_succ, List.map_append, ih]
    by_cases hmid : |armOffset env.footWidth env.halfThk k| < planeTol
    · simp [newBefore, hmid]
    · have h2 : 2 * newBefore env (k + 1) = 2 * newBefore env k + 1 + 1 := by
        simp [newBefore, hmid]
        ring
      rw [h2, List.range'_1_concat, List.range'_1_concat]
      simp [hmid, aEntry, bEntry, offsetNode, Nat.add_assoc]

theorem newBefore_even (env : Env) (k : ℕ) (hfw : planeTol ≤ env.footWidth)
    (hh : env.halfThk = env.footWidth * ((k + k : ℕ) : ℚ) / 2) (x : ℕ) :
    newBefore env x = if x ≤ k then x else x - 1 := by
  induction x with
  | zero => simp [newBefore]
  | succ j ih =>
    unfold newBefore
    rw [ih]
    have hm := mid_iff env.footWidth env.halfThk k j hfw hh
    by_cases hjk : j = k
    · rw [if_pos (hm.mpr hjk)]
      subst hjk
      simp
    · rw [if_neg (fun h => hjk (hm.mp h))]
      by_cases hle : j ≤ k
      · have : j + 1 ≤ k := by omega
        rw [if_pos hle, if_pos this]
      · have : ¬ j + 1 ≤ k := by omega
        rw [if_neg hle, if_neg this]
        omega

theorem shellStep_nodes (env : Env) (s s1 : LoopState) (sh : Shell) (pr : Prep)
    (hprep : shellPrep env s sh = Except.ok pr) (h : shellStep env s sh = Except.ok s1) :
    s1.m.nodes = (armsOf env s sh pr).m.nodes := by
  obtain ⟨pr1, hp, hb⟩ := shellStep_ok env s s1 sh h
  rw [hprep] at hp
  simp only [Except.ok.injEq] at hp
  subst hp
  obtain ⟨m1, nrb, hm1, hnrb, e1, -⟩ := shellBuild_ok env s s1 sh pr hb
  obtain ⟨k1, -, -⟩ := buildShells_keeps env _ _ _ m1 hm1
  rw [e1, hnrb, (buildNRBs_keeps _ _ _ _ _).1]
  exact k1

/-- C20: let the loop have reached `s`, the flagged shell `sh` pass lines
110-146, `footNum = N` be even and at least 2, `footWidth = thick / N` be at
least 1e-6 and `halfThk = thick / 2`.  Then the offset is within the tolerance
at the index `N / 2` only; each arm holds its parent edge node at that index
and nowhere else, every other entry being a node created for this shell; and
exactly `2 * N` nodes are created, with the consecutive labels that start at
(largest node label before) + 1, and they are the only nodes the whole pass of
the loop body adds to the model. -/
theorem C20_single_mid_index (env : Env) (m : Model) (pre : List Shell) (s : LoopState)
    (sh : Shell) (pr : Prep) (N : ℕ) (thick : ℚ)
    (hreach : mainLoop env pre (initState m) = Except.ok s)
    (hprep : shellPrep env s sh = Except.ok pr) (hN : env.footNum = (N : ℤ))
    (hev : Even N) (h2 : 2 ≤ N) (hfw : env.footWidth = thick / (N : ℚ))
    (hge : planeTol ≤ env.footWidth) (hh : env.halfThk = thick / 2) :
    (∀ x : ℕ, |armOffset env.footWidth env.halfThk x| < planeTol ↔ x = N / 2) ∧
      Node.Last s.m = some pr.last ∧ (∀ old ∈ s.m.nodes, old.nid ≤ pr.last.nid) ∧
      ∃ created, (armsOf env s sh pr).m.nodes = s.m.nodes ++ created ∧
        created.length = 2 * N ∧
        created.map Node.nid = List.range' (pr.last.nid + 1) (2 * N) ∧
        (∀ s1, shellStep env s sh = Except.ok s1 → s1.m.nodes = s.m.nodes ++ created) ∧
        ∀ x, x ≤ N → ∃ a b,
          (armsOf env s sh pr).aArm.get? x = some a ∧
          (armsOf env s sh pr).bArm.get? x = some b ∧
          (a = pr.nodeA ↔ x = N / 2) ∧ (b = pr.nodeB ↔ x = N / 2) ∧
          (x ≠ N / 2 → a ∈ created ∧ b ∈ created) := by
  obtain ⟨k, hk⟩ := hev
  subst hk
  have hhalf : (k + k) / 2 = k := by omega
  rw [hhalf]
  have hNq : ((k + k : ℕ) : ℚ) ≠ 0 := by
    have : (0 : ℚ) < ((k + k : ℕ) : ℚ) := by exact_mod_cast (by omega : 0 < k + k)
    exact this.ne'
  have hh' : env.halfThk = env.footWidth * ((k + k : ℕ) : ℚ) / 2 := by
    rw [hh, hfw, div_mul_cancel₀ thick hNq]
  have hmid : ∀ x : ℕ, |armOffset env.footWidth env.halfThk x| < planeTol ↔ x = k :=
    fun x => mid_iff env.footWidth env.halfThk k x hge hh'
  obtain ⟨-, -, hlast⟩ := shellPrep_ok env s sh pr hprep
  obtain ⟨-, hmax⟩ := lastBy_mem_max Node.nid s.m.nodes pr.last hlast
  have hslots := mainLoop_slotsOK env pre m s hreach
  obtain ⟨⟨hAmem, -⟩, ⟨hBmem, -⟩⟩ := prep_nodes env s sh pr hslots hprep
  obtain ⟨hA, hB, hnodes, -, -⟩ := armsOf_eq env s sh pr (k + k) hN
  have hnb : newBefore env (k + k + 1) = k + k := by
    rw [newBefore_even env k hge hh' (k + k + 1)]
    have : ¬ k + k + 1 ≤ k := by omega
    rw [if_neg this]
    omega
  have hids := createdUpTo_nids env pr.nodeA pr.nodeB (env.NormalVector sh) (pr.last.nid + 1)
    (k + k + 1)
  rw [hnb] at hids
  refine ⟨hmid, hlast, hmax, _, hnodes, ?_, hids, ?_, ?_⟩
  · have := congrArg List.length hids
    simpa using this
  · intro s1 hs1
    rw [shellStep_nodes env s s1 sh pr hprep hs1, hnodes]
  · intro x hx
    refine ⟨aEntry env pr.nodeA (env.NormalVector sh) (pr.last.nid + 1) x,
      bEntry env pr.nodeB (env.NormalVector sh) (pr.last.nid + 1) x, ?_, ?_, ?_, ?_, ?_⟩
    · simp [hA, List.getElem?_range (by omega : x < k + k + 1)]
    · simp [hB, List.getElem?_range (by omega : x < k + k + 1)]
    · constructor
      · intro heq
        by_contra hne
        have hnm : ¬ |armOffset env.footWidth env.halfThk x| < planeTol :=
          fun h => hne ((hmid x).mp h)
        have hnid := congrArg Node.nid heq
        simp only [aEntry, hnm, if_false, offsetNode] at hnid
        have := hmax pr.nodeA hAmem
        omega
      · intro hxk
        simp [aEntry, (hmid x).mpr hxk]
    · constructor
      · intro heq
        by_contra hne
        have hnm : ¬ |armOffset env.footWidth env.halfThk x| < planeTol :=
          fun h => hne ((hmid x).mp h)
        have hnid := congrArg Node.nid heq
        simp only [bEntry, hnm, if_false, offsetNode] at hnid
        have := hmax pr.nodeB hBmem
        omega
      · intro hxk
        simp [bEntry, (hmid x).mpr hxk]
    · intro hne
      exact mem_createdUpTo env pr.nodeA pr.nodeB (env.NormalVector sh) (pr.last.nid + 1)
        (k + k + 1) x (by omega) (fun h => hne ((hmid x).mp h))

/-- Witness of C20 on the sample: shell 1 at the start of the loop, thickness
10, two layers of width 5; 4 nodes are created, with labels 9 to 12. -/
theorem C20_single_mid_index_witness :
    shellPrep (demoEnv [1]) (initState demoModel) ⟨1, 1, 1, 2, 3, 4⟩ = Except.ok demoPrep ∧
      (demoEnv [1]).footWidth = 10 / ((2 : ℕ) : ℚ) ∧ planeTol ≤ (demoEnv [1]).footWidth ∧
      (demoEnv [1]).halfThk = 10 / 2 ∧
      ∃ created,
        (armsOf (demoEnv [1]) (initState demoModel) ⟨1, 1, 1, 2, 3, 4⟩ demoPrep).m.nodes
          = (initState demoModel).m.nodes ++ created ∧
        created.length = 2 * 2 ∧
        created.map Node.nid = List.range' (demoPrep.last.nid + 1) (2 * 2) := by
  obtain ⟨-, -, -, created, h1, h2, h3, -, -⟩ := C20_single_mid_index (demoEnv [1]) demoModel []
    (initState demoModel) ⟨1, 1, 1, 2, 3, 4⟩ demoPrep 2 10 rfl (by decide!) rfl (by decide)
    (by decide) (by decide!) (by decide!) (by decide!)
  exact ⟨by decide!, by decide!, by decide!, by decide!, created, h1, h2, h3⟩

/-! ## Double-precision arithmetic -/

theorem footSetupR_exact (sqrt : ℚ → ℚ) (thick width : ℚ) :
    footSetupR (exactArith sqrt) thick width = footSetup thick width := rfl

theorem mergeTolR_exact (sqrt : ℚ → ℚ) (me fw : ℚ) :
    mergeTolR (exactArith sqrt) me fw = mergeTol me fw := rfl

theorem armOffsetR_exact (sqrt : ℚ → ℚ) (fw h : ℚ) (x : ℕ) :
    armOffsetR (exactArith sqrt) fw h x = armOffset fw h x := rfl

theorem offsetNodeR_exact (sqrt : ℚ → ℚ) (nid : ℕ) (p : Node) (n : Vec3) (c : ℚ) :
    offsetNodeR (exactArith sqrt) nid p n c = offsetNode nid p n c := rfl

theorem edgeLenR_exact (sqrt : ℚ → ℚ) (p q : Node) :
    edgeLenR (exactArith sqrt) p q = edgeLen sqrt p q := rfl

theorem CrossProductR_exact (sqrt : ℚ → ℚ) (u v : List ℚ) :
    CrossProductR (exactArith sqrt) u v = CrossProduct u v := rfl

theorem DotProductR_exact (sqrt : ℚ → ℚ) (u v : List ℚ) :
    DotProductR (exactArith sqrt) u v = DotProduct u v := rfl

theorem vec_normR_exact (sqrt : ℚ → ℚ) (v : List ℚ) :
    vec_normR (exactArith sqrt) v = vec_norm sqrt v := rfl

theorem edgeCheckR_exact (sqrt : ℚ → ℚ) (m : Model) (E : Node) (f : Option (List ℚ)) (id : ℕ) :
    edgeCheckR (exactArith sqrt) m E f id = edgeCheck m E f id := rfl

theorem footNormalOfR_exact (sqrt : ℚ → ℚ) (edgeVec : List ℚ) (n : Vec3) :
    footNormalOfR (exactArith sqrt) edgeVec n = footNormalOf sqrt edgeVec n := rfl

theorem nrbIter_eq_ids (arm : List Node) (lcl : Node) (st : NRBState) :
    nrbIter arm lcl st = nrbIterIds (arm.map Node.nid) lcl st := by
  unfold nrbIter nrbIterIds
  rw [List.foldl_map]

theorem pow2_eq (e : ℤ) : pow2 e = (2 : ℚ) ^ e := by
  unfold pow2
  split
  · rename_i h
    obtain ⟨k, rfl⟩ := Int.eq_ofNat_of_zero_le h
    simp
  · rename_i h
    have h' : 0 ≤ -e := by omega
    obtain ⟨k, hk⟩ := Int.eq_ofNat_of_zero_le h'
    have he : e = -(k : ℤ) := by omega
    rw [hk, he]
    simp

theorem pow2_pos (e : ℤ) : 0 < pow2 e := by
  rw [pow2_eq]
  positivity

theorem log2Fuel_spec : ∀ (fuel n : ℕ), n ≤ fuel → 1 ≤ n →
    2 ^ log2Fuel fuel n ≤ n ∧ n < 2 ^ (log2Fuel fuel n + 1)
  | 0, n, h, h1 => by omega
  | fuel + 1, n, h, h1 => by
    unfold log2Fuel
    split
    · rename_i h2
      have ih := log2Fuel_spec fuel (n / 2) (by omega) (by omega)
      obtain ⟨ih1, ih2⟩ := ih
      constructor
      · rw [pow_succ]
        omega
      · rw [pow_succ]
        omega
    · simp
      omega

theorem ilog2_spec (n : ℕ) (h : 1 ≤ n) : 2 ^ ilog2 n ≤ n ∧ n < 2 ^ (ilog2 n + 1) :=
  log2Fuel_spec n n le_rfl h

theorem binade_spec (q : ℚ) (hq : 0 < q) :
    (2 : ℚ) ^ binade q ≤ q ∧ q < (2 : ℚ) ^ (binade q + 1) := by
  have hnum : 0 < q.num := Rat.num_pos.mpr hq
  have hden : 0 < q.den := q.den_pos
  obtain ⟨a1, a2⟩ := ilog2_spec q.num.natAbs (by omega)
  obtain ⟨b1, b2⟩ := ilog2_spec q.den (by omega)
  have hqe : q = (q.num.natAbs : ℚ) / (q.den : ℚ) := by
    have : ((q.num.natAbs : ℤ) : ℚ) = (q.num : ℚ) := by
      rw [Int.natAbs_of_nonneg hnum.le]
    rw [← Int.cast_natCast, this]
    exact (Rat.num_div_den q).symm
  have hdq : (0 : ℚ) < (q.den : ℚ) := by exact_mod_cast hden
  have A1 : (2 : ℚ) ^ (ilog2 q.num.natAbs) ≤ (q.num.natAbs : ℚ) := by exact_mod_cast a1
  have A2 : (q.num.natAbs : ℚ) < (2 : ℚ) ^ (ilog2 q.num.natAbs + 1) := by exact_mod_cast a2
  have B1 : (2 : ℚ) ^ (ilog2 q.den) ≤ (q.den : ℚ) := by exact_mod_cast b1
  have B2 : (q.den : ℚ) < (2 : ℚ) ^ (ilog2 q.den + 1) := by exact_mod_cast b2
  set a := ilog2 q.num.natAbs
  set b := ilog2 q.den
  have hlow : (2 : ℚ) ^ ((a : ℤ) - (b : ℤ) - 1) ≤ q := by
    have e : (2 : ℚ) ^ ((a : ℤ) - (b : ℤ) - 1) = (2 : ℚ) ^ a / (2 : ℚ) ^ (b + 1) := by
      rw [show (a : ℤ) - (b : ℤ) - 1 = (a : ℤ) - ((b + 1 : ℕ) : ℤ) by push_cast; ring]
      rw [zpow_sub₀ (by norm_num), zpow_natCast, zpow_natCast]
    rw [e, hqe]
    apply div_le_div₀ (by positivity) A1 hdq B2.le
  have hhigh : q < (2 : ℚ) ^ ((a : ℤ) - (b : ℤ) + 1) := by
    have e : (2 : ℚ) ^ ((a : ℤ) - (b : ℤ) + 1) = (2 : ℚ) ^ (a + 1) / (2 : ℚ) ^ b := by
      rw [show (a : ℤ) - (b : ℤ) + 1 = ((a + 1 : ℕ) : ℤ) - (b : ℤ) by push_cast; ring]
      rw [zpow_sub₀ (by norm_num), zpow_natCast, zpow_natCast]
    rw [e]
    nth_rewrite 1 [hqe]
    apply div_lt_div₀ A2 B1 (by positivity) (by positivity)
  unfold binade
  split
  · rename_i h
    rw [pow2_eq, abs_of_pos hq] at h
    exact ⟨h, hhigh⟩
  · rename_i h
    rw [pow2_eq, abs_of_pos hq, not_le] at h
    refine ⟨hlow, ?_⟩
    rw [show (a : ℤ) - (b : ℤ) - 1 + 1 = (a : ℤ) - (b : ℤ) by ring]
    exact h

theorem binade_mono (p q : ℚ) (hp : 0 < p) (hpq : p ≤ q) : binade p ≤ binade q := by
  obtain ⟨p1, -⟩ := binade_spec p hp
  obtain ⟨-, q2⟩ := binade_spec q (lt_of_lt_of_le hp hpq)
  have h : (2 : ℚ) ^ binade p < (2 : ℚ) ^ (binade q + 1) := lt_of_le_of_lt (p1.trans hpq) q2
  have := (zpow_lt_zpow_iff_right₀ (by norm_num : (1 : ℚ) < 2)).mp h
  omega

theorem roundHalfEven_bounds (q : ℚ) :
    ⌊q⌋ ≤ roundHalfEven q ∧ roundHalfEven q ≤ ⌊q⌋ + 1 ∧
      (roundHalfEven q = ⌊q⌋ → q - ⌊q⌋ ≤ 1 / 2) ∧
      (roundHalfEven q = ⌊q⌋ + 1 → 1 / 2 ≤ q - ⌊q⌋) := by
  unfold roundHalfEven
  split_ifs with h1 h2 h3
  · refine ⟨le_rfl, by omega, fun _ => h1.le, fun h => by omega⟩
  · refine ⟨by omega, le_rfl, fun h => by omega, fun _ => h2.le⟩
  · refine ⟨le_rfl, by omega, fun _ => by linarith, fun h => by omega⟩
  · refine ⟨by omega, le_rfl, fun h => by omega, fun _ => by linarith⟩

theorem roundHalfEven_mono (p q : ℚ) (h : p ≤ q) : roundHalfEven p ≤ roundHalfEven q := by
  have hf : ⌊p⌋ ≤ ⌊q⌋ := Int.floor_le_floor h
  obtain ⟨p1, p2, p3, p4⟩ := roundHalfEven_bounds p
  obtain ⟨q1, q2, q3, q4⟩ := roundHalfEven_bounds q
  rcases lt_or_eq_of_le hf with hlt | heq
  · omega
  · by_contra hcon
    have hp : roundHalfEven p = ⌊p⌋ + 1 := by omega
    have hq : roundHalfEven q = ⌊q⌋ := by omega
    have hp' := p4 hp
    have hq' := q3 hq
    have hfl : (⌊p⌋ : ℚ) = (⌊q⌋ : ℚ) := by rw [heq]
    have hpe : p - ⌊p⌋ = 1 / 2 := by linarith
    have hqe : q - ⌊q⌋ = 1 / 2 := by linarith
    unfold roundHalfEven at hp hq
    rw [hpe] at hp
    rw [hqe] at hq
    norm_num at hp hq
    omega

theorem roundHalfEven_intCast (n : ℤ) : roundHalfEven (n : ℚ) = n := by
  unfold roundHalfEven
  simp

theorem fl64_nonneg (q : ℚ) (hq : 0 ≤ q) : 0 ≤ fl64 q := by
  unfold fl64
  split
  · exact le_rfl
  · apply mul_nonneg _ (pow2_pos _).le
    have h0 : (0 : ℚ) ≤ q / pow2 (max (binade q) (-1022) - 52) := div_nonneg hq (pow2_pos _).le
    have := roundHalfEven_mono 0 _ h0
    have h00 : roundHalfEven 0 = 0 := by simpa using roundHalfEven_intCast 0
    rw [h00] at this
    exact_mod_cast this

theorem fl64_mono (p q : ℚ) (hp : 0 ≤ p) (hpq : p ≤ q) : fl64 p ≤ fl64 q := by
  rcases eq_or_lt_of_le hp with h0 | hpos
  · rw [← h0]
    have : fl64 0 = 0 := by simp [fl64]
    rw [this]
    exact fl64_nonneg q (hp.trans hpq)
  · have hqpos : 0 < q := lt_of_lt_of_le hpos hpq
    have hb := binade_mono p q hpos hpq
    obtain ⟨-, p2⟩ := binade_spec p hpos
    obtain ⟨q1, -⟩ := binade_spec q hqpos
    unfold fl64
    rw [if_neg hpos.ne', if_neg hqpos.ne']
    simp only [pow2_eq]
    set ep := max (binade p) (-1022) with hep
    set eq := max (binade q) (-1022) with heq
    have hle : ep ≤ eq := max_le_max hb le_rfl
    rcases eq_or_lt_of_le hle with he | hlt
    · rw [← he]
      apply mul_le_mul_of_nonneg_right _ (by positivity)
      have := roundHalfEven_mono (p / (2 : ℚ) ^ (ep - 52)) (q / (2 : ℚ) ^ (ep - 52))
        (div_le_div_of_nonneg_right hpq (by positivity))
      exact_mod_cast this
    · have hbq : eq = binade q := by
        rw [heq]
        apply max_eq_left
        by_contra hcon
        have : eq = -1022 := by rw [heq]; exact max_eq_right (by omega)
        have : -1022 ≤ ep := le_max_right _ _
        omega
      have hpb : binade p ≤ ep := le_max_left _ _
      have hp53 : p / (2 : ℚ) ^ (ep - 52) ≤ ((2 ^ 53 : ℤ) : ℚ) := by
        rw [div_le_iff₀ (by positivity)]
        have e : ((2 ^ 53 : ℤ) : ℚ) * (2 : ℚ) ^ (ep - 52) = (2 : ℚ) ^ (ep + 1) := by
          rw [show ep + 1 = 53 + (ep - 52) by ring, zpow_add₀ (by norm_num)]
          norm_num
        rw [e]
        have : (2 : ℚ) ^ (binade p + 1) ≤ (2 : ℚ) ^ (ep + 1) :=
          zpow_le_zpow_right₀ (by norm_num) (by omega)
        linarith
      have hr1 := roundHalfEven_mono _ _ hp53
      rw [roundHalfEven_intCast] at hr1
      have hr1q : ((roundHalfEven (p / (2 : ℚ) ^ (ep - 52)) : ℤ) : ℚ) ≤ ((2 ^ 53 : ℤ) : ℚ) := by
        exact_mod_cast hr1
      have hup : ((roundHalfEven (p / (2 : ℚ) ^ (ep - 52)) : ℤ) : ℚ) * (2 : ℚ) ^ (ep - 52)
          ≤ (2 : ℚ) ^ (ep + 1) := by
        have e : ((2 ^ 53 : ℤ) : ℚ) * (2 : ℚ) ^ (ep - 52) = (2 : ℚ) ^ (ep + 1) := by
          rw [show ep + 1 = 53 + (ep - 52) by ring, zpow_add₀ (by norm_num)]
          norm_num
        rw [← e]
        exact mul_le_mul_of_nonneg_right hr1q (by positivity)
      have hq52 : ((2 ^ 52 : ℤ) : ℚ) ≤ q / (2 : ℚ) ^ (eq - 52) := by
        rw [le_div_iff₀ (by positivity)]
        have e : ((2 ^ 52 : ℤ) : ℚ) * (2 : ℚ) ^ (eq - 52) = (2 : ℚ) ^ eq := by
          rw [show eq = 52 + (eq - 52) by ring, zpow_add₀ (by norm_num)]
          norm_num
        rw [e, hbq]
        exact q1
      have hr2 := roundHalfEven_mono _ _ hq52
      rw [roundHalfEven_intCast] at hr2
      have hr2q : ((2 ^ 52 : ℤ) : ℚ) ≤ ((roundHalfEven (q / (2 : ℚ) ^ (eq - 52)) : ℤ) : ℚ) := by
        exact_mod_cast hr2
      have hlo : (2 : ℚ) ^ eq
          ≤ ((roundHalfEven (q / (2 : ℚ) ^ (eq - 52)) : ℤ) : ℚ) * (2 : ℚ) ^ (eq - 52) := by
        have e : ((2 ^ 52 : ℤ) : ℚ) * (2 : ℚ) ^ (eq - 52) = (2 : ℚ) ^ eq := by
          rw [show eq = 52 + (eq - 52) by ring, zpow_add₀ (by norm_num)]
          norm_num
        rw [← e]
        exact mul_le_mul_of_nonneg_right hr2q (by positivity)
      have hmid : (2 : ℚ) ^ (ep + 1) ≤ (2 : ℚ) ^ eq :=
        zpow_le_zpow_right₀ (by norm_num) (by omega)
      linarith

/-! ## Claims settled in double arithmetic -/

theorem round_twice_nearest (q : ℚ) :
    |((jsRound q * 2 : ℤ) : ℚ) - 2 * q| ≤ 1 ∧
      ∀ k : ℤ, Even k → |((jsRound q * 2 : ℤ) : ℚ) - 2 * q| ≤ |(k : ℚ) - 2 * q| := by
  have h1 := jsRound_le q
  have h2 := jsRound_gt q
  have hcast : ((jsRound q * 2 : ℤ) : ℚ) = 2 * (jsRound q : ℚ) := by
    push_cast
    ring
  have hclose : |((jsRound q * 2 : ℤ) : ℚ) - 2 * q| ≤ 1 := by
    rw [hcast, abs_le]
    constructor <;> linarith
  refine ⟨hclose, ?_⟩
  intro k hk
  by_cases hkn : k = jsRound q * 2
  · rw [hkn]
  · obtain ⟨a, ha⟩ := hk
    have hne : a ≠ jsRound q := by
      intro h
      apply hkn
      rw [ha, h]
      ring
    have hgap : (2 : ℚ) ≤ |(k : ℚ) - ((jsRound q * 2 : ℤ) : ℚ)| := by
      rw [hcast, ha]
      push_cast
      have hz : (1 : ℤ) ≤ |a - jsRound q| := Int.one_le_abs (sub_ne_zero.mpr hne)
      have hq : (1 : ℚ) ≤ |(a : ℚ) - (jsRound q : ℚ)| := by
        exact_mod_cast hz
      have he : (a : ℚ) + a - 2 * (jsRound q : ℚ) = 2 * ((a : ℚ) - (jsRound q : ℚ)) := by ring
      rw [he, abs_mul, abs_two]
      linarith
    have htri : |(k : ℚ) - ((jsRound q * 2 : ℤ) : ℚ)|
        ≤ |(k : ℚ) - 2 * q| + |((jsRound q * 2 : ℤ) : ℚ) - 2 * q| := by
      have := abs_sub_le (k : ℚ) (2 * q) ((jsRound q * 2 : ℤ) : ℚ)
      rwa [abs_sub_comm (2 * q) _] at this
    linarith

theorem footNumR_of_ne_zero (a : Arith) (thick width : ℚ) (hw : width ≠ 0) :
    (footSetupR a thick width).footNum = jsRound (a.fl (a.fl (thick / 2) / width)) * 2 := by
  unfold footSetupR
  simp [hw]

/-- Counterexample to C2 in double arithmetic: the thickness
3.0000000000000004 and the width 1.0000000000000002 are doubles; the quotient
`halfThk / footWidth` rounds to the double 1.5, `Math.round` gives 2 and
`footNum` is 4, while `thickness / footWidth` is below 3: 4 is more than 1
away from it, and the even integer 2 is nearer. -/
theorem C2_rounded_quotient_counterexample :
    fl64 tieThick = tieThick ∧ fl64 tieWidth = tieWidth ∧ 0 < tieThick ∧ 0 < tieWidth ∧
      fl64 (fl64 (tieThick / 2) / tieWidth) = 3 / 2 ∧
      (footSetupR doubleArith tieThick tieWidth).footNum = 4 ∧
      ¬ (|(4 : ℚ) - tieThick / tieWidth| ≤ 1) ∧
      |(2 : ℚ) - tieThick / tieWidth| < |(4 : ℚ) - tieThick / tieWidth| := by
  decide!

/-- C2 as amended, in any arithmetic `a` (exact or double): for a positive
entered width the layer count is `round(q) * 2` with `q` the quotient
`halfThk / footWidth` as computed; it is even, it differs from `2 q` by at
most 1 and no even integer is nearer to `2 q`; where the quotient is computed
without error the same holds of `thickness / footWidth`; thickness 10 with
width 2.5 gives 4, in doubles and in exact arithmetic. -/
theorem C2_footNum_nearest_even (a : Arith) (thick width : ℚ) (hw : 0 < width) :
    (footSetupR a thick width).footNum = jsRound (a.fl (a.fl (thick / 2) / width)) * 2 ∧
      Even (footSetupR a thick width).footNum ∧
      |((footSetupR a thick width).footNum : ℚ) - 2 * a.fl (a.fl (thick / 2) / width)| ≤ 1 ∧
      (∀ k : ℤ, Even k →
        |((footSetupR a thick width).footNum : ℚ) - 2 * a.fl (a.fl (thick / 2) / width)|
          ≤ |(k : ℚ) - 2 * a.fl (a.fl (thick / 2) / width)|) ∧
      (a.fl (a.fl (thick / 2) / width) = thick / 2 / width →
        |((footSetupR a thick width).footNum : ℚ) - thick / width| ≤ 1 ∧
        ∀ k : ℤ, Even k →
          |((footSetupR a thick width).footNum : ℚ) - thick / width| ≤ |(k : ℚ) - thick / width|) ∧
      (footSetupR doubleArith 10 (5 / 2)).footNum = 4 ∧ (footSetup 10 (5 / 2)).footNum = 4 := by
  have hn := footNumR_of_ne_zero a thick width hw.ne.symm
  obtain ⟨r1, r2⟩ := round_twice_nearest (a.fl (a.fl (thick / 2) / width))
  refine ⟨hn, ?_, ?_, ?_, ?_, by decide!, by decide!⟩
  · rw [hn]
    exact even_two.mul_left _
  · rw [hn]
    exact r1
  · rw [hn]
    exact r2
  · intro hex
    have hr : thick / width = 2 * (thick / 2 / width) := by
      field_simp
      ring
    rw [hn, hr, ← hex]
    exact ⟨r1, r2⟩

/-- Witness of the amended C2 in double arithmetic at thickness 10 and width
5/2. -/
theorem C2_footNum_nearest_even_witness :
    (0 : ℚ) < 5 / 2 ∧
      |((footSetupR doubleArith 10 (5 / 2)).footNum : ℚ)
        - 2 * doubleArith.fl (doubleArith.fl (10 / 2) / (5 / 2))| ≤ 1 :=
  ⟨by norm_num, (C2_footNum_nearest_even doubleArith 10 (5 / 2) (by norm_num)).2.2.1⟩

/-- Counterexample to C12 on the sample with thickness 1 and shell 1 flagged:
`footWidth` is 1/2 and `minEdgeLen` is 1, so the tolerance is 1/5 while
`minEdgeLen / 2.5` is 2/5, which exceeds it; in doubles likewise the
tolerance is 0.2 and the quotient 0.4. -/
theorem C12_tolerance_counterexample :
    (Outcome.state (run Rat.sqrt demoNormal demoMerge (demoSel [1] [1, 2]) thinModel)).map
        (fun s => s.minEdgeLen / (5 / 2)) = some (2 / 5) ∧
      Outcome.tol (run Rat.sqrt demoNormal demoMerge (demoSel [1] [1, 2]) thinModel)
        = some (1 / 5) ∧
      ¬ ((2 / 5 : ℚ) ≤ 1 / 5) ∧
      mergeTolR doubleArith 1 (1 / 2) = fl64 (1 / 5) ∧
      fl64 (1 / (5 / 2)) = fl64 (2 / 5) ∧
      ¬ (fl64 (2 / 5) ≤ fl64 (1 / 5)) := by
  decide!

theorem two_fifths_le_fl64 : (2 / 5 : ℚ) ≤ fl64 (2 / 5) := by decide!

theorem mergeTolR_double_ge (me w : ℚ) (h0 : 0 ≤ me) (hle : me ≤ w) :
    fl64 (me / (5 / 2)) ≤ mergeTolR doubleArith me w := by
  unfold mergeTolR doubleArith
  simp only []
  rw [min_eq_left hle]
  apply fl64_mono
  · positivity
  · have h := two_fifths_le_fl64
    have : me / (5 / 2) = 2 / 5 * me := by ring
    rw [this]
    exact mul_le_mul_of_nonneg_right h h0

/-- C12 as amended: a run that reaches line 222 with a finite `footWidth`
(`footNum` is not 0) uses `tol = 0.4 * min(minEdgeLen, footWidth)`.  When
`minEdgeLen <= footWidth`, `minEdgeLen / 2.5` does not exceed the tolerance
(the two are equal); when `footWidth < minEdgeLen` the tolerance is strictly
below `minEdgeLen / 2.5`.  In double arithmetic, for `0 <= minEdgeLen <=
footWidth`, the quotient `minEdgeLen / 2.5` as computed is at most the
tolerance as computed on line 219. -/
theorem C12_tolerance_bound (sqrt : ℚ → ℚ) (NormalVector : Shell → Vec3)
    (Merge : Model → List ℕ → ℚ → Model) (sel : Selection) (m : Model) (s : LoopState)
    (tol : ℚ) (merged : Model)
    (h : run sqrt NormalVector Merge sel m = Outcome.done s tol merged) :
    ∃ thick fw, resolveThick m sel.bShellSet = Except.ok thick ∧
      (footSetup thick sel.width).footWidth = some fw ∧
      (footSetup thick sel.width).footNum ≠ 0 ∧
      tol = 2 / 5 * min s.minEdgeLen fw ∧
      (s.minEdgeLen ≤ fw → s.minEdgeLen / (5 / 2) ≤ tol ∧ tol = s.minEdgeLen / (5 / 2)) ∧
      (fw < s.minEdgeLen → tol < s.minEdgeLen / (5 / 2)) ∧
      (∀ me w : ℚ, 0 ≤ me → me ≤ w → fl64 (me / (5 / 2)) ≤ mergeTolR doubleArith me w) := by
  obtain ⟨E1, E2, rest, thick, fw, -, ht, hfw, -, htol, -⟩ :=
    run_done sqrt NormalVector Merge sel m s tol merged h
  have hdiv : s.minEdgeLen / (5 / 2) = 2 / 5 * s.minEdgeLen := by ring
  have hnum : (footSetup thick sel.width).footNum ≠ 0 := by
    intro h0
    unfold footSetup at hfw h0
    by_cases hw : sel.width = 0
    · simp [hw] at h0
    · simp only [hw, if_false] at hfw h0
      rw [if_pos h0] at hfw
      simp at hfw
  refine ⟨thick, fw, ht, hfw, hnum, htol, ?_, ?_, mergeTolR_double_ge⟩
  · intro hle
    rw [hdiv, htol]
    unfold mergeTol
    rw [min_eq_left hle]
    exact ⟨le_rfl, rfl⟩
  · intro hlt
    rw [hdiv, htol]
    unfold mergeTol
    rw [min_eq_right hlt.le]
    linarith

/-- Witness of the amended C12 on the sample with shells 1 and 2 flagged. -/
theorem C12_tolerance_bound_witness :
    run Rat.sqrt demoNormal demoMerge (demoSel [1, 2] [1, 2]) demoModel
        = Outcome.done demoFinal (2 / 5) demoFinal.m ∧
      ∃ thick fw, resolveThick demoModel (demoSel [1, 2] [1, 2]).bShellSet = Except.ok thick ∧
        (footSetup thick (demoSel [1, 2] [1, 2]).width).footWidth = some fw ∧
        (footSetup thick (demoSel [1, 2] [1, 2]).width).footNum ≠ 0 ∧
        (2 / 5 : ℚ) = 2 / 5 * min demoFinal.minEdgeLen fw := by
  have hrun : run Rat.sqrt demoNormal demoMerge (demoSel [1, 2] [1, 2]) demoModel
      = Outcome.done demoFinal (2 / 5) demoFinal.m := by decide!
  obtain ⟨thick, fw, h1, h2, h3, h4, -⟩ := C12_tolerance_bound Rat.sqrt demoNormal demoMerge
    (demoSel [1, 2] [1, 2]) demoModel demoFinal (2 / 5) demoFinal.m hrun
  exact ⟨hrun, thick, fw, h1, h2, h3, h4⟩

/-- C18: let `c` be the cross product of the edge vector
`EdgeNode2 - EdgeNode1` with an element normal, and let the length
`sqrt(c . c)` that `vec_norm` divides by be other than 0 (for an exact square
root: let `c` be other than 0).  Then the signed distances of both edge nodes
to the foot plane are exactly 0, and `edgeCheck` accepts both. -/
theorem C18_edge_nodes_on_plane (sqrt : ℚ → ℚ) (m : Model) (E1 E2 : Node) (n : Vec3)
    (c0 c1 c2 : ℚ) (h1 : Node.GetFromID m E1.nid = some E1)
    (h2 : Node.GetFromID m E2.nid = some E2)
    (hc : CrossProduct (relVec E1 E2) n.toList = Except.ok [c0, c1, c2])
    (hmag : sqrt (normSq [c0, c1, c2]) ≠ 0) :
    ∃ f, footNormalOf sqrt (relVec E1 E2) n = Except.ok (some f) ∧
      DotProduct (relVec E1 E1) f = Except.ok 0 ∧ DotProduct (relVec E1 E2) f = Except.ok 0 ∧
      edgeCheck m E1 (some f) E1.nid = Except.ok true ∧
      edgeCheck m E1 (some f) E2.nid = Except.ok true := by
  obtain ⟨-, -, hcv⟩ := CrossProduct_ok _ _ _ hc
  simp only [relVec, Vec3.toList, List.getD_cons_zero, List.getD_cons_succ, List.cons.injEq,
    and_true] at hcv
  obtain ⟨e0, e1, e2⟩ := hcv
  have hplane : planeOffset E1 [c0, c1, c2] E2 = 0 := by
    simp only [planeOffset, List.getD_cons_zero, List.getD_cons_succ]
    rw [e0, e1, e2]
    ring
  have hoff1 : planeOffset E1 [c0 / sqrt (normSq [c0, c1, c2]), c1 / sqrt (normSq [c0, c1, c2]),
      c2 / sqrt (normSq [c0, c1, c2])] E1 = 0 := by
    simp [planeOffset]
  have hoff2 : planeOffset E1 [c0 / sqrt (normSq [c0, c1, c2]), c1 / sqrt (normSq [c0, c1, c2]),
      c2 / sqrt (normSq [c0, c1, c2])] E2 = 0 := by
    rw [planeOffset_div, hplane, zero_div]
  have htol : (0 : ℚ) < planeTol := by norm_num [planeTol]
  refine ⟨_, footNormalOf_some sqrt _ n c0 c1 c2 hc hmag, ?_, ?_, ?_, ?_⟩
  · simp only [relVec]
    rw [DotProduct_three]
    simp
  · simp only [relVec]
    rw [DotProduct_three]
    simpa [planeOffset] using hoff2
  · rw [edgeCheck_some m E1 E1 _ _ _ _ h1, hoff1]
    simp [htol]
  · rw [edgeCheck_some m E1 E2 _ _ _ _ h2, hoff2]
    simp [htol]

/-- Witness of C18 on an edge along the diagonal: edge nodes `(0, 0, 0)` and
`(1, 1, 0)`, normal `(0, 0, 1)`, cross product `(1, -1, 0)`. -/
theorem C18_edge_nodes_on_plane_witness :
    CrossProduct (relVec ⟨1, 0, 0, 0⟩ ⟨2, 1, 1, 0⟩) (⟨0, 0, 1⟩ : Vec3).toList
        = Except.ok [1, -1, 0] ∧
      Rat.sqrt (normSq [1, -1, 0]) ≠ 0 ∧
      ∃ f, footNormalOf Rat.sqrt (relVec ⟨1, 0, 0, 0⟩ ⟨2, 1, 1, 0⟩) ⟨0, 0, 1⟩
          = Except.ok (some f) ∧
        edgeCheck slantModel ⟨1, 0, 0, 0⟩ (some f) 1 = Except.ok true ∧
        edgeCheck slantModel ⟨1, 0, 0, 0⟩ (some f) 2 = Except.ok true := by
  obtain ⟨f, h1, -, -, h4, h5⟩ := C18_edge_nodes_on_plane Rat.sqrt slantModel ⟨1, 0, 0, 0⟩
    ⟨2, 1, 1, 0⟩ ⟨0, 0, 1⟩ 1 (-1) 0 (by decide!) (by decide!) (by decide!) (by decide!)
  exact ⟨by decide!, by decide!, f, h1, h4, h5⟩

/-- Counterexample to C19 in double arithmetic: local edge nodes `(0, 0, 0)`
and `(0.3, 0.4, 0)`, element normal `(0.8, -0.6, 0)`, `footWidth = halfThk =
5`.  At `x = 0` the offset is -5 and the new nodes are `(-4, 3, 0)` and
`(-3.7, 3.4, 0)` (the doubles nearest to these): the displacement of the
rung is not that of the edge segment, the rung is 0.49999999999999983 long
(as is the rung at `x = 2`) while the edge segment is 0.5 long, and the
minimum of 1 and the rungs is not the minimum of 1 and the edge segment. -/
theorem C19_rounded_rung_counterexample :
    wallB = ⟨2, fl64 (3 / 10), fl64 (2 / 5), 0⟩ ∧ wallN = ⟨fl64 (4 / 5), fl64 (-3 / 5), 0⟩ ∧
      armOffsetR doubleArith 5 5 0 = -5 ∧ armOffsetR doubleArith 5 5 2 = 5 ∧
      offsetNodeR doubleArith 9 ⟨1, 0, 0, 0⟩ wallN (-5) = ⟨9, -4, 3, 0⟩ ∧
      offsetNodeR doubleArith 10 wallB wallN (-5)
        = ⟨10, -4165829655317709 / 1125899906842624, 7656119366529843 / 2251799813685248, 0⟩ ∧
      fl64 (-4 - -4165829655317709 / 1125899906842624) ≠ fl64 (0 - wallB.x) ∧
      edgeLenR doubleArith (offsetNodeR doubleArith 9 ⟨1, 0, 0, 0⟩ wallN (-5))
          (offsetNodeR doubleArith 10 wallB wallN (-5))
        = 9007199254740989 / 18014398509481984 ∧
      edgeLenR doubleArith (offsetNodeR doubleArith 11 ⟨1, 0, 0, 0⟩ wallN 5)
          (offsetNodeR doubleArith 12 wallB wallN 5)
        = 9007199254740989 / 18014398509481984 ∧
      edgeLenR doubleArith ⟨1, 0, 0, 0⟩ wallB = 1 / 2 ∧
      min (min (1 : ℚ) (9007199254740989 / 18014398509481984))
          (9007199254740989 / 18014398509481984) ≠ min 1 (1 / 2) := by
  decide!

/-- Counterexample to C16 in double arithmetic: for the edge from `(0, 0, 0)`
to `(1, 1, 0)` and the normal `(0, 0, 1)` the script computes the foot-plane
normal `slantNormal`, and `edgeCheck` accepts node 3 at
`(50, 49.999998585786436, 0)`, whose distance `d` to the plane through
`EdgeNode1` orthogonal to the cross product `c = (1, -1, 0)` is above 1e-6:
`d^2 (c . c) = ((p - E) . c)^2 > 1e-12 (c . c)`. -/
theorem C16_rounded_distance_counterexample :
    footNormalOfR doubleArith (relVec ⟨1, 0, 0, 0⟩ ⟨2, 1, 1, 0⟩) ⟨0, 0, 1⟩
        = Except.ok (some slantNormal) ∧
      edgeCheckR doubleArith slantModel ⟨1, 0, 0, 0⟩ (some slantNormal) 3 = Except.ok true ∧
      CrossProduct (relVec ⟨1, 0, 0, 0⟩ ⟨2, 1, 1, 0⟩) (⟨0, 0, 1⟩ : Vec3).toList
        = Except.ok [1, -1, 0] ∧
      planeTol ^ 2 * normSq [1, -1, 0]
        < planeOffset ⟨1, 0, 0, 0⟩ [1, -1, 0]
            ⟨3, 50, 7036874218733535 / 140737488355328, 0⟩ ^ 2 := by
  decide!

theorem edgeCheck_scaled (sqrt : ℚ → ℚ) (m : Model) (E node : Node) (c0 c1 c2 : ℚ) (id : ℕ)
    (hmag : sqrt (normSq [c0, c1, c2]) ≠ 0) (hnode : Node.GetFromID m id = some node) :
    edgeCheck m E (some [c0 / sqrt (normSq [c0, c1, c2]), c1 / sqrt (normSq [c0, c1, c2]),
        c2 / sqrt (normSq [c0, c1, c2])]) id
      = Except.ok (decide (|planeOffset E [c0, c1, c2] node|
          < planeTol * |sqrt (normSq [c0, c1, c2])|)) := by
  rw [edgeCheck_some m E node _ _ _ id hnode, planeOffset_div, abs_div]
  have h : |planeOffset E [c0, c1, c2] node| / |sqrt (normSq [c0, c1, c2])| < planeTol
      ↔ |planeOffset E [c0, c1, c2] node| < planeTol * |sqrt (normSq [c0, c1, c2])| :=
    div_lt_iff₀ (abs_pos.mpr hmag)
  exact congrArg Except.ok (decide_eq_decide.mpr h)

/-- C16 as amended, in exact arithmetic: let `c = CrossProduct(edgeVec, n)` be
non-zero, `mag = sqrt(c . c)` the length `vec_norm` divides by, other than 0,
and `d` the perpendicular distance from the node to the plane through
`EdgeNode1` orthogonal to `c` (`0 <= d` and `d^2 (c . c) = ((p - E) . c)^2`).
Then `edgeCheck` returns true or false, true exactly when
`d * (|c| / |mag|) < 1e-6`; when the square root is exact (`|mag| = |c|`),
exactly when `d < 1e-6`; and when `mag` is within the relative error `ε` of
`|c|`, it returns true whenever `d < (1 - ε) * 1e-6` and only if
`d < (1 + ε) * 1e-6`. -/
theorem C16_edgeCheck_distance (sqrt : ℚ → ℚ) (m : Model) (E : Node) (edgeVec : List ℚ)
    (n : Vec3) (c0 c1 c2 : ℚ) (node : Node) (id : ℕ)
    (hc : CrossProduct edgeVec n.toList = Except.ok [c0, c1, c2])
    (hnz : [c0, c1, c2] ≠ [0, 0, 0])
    (hmag : sqrt (normSq [c0, c1, c2]) ≠ 0)
    (hnode : Node.GetFromID m id = some node) :
    ∃ (f : List ℚ) (d : ℝ), footNormalOf sqrt edgeVec n = Except.ok (some f) ∧
      0 ≤ d ∧
      d ^ 2 * ((normSq [c0, c1, c2] : ℚ) : ℝ) = ((planeOffset E [c0, c1, c2] node : ℚ) : ℝ) ^ 2 ∧
      (edgeCheck m E (some f) id = Except.ok true ∨
        edgeCheck m E (some f) id = Except.ok false) ∧
      (edgeCheck m E (some f) id = Except.ok true ↔
        d * (Real.sqrt ((normSq [c0, c1, c2] : ℚ) : ℝ) / |((sqrt (normSq [c0, c1, c2]) : ℚ) : ℝ)|)
          < ((planeTol : ℚ) : ℝ)) ∧
      (|((sqrt (normSq [c0, c1, c2]) : ℚ) : ℝ)| = Real.sqrt ((normSq [c0, c1, c2] : ℚ) : ℝ) →
        (edgeCheck m E (some f) id = Except.ok true ↔ d < ((planeTol : ℚ) : ℝ))) ∧
      (∀ ε : ℝ,
        (1 - ε) * Real.sqrt ((normSq [c0, c1, c2] : ℚ) : ℝ)
            ≤ |((sqrt (normSq [c0, c1, c2]) : ℚ) : ℝ)| →
        |((sqrt (normSq [c0, c1, c2]) : ℚ) : ℝ)|
            ≤ (1 + ε) * Real.sqrt ((normSq [c0, c1, c2] : ℚ) : ℝ) →
        (d < (1 - ε) * ((planeTol : ℚ) : ℝ) → edgeCheck m E (some f) id = Except.ok true) ∧
        (edgeCheck m E (some f) id = Except.ok true → d < (1 + ε) * ((planeTol : ℚ) : ℝ))) := by
  have hpos := normSq_pos c0 c1 c2 hnz
  set S : ℚ := normSq [c0, c1, c2] with hS
  set mag : ℚ := sqrt S with hmagdef
  set P : ℚ := planeOffset E [c0, c1, c2] node with hP
  have hSr : (0 : ℝ) < (S : ℝ) := by exact_mod_cast hpos
  have hroot : 0 < Real.sqrt (S : ℝ) := Real.sqrt_pos.mpr hSr
  have hmagr : (0 : ℝ) < |(mag : ℝ)| := abs_pos.mpr (by exact_mod_cast hmag)
  have htol : (0 : ℝ) < ((planeTol : ℚ) : ℝ) := by
    have : (0 : ℚ) < planeTol := by norm_num [planeTol]
    exact_mod_cast this
  have hcheck := edgeCheck_scaled sqrt m E node c0 c1 c2 id hmag hnode
  have htrue : edgeCheck m E (some [c0 / mag, c1 / mag, c2 / mag]) id = Except.ok true
      ↔ |(P : ℝ)| < ((planeTol : ℚ) : ℝ) * |(mag : ℝ)| := by
    rw [hcheck]
    simp only [Except.ok.injEq, decide_eq_true_eq]
    constructor
    · intro h
      have : ((|P| : ℚ) : ℝ) < ((planeTol * |mag| : ℚ) : ℝ) := by exact_mod_cast h
      simpa using this
    · intro h
      have : ((|P| : ℚ) : ℝ) < ((planeTol * |mag| : ℚ) : ℝ) := by simpa using h
      exact_mod_cast this
  have hd : |(P : ℝ)| / Real.sqrt (S : ℝ) * Real.sqrt (S : ℝ) = |(P : ℝ)| :=
    div_mul_cancel₀ _ hroot.ne'
  refine ⟨_, |(P : ℝ)| / Real.sqrt (S : ℝ), footNormalOf_some sqrt edgeVec n c0 c1 c2 hc hmag,
    by positivity, ?_, ?_, ?_, ?_, ?_⟩
  · rw [div_pow, Real.sq_sqrt hSr.le, sq_abs]
    field_simp
  · rw [hcheck]
    by_cases hlt : |P| < planeTol * |mag|
    · left
      simp [hlt]
    · right
      simp [hlt]
  · rw [htrue]
    have e : |(P : ℝ)| / Real.sqrt (S : ℝ) * (Real.sqrt (S : ℝ) / |(mag : ℝ)|)
        = |(P : ℝ)| / |(mag : ℝ)| := by
      field_simp
    rw [e, div_lt_iff₀ hmagr]
  · intro hex
    rw [htrue, hex, div_lt_iff₀ hroot]
  · intro ε hlo hhi
    constructor
    · intro hlt
      rw [htrue]
      have h1 : |(P : ℝ)| < (1 - ε) * ((planeTol : ℚ) : ℝ) * Real.sqrt (S : ℝ) := by
        rw [← hd]
        exact mul_lt_mul_of_pos_right hlt hroot
      have h2 : (1 - ε) * ((planeTol : ℚ) : ℝ) * Real.sqrt (S : ℝ)
          = ((planeTol : ℚ) : ℝ) * ((1 - ε) * Real.sqrt (S : ℝ)) := by ring
      rw [h2] at h1
      exact lt_of_lt_of_le h1 (mul_le_mul_of_nonneg_left hlo htol.le)
    · intro ht
      rw [htrue] at ht
      have h1 : |(P : ℝ)| < ((planeTol : ℚ) : ℝ) * ((1 + ε) * Real.sqrt (S : ℝ)) :=
        lt_of_lt_of_le ht (mul_le_mul_of_nonneg_left hhi htol.le)
      rw [div_lt_iff₀ hroot]
      linarith

/-- Witness of the amended C16 on an edge along the diagonal: edge vector
`(1, 1, 0)`, normal `(0, 0, 1)`, cross product `(1, -1, 0)` of length
`sqrt 2`, node 3 of `slantModel`. -/
theorem C16_edgeCheck_distance_witness :
    CrossProduct (relVec ⟨1, 0, 0, 0⟩ ⟨2, 1, 1, 0⟩) (⟨0, 0, 1⟩ : Vec3).toList
        = Except.ok [1, -1, 0] ∧
      Rat.sqrt (normSq [1, -1, 0]) ≠ 0 ∧
      ∃ (f : List ℚ) (d : ℝ),
        footNormalOf Rat.sqrt (relVec ⟨1, 0, 0, 0⟩ ⟨2, 1, 1, 0⟩) ⟨0, 0, 1⟩
          = Except.ok (some f) ∧ 0 ≤ d ∧
        (edgeCheck slantModel ⟨1, 0, 0, 0⟩ (some f) 3 = Except.ok true ↔
          d * (Real.sqrt ((normSq [1, -1, 0] : ℚ) : ℝ)
            / |((Rat.sqrt (normSq [1, -1, 0]) : ℚ) : ℝ)|) < ((planeTol : ℚ) : ℝ)) := by
  obtain ⟨f, d, h1, h2, -, -, h5, -⟩ := C16_edgeCheck_distance Rat.sqrt slantModel
    ⟨1, 0, 0, 0⟩ (relVec ⟨1, 0, 0, 0⟩ ⟨2, 1, 1, 0⟩) ⟨0, 0, 1⟩ 1 (-1) 0
    ⟨3, 50, 7036874218733535 / 140737488355328, 0⟩ 3
    (by decide!) (by decide!) (by decide!) (by decide!)
  exact ⟨by decide!, by decide!, f, d, h1, h2, h5⟩

end ShellFoot
